import Mathlib

/-!
Verification development for the batch anchor scheduler
(src/lib/batch/plan.ts, src/lib/batch/executor.ts, src/lib/batch/reviewQueue.ts).

The TypeScript sources are shallowly embedded as executable Lean functions:
JS numbers that are always integers in the scheduler become `Int`/`Nat`,
`Date.now()` becomes a logical clock that advances at every read, records
keyed by anchor id become association lists in record-insertion order, and
asynchronous completion order becomes an explicit schedule oracle.
-/

set_option maxHeartbeats 1600000

namespace Infinimap

/-! ## Data model (src/lib/batch/types.ts) -/

/-- Anchor task status enumeration from types.ts. -/
inductive AnchorTaskStatus
  | PENDING
  | RUNNING
  | SUCCESS
  | FAILED
  | BLOCKED
  deriving DecidableEq, Repr

/-- Parent refresh job status enumeration from types.ts. -/
inductive ParentRefreshJobStatus
  | QUEUED
  | RUNNING
  | SUCCESS
  | FAILED
  deriving DecidableEq, Repr

structure TileCoord where
  x : Int
  y : Int
  deriving DecidableEq, Repr

structure TileBounds where
  minX : Int
  minY : Int
  maxX : Int
  maxY : Int
  deriving DecidableEq, Repr

structure AnchorPriority where
  distance : Int
  bucket : Int
  quadrantOrder : Int
  deriving DecidableEq, Repr

structure AnchorTask where
  id : String
  u : Int
  v : Int
  x : Int
  y : Int
  deps : List String
  dependents : List String
  priority : AnchorPriority
  status : AnchorTaskStatus
  attempts : Nat
  waveIndex : Option Nat := none
  startedAt : Option Nat := none
  finishedAt : Option Nat := none
  blockedBy : Option String := none
  error : Option String := none
  deriving DecidableEq, Repr

structure WaveResult where
  waveIndex : Nat
  taskIds : List String
  successIds : List String
  failedIds : List String
  blockedIds : List String
  startedAt : Nat
  finishedAt : Nat
  deriving DecidableEq, Repr

/-! ## Planner (src/lib/batch/plan.ts) -/

/-- plan.ts `inBounds`. -/
def inBounds (x y width height : Int) : Bool :=
  decide (0 ≤ x) && decide (0 ≤ y) && decide (x < width) && decide (y < height)

/-- plan.ts `anchorIdFromUV`: the template literal `u:{u},v:{v}`. -/
def anchorIdFromUV (u v : Int) : String :=
  "u:" ++ toString u ++ ",v:" ++ toString v

/-- plan.ts `stepTowardZero`. -/
def stepTowardZero (value : Int) : Int :=
  if value = 0 then 0 else value - Int.sign value

/-- plan.ts `priorityForAnchor`. -/
def priorityForAnchor (u v : Int) : AnchorPriority :=
  let distance := |u| + |v|
  if u = 0 ∧ v = 0 then ⟨distance, 0, 4⟩
  else if v = 0 then ⟨distance, 1, 4⟩
  else if u = 0 then ⟨distance, 2, 4⟩
  else if u > 0 ∧ v < 0 then ⟨distance, 3, 0⟩
  else if u < 0 ∧ v < 0 then ⟨distance, 3, 1⟩
  else if u > 0 ∧ v > 0 then ⟨distance, 3, 2⟩
  else if u < 0 ∧ v > 0 then ⟨distance, 3, 3⟩
  else ⟨distance, 3, 4⟩

/-- `String.localeCompare` as used in plan.ts line 93, modelled as the
lexicographic comparison on strings (the ids compared are ASCII). -/
def localeCompare (a b : String) : Int :=
  if a < b then -1 else if b < a then 1 else 0

/-- plan.ts `compareAnchorsByPriority`.  The sequence of early returns of the
source is rendered as a nested conditional; a branch such as
`if (a.priority.bucket === 1) { if (absA !== absB) return absA - absB; ... }`
becomes the pair of conditions `bucket = 1 ∧ |a.u| ≠ |b.u|` and
`bucket = 1 ∧ a.u ≠ b.u`. -/
def compareAnchorsByPriority (a b : AnchorTask) : Int :=
  if a.priority.distance ≠ b.priority.distance then
    a.priority.distance - b.priority.distance
  else if a.priority.bucket ≠ b.priority.bucket then
    a.priority.bucket - b.priority.bucket
  else if a.priority.bucket = 1 ∧ |a.u| ≠ |b.u| then |a.u| - |b.u|
  else if a.priority.bucket = 1 ∧ a.u ≠ b.u then a.u - b.u
  else if a.priority.bucket = 2 ∧ |a.v| ≠ |b.v| then |a.v| - |b.v|
  else if a.priority.bucket = 2 ∧ a.v ≠ b.v then a.v - b.v
  else if a.priority.bucket = 3 ∧ a.priority.quadrantOrder ≠ b.priority.quadrantOrder then
    a.priority.quadrantOrder - b.priority.quadrantOrder
  else if a.priority.bucket = 3 ∧ max |a.u| |a.v| ≠ max |b.u| |b.v| then
    max |a.u| |a.v| - max |b.u| |b.v|
  else if a.priority.bucket = 3 ∧ |a.u| ≠ |b.u| then |a.u| - |b.u|
  else if a.v ≠ b.v then a.v - b.v
  else if a.u ≠ b.u then a.u - b.u
  else localeCompare a.id b.id

/-- The sort relation induced by `compareAnchorsByPriority` (comparator result
at most zero), as consumed by `Array.prototype.sort`. -/
def anchorLe (a b : AnchorTask) : Prop :=
  compareAnchorsByPriority a b ≤ 0

instance : DecidableRel anchorLe := fun a b =>
  inferInstanceAs (Decidable (compareAnchorsByPriority a b ≤ 0))

/-- plan.ts `anchorsOverlap3x3`. -/
def anchorsOverlap3x3 (a b : AnchorTask) : Bool :=
  decide (|a.x - b.x| ≤ 2) && decide (|a.y - b.y| ≤ 2)

/-- The `(dx, dy)` pairs visited by the nested `for` loops of
`collectAnchorLeafTiles` (dy outer, dx inner, each from -1 to 1). -/
def leafOffsets : List (Int × Int) :=
  [(-1, -1), (0, -1), (1, -1), (-1, 0), (0, 0), (1, 0), (-1, 1), (0, 1), (1, 1)]

/-- plan.ts `collectAnchorLeafTiles` (taking the anchor's `x`, `y`). -/
def collectAnchorLeafTiles (x y mapWidth mapHeight : Int) : List TileCoord :=
  leafOffsets.filterMap fun d =>
    let tileX := x + d.1
    let tileY := y + d.2
    if inBounds tileX tileY mapWidth mapHeight then some ⟨tileX, tileY⟩ else none

/-- plan.ts `mergeCoverageBounds`. -/
def mergeCoverageBounds (current : Option TileBounds) (tiles : List TileCoord) :
    Option TileBounds :=
  match tiles with
  | [] => current
  | t0 :: _ =>
    let start := match current with
      | some b => b
      | none => ⟨t0.x, t0.y, t0.x, t0.y⟩
    some <| tiles.foldl
      (fun next tile =>
        ⟨min next.minX tile.x, min next.minY tile.y, max next.maxX tile.x, max next.maxY tile.y⟩)
      start

/-- plan.ts `dedupeTileCoords`: keep the first occurrence of each coordinate
(the source keys the `seen` set by the string `x,y`, which identifies the
coordinate pair). -/
def dedupeTileCoords (coords : List TileCoord) : List TileCoord :=
  go coords []
where
  go : List TileCoord → List TileCoord → List TileCoord
  | [], acc => acc.reverse
  | c :: rest, acc => if c ∈ acc then go rest acc else go rest (c :: acc)

structure BuildAnchorPlanInput where
  originX : Int
  originY : Int
  layers : Int
  mapWidth : Int
  mapHeight : Int
  deriving DecidableEq, Repr

structure AnchorPlan where
  anchors : List AnchorTask
  byId : String → Option AnchorTask
  priorityOrder : List String
  coverageBounds : Option TileBounds

/-- The closed integer interval `[lo, hi]` as a list, in ascending order. -/
def intRangeIncl (lo hi : Int) : List Int :=
  (List.range (hi - lo + 1).toNat).map fun (i : Nat) => lo + (i : Int)

/-- Lookup in a JS record keyed by anchor id (anchor ids in a plan are
pairwise distinct, so first-match lookup agrees with the record). -/
def lookupById (anchors : List AnchorTask) (id : String) : Option AnchorTask :=
  anchors.find? fun a => a.id == id

/-- The freshly generated anchor of `buildAnchorPlan` at offset `(u, v)`. -/
def freshAnchor (input : BuildAnchorPlanInput) (u v : Int) : AnchorTask :=
  { id := anchorIdFromUV u v, u := u, v := v,
    x := input.originX + 2 * u, y := input.originY + 2 * v,
    deps := [], dependents := [], priority := priorityForAnchor u v,
    status := .PENDING, attempts := 0 }

/-- The generation double loop of `buildAnchorPlan` (`v` outer, `u` inner),
dropping out-of-bounds anchors. -/
def planAnchors0 (input : BuildAnchorPlanInput) : List AnchorTask :=
  let layers := max 0 input.layers
  (intRangeIncl (-layers) layers).flatMap fun v =>
    (intRangeIncl (-layers) layers).filterMap fun u =>
      if inBounds (input.originX + 2 * u) (input.originY + 2 * v)
          input.mapWidth input.mapHeight then
        some (freshAnchor input u v)
      else none

/-- The body of the dependency pass of `buildAnchorPlan`: a non-origin
anchor points at `(u - sign u, v - sign v)` when that anchor exists in-plan
and is not the anchor itself. -/
def planDepPass (input : BuildAnchorPlanInput) (anchor : AnchorTask) : AnchorTask :=
  if anchor.u = 0 ∧ anchor.v = 0 then anchor
  else
    let depId := anchorIdFromUV (stepTowardZero anchor.u) (stepTowardZero anchor.v)
    if (lookupById (planAnchors0 input) depId).isSome ∧ depId ≠ anchor.id then
      { anchor with deps := [depId] }
    else anchor

/-- The dependency pass of `buildAnchorPlan`. -/
def planAnchors1 (input : BuildAnchorPlanInput) : List AnchorTask :=
  (planAnchors0 input).map (planDepPass input)

/-- The reverse edges accumulated by the third pass of `buildAnchorPlan` for
the anchor with the given id: the ids (in generation order) of the anchors
whose `deps` contain it. -/
def planDependentsOf (input : BuildAnchorPlanInput) (id : String) : List String :=
  ((planAnchors1 input).filter fun b => id ∈ b.deps).map (·.id)

/-- The reverse-edge pass of `buildAnchorPlan`. -/
def planAnchors2 (input : BuildAnchorPlanInput) : List AnchorTask :=
  (planAnchors1 input).map fun anchor =>
    { anchor with dependents := planDependentsOf input anchor.id }

/-- plan.ts `buildAnchorPlan`: generation, dependency and reverse-edge
passes, then the priority-sorted copy (`Array.prototype.sort` with a total
comparator, rendered as a sort by `anchorLe`) and the coverage fold. -/
def buildAnchorPlan (input : BuildAnchorPlanInput) : AnchorPlan :=
  let anchors2 := planAnchors2 input
  let sorted := anchors2.insertionSort anchorLe
  let coverageBounds := anchors2.foldl
    (fun cur anchor =>
      mergeCoverageBounds cur
        (collectAnchorLeafTiles anchor.x anchor.y input.mapWidth input.mapHeight))
    none
  { anchors := sorted,
    byId := fun id => lookupById anchors2 id,
    priorityOrder := sorted.map (·.id),
    coverageBounds := coverageBounds }

/-- One step of the dependency chain on offsets: lemma vocabulary for the
tree-shape statement (each anchor's dependency offset). -/
def parentUV (p : Int × Int) : Int × Int :=
  (stepTowardZero p.1, stepTowardZero p.2)

/-- The offset `(u, v)` generates an anchor of the plan: inside the layer
square and on the map. -/
def inGrid (input : BuildAnchorPlanInput) (u v : Int) : Prop :=
  -(max 0 input.layers) ≤ u ∧ u ≤ max 0 input.layers ∧
  -(max 0 input.layers) ≤ v ∧ v ≤ max 0 input.layers ∧
  inBounds (input.originX + 2 * u) (input.originY + 2 * v)
    input.mapWidth input.mapHeight = true

instance (input : BuildAnchorPlanInput) (u v : Int) : Decidable (inGrid input u v) :=
  inferInstanceAs (Decidable (_ ∧ _))

/-- The plan anchor at offset `(u, v)` after all three passes. -/
def planMember (input : BuildAnchorPlanInput) (u v : Int) : AnchorTask :=
  { planDepPass input (freshAnchor input u v) with
    dependents := planDependentsOf input (anchorIdFromUV u v) }

/-- Lexicographic comparison of a list of already-subtracted key components,
falling back to `fb` when all components are zero. -/
def lexCmp (ds : List Int) (fb : Int) : Int :=
  match ds with
  | [] => fb
  | d :: rest => if d = 0 then lexCmp rest fb else d

/-- The comparison key realized by `compareAnchorsByPriority`: the comparator
equals `lexCmp` on the pointwise differences of this list, with
`localeCompare` of the ids as fallback. -/
def priorityKey (a : AnchorTask) : List Int :=
  [a.priority.distance,
   a.priority.bucket,
   if a.priority.bucket = 1 then |a.u| else 0,
   if a.priority.bucket = 1 then a.u else 0,
   if a.priority.bucket = 2 then |a.v| else 0,
   if a.priority.bucket = 2 then a.v else 0,
   if a.priority.bucket = 3 then a.priority.quadrantOrder else 0,
   if a.priority.bucket = 3 then max |a.u| |a.v| else 0,
   if a.priority.bucket = 3 then |a.u| else 0,
   a.v,
   a.u]

/-! ## Decimal rendering helpers

`anchorIdFromUV` builds ids out of `toString (n : Int)`.  To reason about id
equality we need that decimal rendering is injective; `decimalVal` reads a
digit list back as its value. -/

/-- Value of a list of decimal digit characters (most significant first). -/
def decimalVal (cs : List Char) : Nat :=
  cs.foldl (fun acc c => 10 * acc + (c.toNat - 48)) 0

/-- The decimal digit list of a natural number, most significant first.
This is the mathematical specification that `Nat.toDigits 10` satisfies. -/
def decimalDigits (n : Nat) : List Char :=
  if _h : n < 10 then [Nat.digitChar n]
  else decimalDigits (n / 10) ++ [Nat.digitChar (n % 10)]
  decreasing_by
    exact Nat.div_lt_self (by omega) (by omega)

/-! ## Numeric option handling (src/lib/batch/executor.ts) -/

/-- A JavaScript number as seen by `clampInt`: NaN, the two infinities, or a
finite value. -/
inductive JSNum
  | nan
  | posInf
  | negInf
  | finite (val : Rat)
  deriving DecidableEq, Repr

/-- `Number.isFinite`. -/
def JSNum.isFinite : JSNum → Bool
  | .finite _ => true
  | _ => false

/-- `Math.floor` on a finite JS number (never reached for non-finite inputs
in `clampInt`, which returns early). -/
def jsFloor : JSNum → Int
  | .finite q => ⌊q⌋
  | _ => 0

/-- executor.ts `clampInt`. -/
def clampInt (value : JSNum) (lo hi : Int) : Int :=
  if !value.isFinite then lo
  else max lo (min hi (jsFloor value))

/-- The optional numeric fields of `StartBatchRunInput` routed through
`clampInt` by `startBatchRun` (executor.ts lines 255-262), plus the leaf
zoom `z` used as the upper bound of `parentCascadeDepth`. -/
structure BatchRunNumericOptions where
  z : Int
  maxParallel : Option JSNum := none
  maxGenerateRetries : Option JSNum := none
  parentJobRetries : Option JSNum := none
  parentWorkerConcurrency : Option JSNum := none
  parentDebounceMs : Option JSNum := none
  parentWaveBatchSize : Option JSNum := none
  parentLeafBatchSize : Option JSNum := none
  parentCascadeDepth : Option JSNum := none

/-- `clampInt(input.maxParallel ?? 4, 1, 16)`. -/
def effectiveMaxParallel (input : BatchRunNumericOptions) : Int :=
  clampInt (input.maxParallel.getD (.finite 4)) 1 16

/-- `clampInt(input.maxGenerateRetries ?? 3, 0, 10)`. -/
def effectiveMaxGenerateRetries (input : BatchRunNumericOptions) : Int :=
  clampInt (input.maxGenerateRetries.getD (.finite 3)) 0 10

/-- `clampInt(input.parentJobRetries ?? 2, 0, 10)`. -/
def effectiveParentJobRetries (input : BatchRunNumericOptions) : Int :=
  clampInt (input.parentJobRetries.getD (.finite 2)) 0 10

/-- `clampInt(input.parentWorkerConcurrency ?? 1, 1, 4)`. -/
def effectiveParentWorkerConcurrency (input : BatchRunNumericOptions) : Int :=
  clampInt (input.parentWorkerConcurrency.getD (.finite 1)) 1 4

/-- `clampInt(input.parentDebounceMs ?? 1000, 0, 60_000)`. -/
def effectiveParentDebounceMs (input : BatchRunNumericOptions) : Int :=
  clampInt (input.parentDebounceMs.getD (.finite 1000)) 0 60000

/-- `clampInt(input.parentWaveBatchSize ?? 3, 1, 64)`. -/
def effectiveParentWaveBatchSize (input : BatchRunNumericOptions) : Int :=
  clampInt (input.parentWaveBatchSize.getD (.finite 3)) 1 64

/-- `clampInt(input.parentLeafBatchSize ?? 256, 1, 10_000)`. -/
def effectiveParentLeafBatchSize (input : BatchRunNumericOptions) : Int :=
  clampInt (input.parentLeafBatchSize.getD (.finite 256)) 1 10000

/-- `clampInt(input.parentCascadeDepth ?? 2, 0, z)`. -/
def effectiveParentCascadeDepth (input : BatchRunNumericOptions) : Int :=
  clampInt (input.parentCascadeDepth.getD (.finite 2)) 0 input.z

/-- `layers: clampInt(input.layers, 0, 256)` in the initial `BatchRunState`
(executor.ts line 299). -/
def stateLayers (layers : JSNum) : Int :=
  clampInt layers 0 256

/-! ## Anchor runner with retry (executor.ts `runAnchorWithRetry`) -/

/-- The error value observed by a catch block: an `HttpError` carrying a
`retryAfterSeconds` hint, or any other error. -/
inductive JsErrorModel
  | http (message : String) (status : Int) (retryAfterSeconds : Option Int)
  | generic (message : String)
  deriving DecidableEq, Repr

/-- executor.ts `retryAfterMsFromUnknown`: an `HttpError` with a positive
numeric `retryAfterSeconds` yields that many seconds in milliseconds. -/
def retryAfterMsFromUnknown : JsErrorModel → Option Int
  | .http _ _ (some s) => if s > 0 then some (s * 1000) else none
  | .http _ _ none => none
  | .generic _ => none

/-- Outcome of one `execute_anchor` attempt, as seen by the retry loop. -/
inductive AttemptOutcome
  | ok
  | fail (error : JsErrorModel)
  deriving DecidableEq, Repr

/-- The backoff delay `Math.min(15_000, 500 * 2 ** (attempt - 1))`. -/
def backoffDelayMs (attempt : Nat) : Int :=
  min 15000 (500 * 2 ^ (attempt - 1))

/-- Observable trace of `runAnchorWithRetry` on one anchor: the returned
result, the final `anchor.attempts`, and the sleeps performed between
attempts, in order. -/
structure AnchorRetryTrace where
  ok : Bool
  retryAfterMs : Option Int
  attempts : Nat
  sleeps : List Int
  deriving DecidableEq, Repr

/-- The retry loop of executor.ts `runAnchorWithRetry` (the collaborator's
behaviour per attempt is the oracle `outcomeAt`; `anchor.attempts` is set to
the current attempt number on every iteration, so the field ends at the last
attempt made). -/
def runAnchorWithRetryGo (outcomeAt : Nat → AttemptOutcome) (maxAttempts : Nat) :
    Nat → List Int → AnchorRetryTrace
  | attempt, sleeps =>
    match outcomeAt attempt with
    | .ok => { ok := true, retryAfterMs := none, attempts := attempt, sleeps := sleeps.reverse }
    | .fail e =>
      if _h : maxAttempts ≤ attempt then
        { ok := false, retryAfterMs := retryAfterMsFromUnknown e, attempts := attempt,
          sleeps := sleeps.reverse }
      else
        let delayMs := (retryAfterMsFromUnknown e).getD (backoffDelayMs attempt)
        runAnchorWithRetryGo outcomeAt maxAttempts (attempt + 1) (delayMs :: sleeps)
  termination_by attempt _ => maxAttempts - attempt

/-- executor.ts `runAnchorWithRetry`: at most `maxGenerateRetries + 1`
attempts, starting at attempt 1. -/
def runAnchorWithRetry (maxGenerateRetries : Nat) (outcomeAt : Nat → AttemptOutcome) :
    AnchorRetryTrace :=
  runAnchorWithRetryGo outcomeAt (maxGenerateRetries + 1) 1 []

/-- The delay the retry loop sleeps after a failed attempt `k`: the surfaced
`retry_after` hint in milliseconds when present, the exponential backoff
otherwise. -/
def expectedRetryDelay (outcomeAt : Nat → AttemptOutcome) (k : Nat) : Int :=
  match outcomeAt k with
  | .ok => 0
  | .fail e => (retryAfterMsFromUnknown e).getD (backoffDelayMs k)

/-! ## Scheduler state model (executor.ts `startBatchRun` internals)

`state.anchors` is a JS record in insertion order, modelled as a list of
`AnchorTask` looked up by id; `Date.now()` is a logical clock that advances
at every read. -/

/-- Update the anchor object stored under `id` (record keys are unique). -/
def updateAnchor (anchors : List AnchorTask) (id : String) (f : AnchorTask → AnchorTask) :
    List AnchorTask :=
  anchors.map fun a => if a.id == id then f a else a

/-- Number of PENDING anchors (termination measure for the BFS below). -/
def pendingCount (anchors : List AnchorTask) : Nat :=
  anchors.countP fun a => a.status == .PENDING

/-- `Array.from(new Set(xs))`: deduplicate keeping first occurrences. -/
def dedupeStrings (xs : List String) : List String :=
  go xs []
where
  go : List String → List String → List String
  | [], acc => acc.reverse
  | x :: rest, acc => if x ∈ acc then go rest acc else go rest (x :: acc)

/-- The BFS of executor.ts `propagateBlockedFrom`: pop the queue head; a
still-PENDING anchor becomes BLOCKED with `blockedBy` the originator and its
dependents are enqueued; anything else is skipped.  Returns the updated
store, the advanced clock, and the ids blocked (in BFS order). -/
def propagateLoop (failedId : String) :
    List AnchorTask → List String → Nat → List String →
    List AnchorTask × Nat × List String
  | anchors, [], now, acc => (anchors, now, acc.reverse)
  | anchors, nextId :: queue, now, acc =>
    match _hfind : lookupById anchors nextId with
    | none => propagateLoop failedId anchors queue now acc
    | some anchor =>
      if _hp : anchor.status = .PENDING then
        propagateLoop failedId
          (updateAnchor anchors nextId fun a =>
            { a with status := .BLOCKED, blockedBy := some failedId,
                     finishedAt := some now })
          (queue ++ anchor.dependents) (now + 1) (nextId :: acc)
      else propagateLoop failedId anchors queue now acc
  termination_by anchors queue _ _ => (pendingCount anchors, queue.length)
  decreasing_by
  · exact Prod.Lex.right _ (by simp only [List.length_cons]; omega)
  · apply Prod.Lex.left
    have hfind2 : anchors.find? (fun a => a.id == nextId) = some anchor := _hfind
    have hmem : anchor ∈ anchors := List.mem_of_find?_eq_some hfind2
    have hid0 := List.find?_some hfind2
    have hideq : anchor.id = nextId := by simpa using hid0
    obtain ⟨l1, l2, rfl⟩ := List.append_of_mem hmem
    simp only [updateAnchor, pendingCount, List.countP_map, List.map_append,
      List.countP_append, List.countP_cons]
    have hmono : ∀ l : List AnchorTask,
        List.countP
          ((fun a : AnchorTask => a.status == AnchorTaskStatus.PENDING) ∘
            fun a => if a.id == nextId then
              { a with status := .BLOCKED, blockedBy := some failedId,
                       finishedAt := some now } else a) l ≤
        List.countP (fun a : AnchorTask => a.status == AnchorTaskStatus.PENDING) l := by
      intro l
      apply List.countP_mono_left
      intro x _ hx
      by_cases hc : x.id = nextId
      · simp [hc] at hx
      · simpa [hc] using hx
    have h1 := hmono l1
    have h2 := hmono l2
    have hanchor :
        ((fun a : AnchorTask => a.status == AnchorTaskStatus.PENDING) ∘
          fun a => if a.id == nextId then
            { a with status := .BLOCKED, blockedBy := some failedId,
                     finishedAt := some now } else a) anchor = false := by
      simp [hideq]
    have hpend : (anchor.status == AnchorTaskStatus.PENDING) = true := by
      simp [_hp]
    simp only [hanchor, hpend]
    simp only [Bool.false_eq_true, if_false, if_true]
    omega
  · exact Prod.Lex.right _ (by simp only [List.length_cons]; omega)

/-- executor.ts `propagateBlockedFrom`: seed the BFS queue with the failed
anchor's dependents. -/
def propagateBlockedFrom (anchors : List AnchorTask) (failedId : String) (now : Nat) :
    List AnchorTask × Nat × List String :=
  let queue := match lookupById anchors failedId with
    | some a => a.dependents
    | none => []
  propagateLoop failedId anchors queue now []

/-- `x` is a transitive dependent of `root`: reachable from `root` through
the `dependents` edges of the store. -/
inductive TransDependent (anchors : List AnchorTask) (root : String) : String → Prop
  | direct {a : AnchorTask} {x : String} (ha : lookupById anchors root = some a)
      (hx : x ∈ a.dependents) : TransDependent anchors root x
  | step {y x : String} {ay : AnchorTask} (hy : TransDependent anchors root y)
      (hay : lookupById anchors y = some ay) (hx : x ∈ ay.dependents) :
      TransDependent anchors root x

/-- `x` is reachable from the BFS work queue through `dependents` edges whose
intermediate anchors are still PENDING (the only nodes the BFS expands). -/
inductive QueueReach (anchors : List AnchorTask) (queue : List String) : String → Prop
  | base {x : String} (hx : x ∈ queue) : QueueReach anchors queue x
  | step {y x : String} {ay : AnchorTask} (hy : QueueReach anchors queue y)
      (hay : lookupById anchors y = some ay) (hpend : ay.status = .PENDING)
      (hx : x ∈ ay.dependents) : QueueReach anchors queue x

/-- executor.ts `selectReadyAnchorIds`: PENDING anchors, in priority order,
whose deps are all SUCCESS. -/
def selectReadyAnchorIds (priorityOrder : List String) (anchors : List AnchorTask) :
    List String :=
  priorityOrder.filter fun id =>
    match lookupById anchors id with
    | none => false
    | some anchor =>
      anchor.status == .PENDING &&
      anchor.deps.all fun depId =>
        match lookupById anchors depId with
        | some dep => dep.status == .SUCCESS
        | none => false

/-- The greedy selection loop of executor.ts `pickWaveAnchorIds`. -/
def pickWaveLoop (anchors : List AnchorTask) (maxParallel : Nat) :
    List String → List String → List String
  | [], selected => selected
  | id :: rest, selected =>
    if maxParallel ≤ selected.length then selected
    else
      match lookupById anchors id with
      | none => pickWaveLoop anchors maxParallel rest selected
      | some candidate =>
        let conflicts := selected.any fun selectedId =>
          match lookupById anchors selectedId with
          | none => false
          | some selectedAnchor => anchorsOverlap3x3 candidate selectedAnchor
        if conflicts then pickWaveLoop anchors maxParallel rest selected
        else pickWaveLoop anchors maxParallel rest (selected ++ [id])

/-- executor.ts `pickWaveAnchorIds`, including the fallback that force-picks
the first ready id when the greedy pass selected nothing. -/
def pickWaveAnchorIds (anchors : List AnchorTask) (maxParallel : Nat)
    (readyIds : List String) : List String :=
  let selected := pickWaveLoop anchors maxParallel readyIds []
  match selected, readyIds with
  | [], r :: _ => [r]
  | s, _ => s

/-- executor.ts `resolveBlockedAnchors`: walk the snapshot of PENDING anchors
in record order; an anchor whose some dep is FAILED or BLOCKED (read from the
live store) becomes BLOCKED with `blockedBy` that dep. -/
def resolveBlockedAnchors (anchors : List AnchorTask) (now : Nat) :
    List AnchorTask × Nat × Bool :=
  let pendingIds := (anchors.filter fun a => a.status == .PENDING).map (·.id)
  pendingIds.foldl
    (fun st id =>
      let anchors := st.1
      let now := st.2.1
      let blockedAny := st.2.2
      match lookupById anchors id with
      | none => (anchors, now, blockedAny)
      | some anchor =>
        match anchor.deps.find? (fun depId =>
            match lookupById anchors depId with
            | some dep => dep.status == .FAILED || dep.status == .BLOCKED
            | none => false) with
        | none => (anchors, now, blockedAny)
        | some blocker =>
          (updateAnchor anchors id fun a =>
            { a with status := .BLOCKED, blockedBy := some blocker,
                     finishedAt := some now },
           now + 1, true))
    (anchors, now, false)

/-- executor.ts `blockUnreachablePendingAnchors`. -/
def blockUnreachablePendingAnchors (anchors : List AnchorTask) (now : Nat) :
    List AnchorTask × Nat :=
  let pendingIds := (anchors.filter fun a => a.status == .PENDING).map (·.id)
  pendingIds.foldl
    (fun st id =>
      (updateAnchor st.1 id fun a =>
        { a with status := .BLOCKED, blockedBy := a.deps.head?,
                 finishedAt := some st.2 },
       st.2 + 1))
    (anchors, now)

/-- The mutable state owned by the generation loops: the anchors record, the
wave counter, the wave records, and the logical clock. -/
structure ExecState where
  anchors : List AnchorTask
  currentWave : Nat
  waves : List WaveResult
  now : Nat
  deriving Repr

/-- Process the settled outcomes of one wave (the loop over `outcomes` in
`runGenerationWaveBarrier`): set `finishedAt`, mark SUCCESS or FAILED, and
propagate blocking from failures.  Returns the store, clock, and the
`successIds`, `failedIds`, `blockedIds` accumulators. -/
def processWaveOutcomes (waveFinishedAt : Nat) :
    List (String × Bool) → List AnchorTask → Nat →
    List String → List String → List String →
    List AnchorTask × Nat × List String × List String × List String
  | [], anchors, now, successIds, failedIds, blockedIds =>
    (anchors, now, successIds.reverse, failedIds.reverse, blockedIds)
  | (id, ok) :: rest, anchors, now, successIds, failedIds, blockedIds =>
    match lookupById anchors id with
    | none => processWaveOutcomes waveFinishedAt rest anchors now successIds failedIds blockedIds
    | some _ =>
      if ok then
        let anchors := updateAnchor anchors id fun a =>
          { a with finishedAt := some waveFinishedAt, status := .SUCCESS, error := none }
        processWaveOutcomes waveFinishedAt rest anchors now (id :: successIds) failedIds blockedIds
      else
        let anchors := updateAnchor anchors id fun a =>
          { a with finishedAt := some waveFinishedAt, status := .FAILED,
                   error := some "Anchor execution failed" }
        let (anchors, now, newlyBlocked) := propagateBlockedFrom anchors id now
        processWaveOutcomes waveFinishedAt rest anchors now successIds (id :: failedIds)
          (blockedIds ++ newlyBlocked)

/-- executor.ts `runGenerationWaveBarrier`, driven by a fuel counter for the
outer `while (true)` loop (every theorem below holds for every fuel value).
`outcome id` abstracts the settled result of `runAnchorWithRetry` for the
anchor `id`. -/
def runGenerationWaveBarrier (outcome : String → Bool) (maxParallel : Nat)
    (priorityOrder : List String) : Nat → ExecState → ExecState
  | 0, s => s
  | fuel + 1, s =>
    if (s.anchors.filter fun a => a.status == .PENDING).isEmpty then s
    else
      let r := resolveBlockedAnchors s.anchors s.now
      if r.2.2 then
        runGenerationWaveBarrier outcome maxParallel priorityOrder fuel
          { s with anchors := r.1, now := r.2.1 }
      else
        let readyIds := selectReadyAnchorIds priorityOrder s.anchors
        if readyIds.isEmpty then
          let b := blockUnreachablePendingAnchors s.anchors s.now
          runGenerationWaveBarrier outcome maxParallel priorityOrder fuel
            { s with anchors := b.1, now := b.2 }
        else
          let waveIds := pickWaveAnchorIds s.anchors maxParallel readyIds
          if waveIds.isEmpty then
            runGenerationWaveBarrier outcome maxParallel priorityOrder fuel s
          else
            let waveIndex := s.currentWave + 1
            let waveStartedAt := s.now
            let anchorsR := waveIds.foldl
              (fun acc id => updateAnchor acc id fun a =>
                { a with status := .RUNNING, waveIndex := some waveIndex,
                         startedAt := some waveStartedAt })
              s.anchors
            let outcomes := waveIds.map fun id => (id, outcome id)
            let waveFinishedAt := waveStartedAt + 1
            let p := processWaveOutcomes waveFinishedAt outcomes anchorsR (waveFinishedAt + 1)
              [] [] []
            let wave : WaveResult :=
              { waveIndex := waveIndex, taskIds := waveIds,
                successIds := p.2.2.1, failedIds := p.2.2.2.1,
                blockedIds := dedupeStrings p.2.2.2.2,
                startedAt := waveStartedAt, finishedAt := waveFinishedAt }
            runGenerationWaveBarrier outcome maxParallel priorityOrder fuel
              { anchors := p.1, currentWave := waveIndex,
                waves := s.waves ++ [wave], now := p.2.1 + 1 }

/-- The state owned by `runGenerationRollingFill`: the shared run state plus
the in-flight map (insertion order) and a race counter consulted by the
completion-order schedule. -/
structure RollingState where
  anchors : List AnchorTask
  currentWave : Nat
  waves : List WaveResult
  now : Nat
  inFlight : List (String × Bool)
  raceCount : Nat
  deriving Repr

/-- The inner fill loop of `runGenerationRollingFill`: while a slot is free,
start the first ready anchor that does not overlap a running one.  The loop is
counted down by the free slots: every iteration grows `inFlight` by one, so
`maxParallel - inFlight.length` iterations always suffice, and when the count
reaches zero the slot guard is false as well, so returning `s` agrees with the
source's `while` exit. -/
def rollingFillGo (outcome : String → Bool) (maxParallel : Nat)
    (priorityOrder : List String) : Nat → RollingState → RollingState
  | 0, s => s
  | fuel + 1, s =>
    if s.inFlight.length < maxParallel then
      let readyIds := selectReadyAnchorIds priorityOrder s.anchors
      let nextId? := readyIds.find? fun id =>
        match lookupById s.anchors id with
        | none => false
        | some candidate =>
          !(s.inFlight.any fun entry =>
            match lookupById s.anchors entry.1 with
            | none => false
            | some runningAnchor => anchorsOverlap3x3 candidate runningAnchor)
      match nextId? with
      | none => s
      | some nextId =>
        let waveIndex := s.currentWave + 1
        let startedAt := s.now
        let anchors := updateAnchor s.anchors nextId fun a =>
          { a with status := .RUNNING, waveIndex := some waveIndex,
                   startedAt := some startedAt }
        rollingFillGo outcome maxParallel priorityOrder fuel
          { s with anchors := anchors, currentWave := waveIndex, now := s.now + 1,
                   inFlight := s.inFlight ++ [(nextId, outcome nextId)] }
    else s

/-- The fill loop entered with enough fuel for every free slot. -/
def rollingFillLoop (outcome : String → Bool) (maxParallel : Nat)
    (priorityOrder : List String) (s : RollingState) : RollingState :=
  rollingFillGo outcome maxParallel priorityOrder (maxParallel - s.inFlight.length) s

/-- executor.ts `runGenerationRollingFill`, fuel-driven; `schedule k` picks
which in-flight anchor settles at the k-th `Promise.race` (completion order
of the asynchronous collaborator is environment-controlled). -/
def runGenerationRollingFill (outcome : String → Bool) (maxParallel : Nat)
    (priorityOrder : List String) (schedule : Nat → Nat) :
    Nat → RollingState → RollingState
  | 0, s => s
  | fuel + 1, s =>
    let r := resolveBlockedAnchors s.anchors s.now
    if r.2.2 then
      runGenerationRollingFill outcome maxParallel priorityOrder schedule fuel
        { s with anchors := r.1, now := r.2.1 }
    else
      let s := rollingFillLoop outcome maxParallel priorityOrder s
      if (s.anchors.filter fun a => a.status == .PENDING).isEmpty ∧ s.inFlight.isEmpty then s
      else if s.inFlight.isEmpty then
        let readyIds := selectReadyAnchorIds priorityOrder s.anchors
        if readyIds.isEmpty then
          let b := blockUnreachablePendingAnchors s.anchors s.now
          runGenerationRollingFill outcome maxParallel priorityOrder schedule fuel
            { s with anchors := b.1, now := b.2 }
        else
          runGenerationRollingFill outcome maxParallel priorityOrder schedule fuel s
      else
        let idx := schedule s.raceCount % s.inFlight.length
        match _hget : s.inFlight[idx]? with
        | none => s
        | some completed =>
          let inFlight := s.inFlight.eraseIdx idx
          let finishedAt := s.now
          let now := s.now + 1
          match lookupById s.anchors completed.1 with
          | none => s
          | some anchor =>
            let ok := completed.2
            let anchors := updateAnchor s.anchors completed.1 fun a =>
              if ok then
                { a with finishedAt := some finishedAt, status := .SUCCESS, error := none }
              else
                { a with finishedAt := some finishedAt, status := .FAILED,
                         error := some "Anchor execution failed" }
            let pb := if ok then (anchors, now, ([] : List String))
              else propagateBlockedFrom anchors completed.1 now
            let waveIndex := anchor.waveIndex.getD (s.currentWave + 1)
            let waveStartedAt := anchor.startedAt.getD finishedAt
            let wave : WaveResult :=
              { waveIndex := waveIndex, taskIds := [completed.1],
                successIds := if ok then [completed.1] else [],
                failedIds := if ok then [] else [completed.1],
                blockedIds := dedupeStrings pb.2.2,
                startedAt := waveStartedAt, finishedAt := finishedAt }
            runGenerationRollingFill outcome maxParallel priorityOrder schedule fuel
              { anchors := pb.1, currentWave := s.currentWave,
                waves := s.waves ++ [wave], now := pb.2.1,
                inFlight := inFlight, raceCount := s.raceCount + 1 }

/-- The anchors record built by `startBatchRun` from the plan (insertion
order is the priority-sorted plan order), together with the initial clock. -/
def initExecState (plan : AnchorPlan) (now0 : Nat) : ExecState :=
  { anchors := plan.anchors, currentWave := 0, waves := [], now := now0 }

/-- Initial state for the rolling-fill loop. -/
def initRollingState (plan : AnchorPlan) (now0 : Nat) : RollingState :=
  { anchors := plan.anchors, currentWave := 0, waves := [], now := now0,
    inFlight := [], raceCount := 0 }

/-- The immutable geometry of the anchor stored under `id`: anchor
coordinates are set by the planner and never change during a run. -/
def coordOf (anchors : List AnchorTask) (id : String) : Option (Int × Int) :=
  (lookupById anchors id).map fun a => (a.x, a.y)

/-- The two ids resolve (in `anchors`) to anchors whose 3x3 footprints do not
overlap. -/
def nonOverlapIn (anchors : List AnchorTask) (id1 id2 : String) : Prop :=
  ∀ a1 a2, lookupById anchors id1 = some a1 → lookupById anchors id2 = some a2 →
    anchorsOverlap3x3 a1 a2 = false

/-- Two stores assign every id the same coordinates. -/
def sameCoords (anchors a0 : List AnchorTask) : Prop :=
  ∀ id, coordOf anchors id = coordOf a0 id

/-- Invariant of the wave-barrier loop relative to the planner store `a0`:
coordinates never change, wave indices count `1, 2, …` in list order, wave
start times are monotone and bounded by the clock, and every recorded wave is
pairwise non-overlapping. -/
def WBInv (a0 : List AnchorTask) (s : ExecState) : Prop :=
  sameCoords s.anchors a0 ∧
  s.currentWave = s.waves.length ∧
  (∀ (i : Nat) (h : i < s.waves.length), (s.waves.get ⟨i, h⟩).waveIndex = i + 1) ∧
  (∀ (i j : Nat) (hi : i < s.waves.length) (hj : j < s.waves.length), i ≤ j →
    (s.waves.get ⟨i, hi⟩).startedAt ≤ (s.waves.get ⟨j, hj⟩).startedAt) ∧
  (∀ (i : Nat) (h : i < s.waves.length), (s.waves.get ⟨i, h⟩).startedAt ≤ s.now) ∧
  (∀ w ∈ s.waves, List.Pairwise (nonOverlapIn a0) w.taskIds)

/-- Invariant of the rolling-fill loop relative to the planner store `a0`:
coordinates never change, the in-flight (RUNNING) anchors are pairwise
non-overlapping, and every recorded wave is pairwise non-overlapping. -/
def RollInv (a0 : List AnchorTask) (s : RollingState) : Prop :=
  sameCoords s.anchors a0 ∧
  List.Pairwise (fun e1 e2 => nonOverlapIn a0 e1.1 e2.1) s.inFlight ∧
  (∀ w ∈ s.waves, List.Pairwise (nonOverlapIn a0) w.taskIds)

/-! ## Dirty-parent aggregator and final catch-up (executor.ts)

The parent-side state is modelled as a transition system: the generation
loop feeds `markDirtyParentLeaves`, the worker loop calls
`flushDirtyParentsToJob` / `enqueueFinalCatchupJob` and drives job statuses.
Job ids `parents-...` vs `parents-final-...` are modelled by the `isFinal`
flag; `everTouched` is a history variable recording that some
`markDirtyParentLeaves` call contributed at least one leaf, and
`touchedAll` the never-cleared copy of `allTouchedParentLeaves`. -/

structure ParentRefreshJob where
  isFinal : Bool
  waveIndex : Nat
  childZ : Int
  leafTiles : List TileCoord
  maxLevels : Int
  status : ParentRefreshJobStatus
  attempts : Nat
  enqueuedAt : Nat
  deriving DecidableEq, Repr

structure ParentCfg where
  z : Int
  parentCascadeDepth : Int
  parentDebounceMs : Nat
  parentWaveBatchSize : Nat
  parentLeafBatchSize : Nat
  parentJobRetries : Nat
  deriving DecidableEq, Repr

structure ParentAggState where
  parentJobs : List ParentRefreshJob
  dirtyParentLeaves : List TileCoord
  allTouchedParentLeaves : List TileCoord
  dirtyParentMarkedAt : Option Nat
  dirtyParentWaveCount : Nat
  dirtyParentLastWaveIndex : Nat
  generationFinished : Bool
  finalCatchupEnqueued : Bool
  currentWave : Nat
  now : Nat
  everTouched : Bool
  touchedAll : List TileCoord
  deriving DecidableEq, Repr

/-- Initial parent-side state of a run (executor.ts lines 311-319;
`finalCatchupEnqueued` starts at `parentCascadeDepth >= z`). -/
def initParentAggState (cfg : ParentCfg) (now0 : Nat) : ParentAggState :=
  { parentJobs := [], dirtyParentLeaves := [], allTouchedParentLeaves := [],
    dirtyParentMarkedAt := none, dirtyParentWaveCount := 0,
    dirtyParentLastWaveIndex := 0, generationFinished := false,
    finalCatchupEnqueued := decide (cfg.parentCascadeDepth ≥ cfg.z),
    currentWave := 0, now := now0, everTouched := false, touchedAll := [] }

/-- Set-insert for the string-keyed `Set` of leaf keys. -/
def addLeafKey (s : List TileCoord) (c : TileCoord) : List TileCoord :=
  if c ∈ s then s else s ++ [c]

/-- executor.ts `markDirtyParentLeaves` (the successful anchors' clipped
footprints arrive as `leaves`). -/
def markDirtyParentLeaves (cfg : ParentCfg) (waveIndex : Nat) (leaves : List TileCoord)
    (s : ParentAggState) : ParentAggState :=
  if leaves.isEmpty then s
  else
    let dedupedLeaves := dedupeTileCoords leaves
    if dedupedLeaves.isEmpty then s
    else
      let dirtyWasEmpty := s.dirtyParentLeaves.isEmpty
      let allTouched := dedupedLeaves.foldl addLeafKey s.allTouchedParentLeaves
      let touchedAll := dedupedLeaves.foldl addLeafKey s.touchedAll
      let dirty :=
        if cfg.parentCascadeDepth > 0 then dedupedLeaves.foldl addLeafKey s.dirtyParentLeaves
        else s.dirtyParentLeaves
      let s := { s with
        allTouchedParentLeaves := allTouched, touchedAll := touchedAll,
        dirtyParentLeaves := dirty, everTouched := true }
      if s.dirtyParentLeaves.isEmpty then
        { s with dirtyParentLastWaveIndex := waveIndex }
      else
        let s :=
          if dirtyWasEmpty then
            { s with
              dirtyParentMarkedAt := some s.now, now := s.now + 1,
              dirtyParentWaveCount := 0 }
          else s
        { s with
          dirtyParentWaveCount := s.dirtyParentWaveCount + 1,
          dirtyParentLastWaveIndex := waveIndex }

/-- executor.ts `shouldFlushDirtyParents`. -/
def shouldFlushDirtyParents (cfg : ParentCfg) (s : ParentAggState) : Bool :=
  if s.dirtyParentLeaves.isEmpty ∨ s.dirtyParentMarkedAt = none then false
  else if s.generationFinished then true
  else if cfg.parentWaveBatchSize ≤ s.dirtyParentWaveCount then true
  else if cfg.parentLeafBatchSize ≤ s.dirtyParentLeaves.length then true
  else decide (s.now - (s.dirtyParentMarkedAt.getD 0) ≥ cfg.parentDebounceMs)

/-- executor.ts `flushDirtyParentsToJob`. -/
def flushDirtyParentsToJob (cfg : ParentCfg) (s : ParentAggState) : ParentAggState :=
  if !shouldFlushDirtyParents cfg s then s
  else
    let dedupedLeaves := dedupeTileCoords s.dirtyParentLeaves
    if dedupedLeaves.isEmpty then
      { s with
        dirtyParentLeaves := [], dirtyParentMarkedAt := none,
        dirtyParentWaveCount := 0 }
    else
      let job : ParentRefreshJob :=
        { isFinal := false, waveIndex := s.dirtyParentLastWaveIndex, childZ := cfg.z,
          leafTiles := dedupedLeaves, maxLevels := cfg.parentCascadeDepth,
          status := .QUEUED, attempts := 0, enqueuedAt := s.now }
      { s with
        dirtyParentLeaves := [], dirtyParentMarkedAt := none,
        dirtyParentWaveCount := 0, parentJobs := s.parentJobs ++ [job],
        now := s.now + 1 }

/-- True when some parent job is RUNNING or QUEUED. -/
def hasRunningOrQueued (s : ParentAggState) : Bool :=
  s.parentJobs.any fun job => job.status == .RUNNING || job.status == .QUEUED

/-- executor.ts `enqueueFinalCatchupJob`. -/
def enqueueFinalCatchupJob (cfg : ParentCfg) (s : ParentAggState) : ParentAggState :=
  if !s.generationFinished then s
  else if s.finalCatchupEnqueued then s
  else if hasRunningOrQueued s then s
  else
    let s := { s with finalCatchupEnqueued := true }
    let dedupedLeaves := dedupeTileCoords s.allTouchedParentLeaves
    let s := { s with allTouchedParentLeaves := [] }
    if dedupedLeaves.isEmpty then s
    else
      let job : ParentRefreshJob :=
        { isFinal := true, waveIndex := s.currentWave, childZ := cfg.z,
          leafTiles := dedupedLeaves, maxLevels := cfg.z,
          status := .QUEUED, attempts := 0, enqueuedAt := s.now }
      { s with parentJobs := s.parentJobs ++ [job], now := s.now + 1 }

/-- Update the job at position `i` of the job list. -/
def updateJobAt (jobs : List ParentRefreshJob) (i : Nat)
    (f : ParentRefreshJob → ParentRefreshJob) : List ParentRefreshJob :=
  jobs.mapIdx fun j job => if j = i then f job else job

/-- One transition of the parent-side state: a generation event, an
aggregator call from the worker loop, or a worker-driven job status change. -/
inductive ParentStep (cfg : ParentCfg) : ParentAggState → ParentAggState → Prop
  | markDirty (waveIndex : Nat) (leaves : List TileCoord) (s : ParentAggState)
      (hgen : s.generationFinished = false) :
      ParentStep cfg s (markDirtyParentLeaves cfg waveIndex leaves s)
  | setWave (w : Nat) (s : ParentAggState) (hgen : s.generationFinished = false) :
      ParentStep cfg s { s with currentWave := w }
  | finishGeneration (s : ParentAggState) :
      ParentStep cfg s { s with generationFinished := true }
  | flush (s : ParentAggState) :
      ParentStep cfg s (flushDirtyParentsToJob cfg s)
  | catchup (s : ParentAggState) :
      ParentStep cfg s (enqueueFinalCatchupJob cfg s)
  | jobStart (i : Nat) (s : ParentAggState)
      (hq : ∃ job, s.parentJobs[i]? = some job ∧ job.status = .QUEUED) :
      ParentStep cfg s
        { s with
          parentJobs := updateJobAt s.parentJobs i
            (fun job => { job with status := .RUNNING, attempts := job.attempts + 1 }),
          now := s.now + 1 }
  | jobSuccess (i : Nat) (s : ParentAggState)
      (hr : ∃ job, s.parentJobs[i]? = some job ∧ job.status = .RUNNING) :
      ParentStep cfg s
        { s with
          parentJobs := updateJobAt s.parentJobs i
            (fun job => { job with status := .SUCCESS }),
          now := s.now + 1 }
  | jobRequeue (i : Nat) (s : ParentAggState)
      (hr : ∃ job, s.parentJobs[i]? = some job ∧ job.status = .RUNNING ∧
        job.attempts < cfg.parentJobRetries + 1) :
      ParentStep cfg s
        { s with
          parentJobs := updateJobAt s.parentJobs i
            (fun job => { job with status := .QUEUED }),
          now := s.now + 1 }
  | jobFail (i : Nat) (s : ParentAggState)
      (hr : ∃ job, s.parentJobs[i]? = some job ∧ job.status = .RUNNING) :
      ParentStep cfg s
        { s with
          parentJobs := updateJobAt s.parentJobs i
            (fun job => { job with status := .FAILED }),
          now := s.now + 1 }
  | advanceClock (k : Nat) (s : ParentAggState) :
      ParentStep cfg s { s with now := s.now + k }

/-- Reachability from the initial parent-side state. -/
def ParentReachable (cfg : ParentCfg) (now0 : Nat) (s : ParentAggState) : Prop :=
  Relation.ReflTransGen (ParentStep cfg) (initParentAggState cfg now0) s

/-- Number of final catch-up jobs in the job list. -/
def catchupCount (s : ParentAggState) : Nat :=
  s.parentJobs.countP fun job => job.isFinal

/-- The worker-loop exit condition (executor.ts lines 646-652): generation
finished, no dirty leaves, no running or queued job, catch-up emitted. -/
def workerExitCondition (s : ParentAggState) : Bool :=
  s.generationFinished && s.dirtyParentLeaves.isEmpty && !hasRunningOrQueued s &&
    s.finalCatchupEnqueued

/-- Inductive invariant for the final catch-up protocol: the catch-up flag
is sticky and pre-set when `parentCascadeDepth ≥ z`; before the flag is set
there is no final job and the cumulative set still equals the history copy;
at most one final job ever exists, every final job carries the frozen
cumulative touched set with `childZ = z` and `maxLevels = z` and implies the
generation has finished; and once anything was touched the history set is
nonempty. -/
def CInv (cfg : ParentCfg) (s : ParentAggState) : Prop :=
  (cfg.parentCascadeDepth ≥ cfg.z →
    s.finalCatchupEnqueued = true ∧ catchupCount s = 0) ∧
  (s.finalCatchupEnqueued = false → catchupCount s = 0 ∧
    s.allTouchedParentLeaves = s.touchedAll) ∧
  catchupCount s ≤ 1 ∧
  (∀ job ∈ s.parentJobs, job.isFinal = true → job.childZ = cfg.z ∧
    job.maxLevels = cfg.z ∧ job.leafTiles = dedupeTileCoords s.touchedAll ∧
    s.generationFinished = true) ∧
  (s.everTouched = true → s.touchedAll ≠ []) ∧
  (cfg.parentCascadeDepth < cfg.z → s.finalCatchupEnqueued = true →
    s.generationFinished = true) ∧
  (cfg.parentCascadeDepth < cfg.z → s.finalCatchupEnqueued = true →
    s.everTouched = true → catchupCount s = 1)

/-! ## Review queue (src/lib/batch/reviewQueue.ts) -/

inductive ReviewDecision
  | ACCEPT
  | REJECT
  deriving DecidableEq, Repr

/-- How an enqueued review promise settles. -/
inductive RQSettle
  | decision (d : ReviewDecision)
  | cancelledErr
  deriving DecidableEq, Repr

/-- Observable events of a `ReviewQueue`: an item (identified by its
enqueue-call index) becoming active, or a promise settling. -/
inductive RQEvent
  | activated (idx : Nat)
  | settled (idx : Nat) (how : RQSettle)
  deriving DecidableEq, Repr

/-- The state of a `ReviewQueue` plus its event history.  `pending` and
`active` hold enqueue-call indices; `nextIdx` counts enqueue calls. -/
structure RQState where
  pending : List Nat
  active : Option Nat
  cancelled : Bool
  nextIdx : Nat
  eventLog : List RQEvent
  deriving DecidableEq, Repr

/-- reviewQueue.ts `promote`: if nothing is active and the queue is not
cancelled, shift the pending head into `active`. -/
def rqPromote (s : RQState) : RQState :=
  if s.active.isSome ∨ s.cancelled then s
  else
    match s.pending with
    | [] => s
    | n :: rest =>
      { s with
        active := some n, pending := rest,
        eventLog := s.eventLog ++ [RQEvent.activated n] }

/-- The public operations of `ReviewQueue`. -/
inductive RQOp
  | enqueue
  | resolveActive (d : ReviewDecision)
  | cancelAll
  deriving DecidableEq, Repr

/-- reviewQueue.ts `enqueue` / `resolveActive` / `cancelAll` as a state
transformer over `RQState`. -/
def rqApplyOp (s : RQState) : RQOp → RQState
  | .enqueue =>
    if s.cancelled then
      { s with
        nextIdx := s.nextIdx + 1,
        eventLog := s.eventLog ++ [RQEvent.settled s.nextIdx RQSettle.cancelledErr] }
    else
      rqPromote { s with pending := s.pending ++ [s.nextIdx], nextIdx := s.nextIdx + 1 }
  | .resolveActive d =>
    match s.active with
    | none => s
    | some i =>
      rqPromote
        { s with
          active := none,
          eventLog := s.eventLog ++ [RQEvent.settled i (RQSettle.decision d)] }
  | .cancelAll =>
    if s.cancelled then s
    else
      let s := { s with cancelled := true }
      let s :=
        match s.active with
        | some i =>
          { s with
            active := none,
            eventLog := s.eventLog ++ [RQEvent.settled i RQSettle.cancelledErr] }
        | none => s
      { s with
        pending := [],
        eventLog := s.eventLog ++ s.pending.map fun i => RQEvent.settled i RQSettle.cancelledErr }

/-- Run a sequence of queue operations from the empty queue. -/
def rqRun (ops : List RQOp) : RQState :=
  ops.foldl rqApplyOp
    { pending := [], active := none, cancelled := false, nextIdx := 0, eventLog := [] }

/-- The enqueue indices of the settle events of a log, in event order. -/
def settledIdxs (log : List RQEvent) : List Nat :=
  log.filterMap fun e => match e with
    | .settled i _ => some i
    | _ => none

/-- The enqueue indices of decision settlements, in event order. -/
def decisionIdxs (log : List RQEvent) : List Nat :=
  log.filterMap fun e => match e with
    | .settled i (.decision _) => some i
    | _ => none

/-- The enqueue indices of activations, in event order. -/
def activatedIdxs (log : List RQEvent) : List Nat :=
  log.filterMap fun e => match e with
    | .activated i => some i
    | _ => none

/-- Every decision settlement in the log is preceded by the activation of
the same item. -/
def rqDecidedAfterActive (log : List RQEvent) : Prop :=
  ∀ (p : Nat) (hp : p < log.length) (i : Nat) (d : ReviewDecision),
    log.get ⟨p, hp⟩ = .settled i (.decision d) →
    ∃ (q : Nat) (hq : q < log.length), q < p ∧ log.get ⟨q, hq⟩ = .activated i

/-- The inductive invariant of the review queue: activations and decision
settlements are in ascending enqueue order, nothing settles twice, decisions
happen only after activation, and the machine state (pending FIFO, active
slot, counter, cancel flag) is consistent with the event history. -/
def RQInv (s : RQState) : Prop :=
  List.Sorted (· < ·) (activatedIdxs s.eventLog) ∧
  List.Sorted (· < ·) (decisionIdxs s.eventLog) ∧
  (settledIdxs s.eventLog).Nodup ∧
  rqDecidedAfterActive s.eventLog ∧
  List.Sorted (· < ·) s.pending ∧
  (∀ p ∈ s.pending, p < s.nextIdx) ∧
  (∀ i, s.active = some i → i < s.nextIdx ∧ (∀ p ∈ s.pending, i < p) ∧
    i ∈ activatedIdxs s.eventLog ∧ i ∉ settledIdxs s.eventLog ∧
    (∀ a ∈ activatedIdxs s.eventLog, a ≤ i)) ∧
  (∀ p ∈ s.pending, p ∉ activatedIdxs s.eventLog ∧ p ∉ settledIdxs s.eventLog ∧
    (∀ a ∈ activatedIdxs s.eventLog, a < p)) ∧
  (∀ a ∈ activatedIdxs s.eventLog, a < s.nextIdx) ∧
  (∀ x ∈ settledIdxs s.eventLog, x < s.nextIdx) ∧
  (∀ dd ∈ decisionIdxs s.eventLog, (∀ p ∈ s.pending, dd < p) ∧
    (∀ i, s.active = some i → dd < i)) ∧
  (s.cancelled = true → s.pending = [] ∧ s.active = none)

/-- A failed origin anchor with a single pending dependent: a concrete
two-anchor store for exercising `propagateBlockedFrom`. -/
def c3DemoA : AnchorTask :=
  { id := "u:0,v:0", u := 0, v := 0, x := 0, y := 0, deps := [], dependents := ["u:1,v:0"], priority := ⟨0, 0, 4⟩, status := .FAILED, attempts := 1 }

/-- The pending dependent of `c3DemoA`. -/
def c3DemoB : AnchorTask :=
  { id := "u:1,v:0", u := 1, v := 0, x := 2, y := 0, deps := ["u:0,v:0"], dependents := [], priority := ⟨1, 1, 4⟩, status := .PENDING, attempts := 0 }

/-- The two-anchor demo store. -/
def c3DemoStore : List AnchorTask := [c3DemoA, c3DemoB]

/-! # Theorems

## Decimal rendering of integers is injective

`anchorIdFromUV` interpolates `toString (u : Int)`; id equality facts reduce
to injectivity of decimal rendering. -/

theorem toDigitsCore_acc (b : Nat) :
    ∀ (f n : Nat) (ds : List Char),
      Nat.toDigitsCore b f n ds = Nat.toDigitsCore b f n [] ++ ds := by
  intro f
  induction f with
  | zero => intro n ds; simp [Nat.toDigitsCore]
  | succ f ih =>
    intro n ds
    simp only [Nat.toDigitsCore]
    by_cases h : n / b = 0
    · simp [h]
    · simp only [h, if_neg, not_false_iff]
      rw [ih (n / b) (Nat.digitChar (n % b) :: ds), ih (n / b) [Nat.digitChar (n % b)]]
      simp

theorem toDigitsCore_fuel (n : Nat) : ∀ f1 f2 : Nat, n < f1 → n < f2 →
    Nat.toDigitsCore 10 f1 n [] = Nat.toDigitsCore 10 f2 n [] := by
  induction n using Nat.strong_induction_on with
  | _ n ih =>
    intro f1 f2 h1 h2
    match f1, f2 with
    | g1 + 1, g2 + 1 =>
      simp only [Nat.toDigitsCore]
      by_cases h : n / 10 = 0
      · simp [h]
      · simp only [h, if_neg, not_false_iff]
        rw [toDigitsCore_acc 10 g1, toDigitsCore_acc 10 g2]
        have hlt : n / 10 < n := Nat.div_lt_self (by omega) (by omega)
        rw [ih (n / 10) hlt g1 g2 (by omega) (by omega)]

theorem toDigits_eq_decimalDigits (n : Nat) : Nat.toDigits 10 n = decimalDigits n := by
  induction n using Nat.strong_induction_on with
  | _ n ih =>
    rw [decimalDigits]
    by_cases h : n < 10
    · have h0 : n / 10 = 0 := Nat.div_eq_of_lt h
      have hm : n % 10 = n := Nat.mod_eq_of_lt h
      simp [Nat.toDigits, Nat.toDigitsCore, h0, hm, h]
    · have hpos : 0 < n := by omega
      have hd : n / 10 ≠ 0 := by
        have := Nat.div_pos (by omega : 10 ≤ n) (by omega : 0 < 10)
        omega
      have hlt : n / 10 < n := Nat.div_lt_self hpos (by omega)
      simp only [Nat.toDigits, Nat.toDigitsCore, hd, if_neg, not_false_iff, h, dif_neg]
      rw [toDigitsCore_acc 10 n]
      have hfuel : Nat.toDigitsCore 10 n (n / 10) [] =
          Nat.toDigitsCore 10 (n / 10 + 1) (n / 10) [] :=
        toDigitsCore_fuel (n / 10) n (n / 10 + 1) hlt (by omega)
      rw [hfuel]
      rw [show Nat.toDigitsCore 10 (n / 10 + 1) (n / 10) [] = Nat.toDigits 10 (n / 10) from rfl]
      rw [ih (n / 10) hlt]

theorem digitChar_toNat (m : Nat) (h : m < 10) : (Nat.digitChar m).toNat = m + 48 := by
  interval_cases m <;> rfl

theorem decimalVal_append_digit (cs : List Char) (c : Char) :
    decimalVal (cs ++ [c]) = 10 * decimalVal cs + (c.toNat - 48) := by
  simp [decimalVal, List.foldl_append]

theorem decimalVal_decimalDigits (n : Nat) : decimalVal (decimalDigits n) = n := by
  induction n using Nat.strong_induction_on with
  | _ n ih =>
    rw [decimalDigits]
    by_cases h : n < 10
    · simp only [h, dif_pos]
      simp [decimalVal, digitChar_toNat n h]
    · simp only [h, dif_neg, not_false_iff]
      have hlt : n / 10 < n := Nat.div_lt_self (by omega) (by omega)
      rw [decimalVal_append_digit, ih (n / 10) hlt,
        digitChar_toNat (n % 10) (Nat.mod_lt n (by omega))]
      omega

theorem decimalDigits_ne_nil (n : Nat) : decimalDigits n ≠ [] := by
  rw [decimalDigits]
  split <;> simp

theorem decimalDigits_are_digits (n : Nat) :
    ∀ c ∈ decimalDigits n, 48 ≤ c.toNat ∧ c.toNat ≤ 57 := by
  induction n using Nat.strong_induction_on with
  | _ n ih =>
    intro c hc
    rw [decimalDigits] at hc
    by_cases h : n < 10
    · simp only [h, dif_pos, List.mem_singleton] at hc
      subst hc
      rw [digitChar_toNat n h]
      omega
    · simp only [h, dif_neg, not_false_iff, List.mem_append, List.mem_singleton] at hc
      rcases hc with hc | hc
      · exact ih (n / 10) (Nat.div_lt_self (by omega) (by omega)) c hc
      · subst hc
        rw [digitChar_toNat (n % 10) (Nat.mod_lt n (by omega))]
        have := Nat.mod_lt n (show 0 < 10 by omega)
        omega

theorem natRepr_data (n : Nat) : (Nat.repr n).data = decimalDigits n := by
  rw [show Nat.repr n = (Nat.toDigits 10 n).asString from rfl, toDigits_eq_decimalDigits]
  rfl

theorem natRepr_injective {m n : Nat} (h : Nat.repr m = Nat.repr n) : m = n := by
  have hd : decimalDigits m = decimalDigits n := by
    rw [← natRepr_data, ← natRepr_data, h]
  calc m = decimalVal (decimalDigits m) := (decimalVal_decimalDigits m).symm
    _ = decimalVal (decimalDigits n) := by rw [hd]
    _ = n := decimalVal_decimalDigits n

theorem intToString_data_ofNat (m : Nat) :
    (toString (Int.ofNat m)).data = decimalDigits m :=
  natRepr_data m

theorem intToString_data_negSucc (m : Nat) :
    (toString (Int.negSucc m)).data = '-' :: decimalDigits (m + 1) := by
  rw [show toString (Int.negSucc m) = "-" ++ Nat.repr (m + 1) from rfl,
    String.data_append, natRepr_data]
  rfl

theorem intToString_chars (i : Int) :
    ∀ c ∈ (toString i).data, (48 ≤ c.toNat ∧ c.toNat ≤ 57) ∨ c = '-' := by
  intro c hc
  match i with
  | .ofNat m =>
    rw [intToString_data_ofNat] at hc
    exact Or.inl (decimalDigits_are_digits m c hc)
  | .negSucc m =>
    rw [intToString_data_negSucc] at hc
    rcases List.mem_cons.mp hc with h | h
    · exact Or.inr h
    · exact Or.inl (decimalDigits_are_digits (m + 1) c h)

theorem intToString_injective {i j : Int} (h : toString i = toString j) : i = j := by
  have hd := congrArg String.data h
  match i, j with
  | .ofNat m, .ofNat n =>
    rw [intToString_data_ofNat, intToString_data_ofNat] at hd
    have : m = n := by
      calc m = decimalVal (decimalDigits m) := (decimalVal_decimalDigits m).symm
        _ = decimalVal (decimalDigits n) := by rw [hd]
        _ = n := decimalVal_decimalDigits n
    simp [this]
  | .negSucc m, .negSucc n =>
    rw [intToString_data_negSucc, intToString_data_negSucc] at hd
    have hmn : decimalDigits (m + 1) = decimalDigits (n + 1) := by
      simpa using hd
    have : m + 1 = n + 1 := by
      calc m + 1 = decimalVal (decimalDigits (m + 1)) := (decimalVal_decimalDigits _).symm
        _ = decimalVal (decimalDigits (n + 1)) := by rw [hmn]
        _ = n + 1 := decimalVal_decimalDigits _
    simp [show m = n by omega]
  | .ofNat m, .negSucc n =>
    exfalso
    rw [intToString_data_ofNat, intToString_data_negSucc] at hd
    match hm : decimalDigits m, hd with
    | [], hd2 => exact decimalDigits_ne_nil m hm
    | c :: _, hd2 =>
      have hc : c ∈ decimalDigits m := by rw [hm]; exact List.mem_cons_self _ _
      have hdig := (decimalDigits_are_digits m c hc).1
      have hceq : c = '-' := by
        have := List.head_eq_of_cons_eq hd2
        exact this
      rw [hceq] at hdig
      exact absurd hdig (by decide)
  | .negSucc m, .ofNat n =>
    exfalso
    rw [intToString_data_negSucc, intToString_data_ofNat] at hd
    match hn : decimalDigits n, hd with
    | [], hd2 => exact decimalDigits_ne_nil n hn
    | c :: _, hd2 =>
      have hc : c ∈ decimalDigits n := by rw [hn]; exact List.mem_cons_self _ _
      have hdig := (decimalDigits_are_digits n c hc).1
      have hceq : '-' = c := by
        have := List.head_eq_of_cons_eq hd2
        exact this
      rw [← hceq] at hdig
      exact absurd hdig (by decide)

theorem intToString_no_comma (i : Int) : ',' ∉ (toString i).data := by
  intro hmem
  rcases intToString_chars i ',' hmem with h | h
  · exact absurd h.1 (by decide)
  · exact absurd h (by decide)

theorem append_comma_inj :
    ∀ {xs1 xs2 ys1 ys2 : List Char},
      xs1 ++ ',' :: ys1 = xs2 ++ ',' :: ys2 → ',' ∉ xs1 → ',' ∉ xs2 →
      xs1 = xs2 ∧ ys1 = ys2 := by
  intro xs1
  induction xs1 with
  | nil =>
    intro xs2 ys1 ys2 h h1 h2
    match xs2 with
    | [] => simpa using h
    | b :: bs =>
      exfalso
      have hb : b = ',' := by
        have := (List.cons.injEq _ _ _ _ ▸ h).1
        exact this.symm
      exact h2 (hb ▸ List.mem_cons_self b bs)
  | cons a as ih =>
    intro xs2 ys1 ys2 h h1 h2
    match xs2 with
    | [] =>
      exfalso
      have ha : a = ',' := (List.cons.injEq _ _ _ _ ▸ h).1
      exact h1 (ha ▸ List.mem_cons_self a as)
    | b :: bs =>
      have hab : a = b := (List.cons.injEq _ _ _ _ ▸ h).1
      have htl : as ++ ',' :: ys1 = bs ++ ',' :: ys2 := (List.cons.injEq _ _ _ _ ▸ h).2
      have h1' : ',' ∉ as := fun hx => h1 (List.mem_cons_of_mem a hx)
      have h2' : ',' ∉ bs := fun hx => h2 (List.mem_cons_of_mem b hx)
      obtain ⟨he, hys⟩ := ih htl h1' h2'
      exact ⟨by rw [hab, he], hys⟩

theorem anchorIdFromUV_data (u v : Int) :
    (anchorIdFromUV u v).data =
      'u' :: ':' :: ((toString u).data ++ ',' :: 'v' :: ':' :: (toString v).data) := by
  rw [anchorIdFromUV]
  rw [show ("u:" ++ toString u ++ ",v:" ++ toString v) =
    ("u:" ++ (toString u ++ (",v:" ++ toString v))) by simp [String.append_assoc]]
  rw [String.data_append, String.data_append, String.data_append]
  rfl

theorem anchorIdFromUV_injective {u1 v1 u2 v2 : Int}
    (h : anchorIdFromUV u1 v1 = anchorIdFromUV u2 v2) : u1 = u2 ∧ v1 = v2 := by
  have hd := congrArg String.data h
  rw [anchorIdFromUV_data, anchorIdFromUV_data] at hd
  have hd2 : (toString u1).data ++ ',' :: 'v' :: ':' :: (toString v1).data =
      (toString u2).data ++ ',' :: 'v' :: ':' :: (toString v2).data := by
    have := (List.cons.injEq _ _ _ _ ▸ hd).2
    exact (List.cons.injEq _ _ _ _ ▸ this).2
  obtain ⟨hu, hv⟩ := append_comma_inj hd2 (intToString_no_comma u1) (intToString_no_comma u2)
  have hv2 : (toString v1).data = (toString v2).data := by
    have := (List.cons.injEq _ _ _ _ ▸ hv).2
    exact (List.cons.injEq _ _ _ _ ▸ this).2
  constructor
  · exact intToString_injective (String.ext hu)
  · exact intToString_injective (String.ext hv2)

/-! ## Plan membership and dependency structure -/

theorem inBounds_iff {x y w h : Int} :
    inBounds x y w h = true ↔ 0 ≤ x ∧ 0 ≤ y ∧ x < w ∧ y < h := by
  simp [inBounds, and_assoc]

theorem mem_intRangeIncl {lo hi x : Int} : x ∈ intRangeIncl lo hi ↔ lo ≤ x ∧ x ≤ hi := by
  simp only [intRangeIncl, List.mem_map, List.mem_range]
  constructor
  · rintro ⟨i, hi2, rfl⟩
    omega
  · intro hx
    exact ⟨(x - lo).toNat, by omega, by omega⟩

theorem stepTowardZero_eq (n : Int) :
    stepTowardZero n = if n = 0 then 0 else if 0 < n then n - 1 else n + 1 := by
  rw [stepTowardZero]
  by_cases h : n = 0
  · simp [h]
  · by_cases hp : 0 < n
    · rw [if_neg h, if_neg h, if_pos hp, Int.sign_eq_one_iff_pos.mpr hp]
    · have hn : n < 0 := by omega
      rw [if_neg h, if_neg h, if_neg hp, Int.sign_eq_neg_one_iff_neg.mpr hn]
      omega

theorem stepTowardZero_eq_self {n : Int} : stepTowardZero n = n ↔ n = 0 := by
  rw [stepTowardZero_eq]
  split_ifs <;> omega

theorem mem_planAnchors0 {input : BuildAnchorPlanInput} {a : AnchorTask} :
    a ∈ planAnchors0 input ↔
      ∃ u v : Int, -(max 0 input.layers) ≤ u ∧ u ≤ max 0 input.layers ∧
        -(max 0 input.layers) ≤ v ∧ v ≤ max 0 input.layers ∧
        inBounds (input.originX + 2 * u) (input.originY + 2 * v)
          input.mapWidth input.mapHeight = true ∧
        a = freshAnchor input u v := by
  simp only [planAnchors0, List.mem_flatMap, List.mem_filterMap, mem_intRangeIncl]
  constructor
  · rintro ⟨v, hv, u, hu, hif⟩
    by_cases hb : inBounds (input.originX + 2 * u) (input.originY + 2 * v)
        input.mapWidth input.mapHeight = true
    · rw [if_pos hb] at hif
      exact ⟨u, v, hu.1, hu.2, hv.1, hv.2, hb, (Option.some.injEq _ _ ▸ hif).symm⟩
    · rw [if_neg hb] at hif
      cases hif
  · rintro ⟨u, v, hu1, hu2, hv1, hv2, hb, rfl⟩
    exact ⟨v, ⟨hv1, hv2⟩, u, ⟨hu1, hu2⟩, by rw [if_pos hb]⟩

theorem lookupById_some {anchors : List AnchorTask} {id : String} {b : AnchorTask}
    (h : lookupById anchors id = some b) : b ∈ anchors ∧ b.id = id := by
  have h2 : anchors.find? (fun a => a.id == id) = some b := h
  refine ⟨List.mem_of_find?_eq_some h2, ?_⟩
  have := List.find?_some h2
  simpa using this

theorem lookupById_isSome_of_mem {anchors : List AnchorTask} {id : String}
    (h : ∃ b ∈ anchors, b.id = id) : (lookupById anchors id).isSome = true := by
  obtain ⟨b, hb, hid⟩ := h
  rw [lookupById]
  cases hfind : anchors.find? (fun a => a.id == id) with
  | some _ => rfl
  | none =>
    rw [List.find?_eq_none] at hfind
    exact absurd (by simpa using hid) (by simpa using hfind b hb)

/-- The id of every generated anchor is determined by its offsets. -/
theorem planAnchors0_id {input : BuildAnchorPlanInput} {a : AnchorTask}
    (h : a ∈ planAnchors0 input) : a.id = anchorIdFromUV a.u a.v := by
  obtain ⟨u, v, _, _, _, _, _, rfl⟩ := mem_planAnchors0.mp h
  rfl

/-- Both coordinates of the dependency offset stay inside a bound interval
and inside the map when the origin and the anchor are. -/
theorem depCoordInBounds {o w u : Int} (ho1 : 0 ≤ o) (ho2 : o < w)
    (hc1 : 0 ≤ o + 2 * u) (hc2 : o + 2 * u < w) :
    0 ≤ o + 2 * stepTowardZero u ∧ o + 2 * stepTowardZero u < w := by
  rw [stepTowardZero_eq]
  by_cases h : u = 0
  · simp [h]; omega
  · by_cases hp : 0 < u <;> simp [h, hp] <;> omega

theorem planDepPass_id (input : BuildAnchorPlanInput) (a : AnchorTask) :
    (planDepPass input a).id = a.id := by
  simp only [planDepPass]
  split_ifs <;> rfl

theorem planDepPass_proj (input : BuildAnchorPlanInput) (a : AnchorTask) :
    ∃ d : List String, planDepPass input a = { a with deps := d } := by
  simp only [planDepPass]
  split_ifs
  · exact ⟨a.deps, rfl⟩
  · exact ⟨_, rfl⟩
  · exact ⟨a.deps, rfl⟩

theorem planDepPass_origin {input : BuildAnchorPlanInput} {a : AnchorTask}
    (h0 : a.u = 0 ∧ a.v = 0) : planDepPass input a = a := by
  rw [planDepPass, if_pos h0]

/-- In a plan whose origin lies on the map, the dependency pass gives every
non-origin anchor exactly the dependency `(u - sign u, v - sign v)`, and that
anchor is itself in the generation list. -/
theorem planDepPass_nonorigin {input : BuildAnchorPlanInput} {u v : Int}
    (hor : inBounds input.originX input.originY input.mapWidth input.mapHeight = true)
    (hu1 : -(max 0 input.layers) ≤ u) (hu2 : u ≤ max 0 input.layers)
    (hv1 : -(max 0 input.layers) ≤ v) (hv2 : v ≤ max 0 input.layers)
    (hb : inBounds (input.originX + 2 * u) (input.originY + 2 * v)
      input.mapWidth input.mapHeight = true)
    (hno : ¬(u = 0 ∧ v = 0)) :
    planDepPass input (freshAnchor input u v) =
      { freshAnchor input u v with
        deps := [anchorIdFromUV (stepTowardZero u) (stepTowardZero v)] } ∧
      freshAnchor input (stepTowardZero u) (stepTowardZero v) ∈ planAnchors0 input := by
  have hu' : -(max 0 input.layers) ≤ stepTowardZero u ∧
      stepTowardZero u ≤ max 0 input.layers := by
    rw [stepTowardZero_eq]; split_ifs <;> omega
  have hv' : -(max 0 input.layers) ≤ stepTowardZero v ∧
      stepTowardZero v ≤ max 0 input.layers := by
    rw [stepTowardZero_eq]; split_ifs <;> omega
  have hb' : inBounds (input.originX + 2 * stepTowardZero u)
      (input.originY + 2 * stepTowardZero v) input.mapWidth input.mapHeight = true := by
    rw [inBounds_iff] at hor hb ⊢
    have hx := depCoordInBounds hor.1 hor.2.2.1 hb.1 hb.2.2.1
    have hy := depCoordInBounds hor.2.1 hor.2.2.2 hb.2.1 hb.2.2.2
    exact ⟨hx.1, hy.1, hx.2, hy.2⟩
  have hdepmem : freshAnchor input (stepTowardZero u) (stepTowardZero v) ∈
      planAnchors0 input :=
    mem_planAnchors0.mpr ⟨_, _, hu'.1, hu'.2, hv'.1, hv'.2, hb', rfl⟩
  refine ⟨?_, hdepmem⟩
  have hsome : (lookupById (planAnchors0 input)
      (anchorIdFromUV (stepTowardZero u) (stepTowardZero v))).isSome = true :=
    lookupById_isSome_of_mem ⟨_, hdepmem, rfl⟩
  have hne : anchorIdFromUV (stepTowardZero u) (stepTowardZero v) ≠
      (freshAnchor input u v).id := by
    intro he
    have he2 : anchorIdFromUV (stepTowardZero u) (stepTowardZero v) =
        anchorIdFromUV u v := he
    obtain ⟨heu, hev⟩ := anchorIdFromUV_injective he2
    rw [stepTowardZero_eq_self] at heu hev
    exact hno ⟨heu, hev⟩
  have hno' : ¬((freshAnchor input u v).u = 0 ∧ (freshAnchor input u v).v = 0) := hno
  rw [planDepPass, if_neg hno']
  show (if (lookupById (planAnchors0 input)
      (anchorIdFromUV (stepTowardZero (freshAnchor input u v).u)
        (stepTowardZero (freshAnchor input u v).v))).isSome = true ∧
      anchorIdFromUV (stepTowardZero (freshAnchor input u v).u)
        (stepTowardZero (freshAnchor input u v).v) ≠ (freshAnchor input u v).id
    then _ else _) = _
  rw [if_pos ⟨hsome, hne⟩]
  rfl

theorem mem_planAnchors1 {input : BuildAnchorPlanInput} {a : AnchorTask} :
    a ∈ planAnchors1 input ↔
      ∃ b ∈ planAnchors0 input, a = planDepPass input b := by
  simp only [planAnchors1, List.mem_map]
  constructor
  · rintro ⟨b, hb, rfl⟩; exact ⟨b, hb, rfl⟩
  · rintro ⟨b, hb, rfl⟩; exact ⟨b, hb, rfl⟩

theorem mem_planAnchors2 {input : BuildAnchorPlanInput} {a : AnchorTask} :
    a ∈ planAnchors2 input ↔
      ∃ b ∈ planAnchors1 input,
        a = { b with dependents := planDependentsOf input b.id } := by
  simp only [planAnchors2, List.mem_map]
  constructor
  · rintro ⟨b, hb, rfl⟩; exact ⟨b, hb, rfl⟩
  · rintro ⟨b, hb, rfl⟩; exact ⟨b, hb, rfl⟩

theorem mem_plan_anchors {input : BuildAnchorPlanInput} {a : AnchorTask} :
    a ∈ (buildAnchorPlan input).anchors ↔ a ∈ planAnchors2 input := by
  show a ∈ (planAnchors2 input).insertionSort anchorLe ↔ _
  exact (List.perm_insertionSort anchorLe _).mem_iff

theorem mem_plan_anchors_iff {input : BuildAnchorPlanInput} {a : AnchorTask} :
    a ∈ (buildAnchorPlan input).anchors ↔
      ∃ u v : Int, inGrid input u v ∧ a = planMember input u v := by
  rw [mem_plan_anchors, mem_planAnchors2]
  constructor
  · rintro ⟨b, hb1, rfl⟩
    rw [mem_planAnchors1] at hb1
    obtain ⟨c, hc0, rfl⟩ := hb1
    obtain ⟨u, v, h1, h2, h3, h4, h5, rfl⟩ := mem_planAnchors0.mp hc0
    refine ⟨u, v, ⟨h1, h2, h3, h4, h5⟩, ?_⟩
    simp only [planMember, planDepPass_id]
    rfl
  · rintro ⟨u, v, ⟨h1, h2, h3, h4, h5⟩, rfl⟩
    refine ⟨planDepPass input (freshAnchor input u v), ?_, ?_⟩
    · rw [mem_planAnchors1]
      exact ⟨freshAnchor input u v,
        mem_planAnchors0.mpr ⟨u, v, h1, h2, h3, h4, h5, rfl⟩, rfl⟩
    · simp only [planMember, planDepPass_id]
      rfl

theorem planMember_proj (input : BuildAnchorPlanInput) (u v : Int) :
    (planMember input u v).id = anchorIdFromUV u v ∧
    (planMember input u v).u = u ∧ (planMember input u v).v = v ∧
    (planMember input u v).x = input.originX + 2 * u ∧
    (planMember input u v).y = input.originY + 2 * v ∧
    (planMember input u v).priority = priorityForAnchor u v ∧
    (planMember input u v).status = .PENDING := by
  obtain ⟨d, hd⟩ := planDepPass_proj input (freshAnchor input u v)
  simp only [planMember, hd]
  exact ⟨rfl, rfl, rfl, rfl, rfl, rfl, rfl⟩

theorem inGrid_step {input : BuildAnchorPlanInput} {u v : Int}
    (hor : inBounds input.originX input.originY input.mapWidth input.mapHeight = true)
    (hg : inGrid input u v) :
    inGrid input (stepTowardZero u) (stepTowardZero v) := by
  obtain ⟨h1, h2, h3, h4, h5⟩ := hg
  refine ⟨?_, ?_, ?_, ?_, ?_⟩
  · rw [stepTowardZero_eq]; split_ifs <;> omega
  · rw [stepTowardZero_eq]; split_ifs <;> omega
  · rw [stepTowardZero_eq]; split_ifs <;> omega
  · rw [stepTowardZero_eq]; split_ifs <;> omega
  · rw [inBounds_iff] at hor h5 ⊢
    have hx := depCoordInBounds hor.1 hor.2.2.1 h5.1 h5.2.2.1
    have hy := depCoordInBounds hor.2.1 hor.2.2.2 h5.2.1 h5.2.2.2
    exact ⟨hx.1, hy.1, hx.2, hy.2⟩

theorem planMember_deps_origin (input : BuildAnchorPlanInput) :
    (planMember input 0 0).deps = [] := by
  have h := @planDepPass_origin input (freshAnchor input 0 0) ⟨rfl, rfl⟩
  simp only [planMember, h]
  rfl

theorem planMember_deps_nonorigin {input : BuildAnchorPlanInput} {u v : Int}
    (hor : inBounds input.originX input.originY input.mapWidth input.mapHeight = true)
    (hg : inGrid input u v) (hno : ¬(u = 0 ∧ v = 0)) :
    (planMember input u v).deps =
      [anchorIdFromUV (stepTowardZero u) (stepTowardZero v)] := by
  obtain ⟨h1, h2, h3, h4, h5⟩ := hg
  obtain ⟨hpass, _⟩ := planDepPass_nonorigin hor h1 h2 h3 h4 h5 hno
  simp only [planMember, hpass]

theorem parentUV_iterate :
    ∀ (k : Nat) (u v : Int), max u.natAbs v.natAbs = k →
      parentUV^[k] (u, v) = (0, 0) := by
  intro k
  induction k with
  | zero =>
    intro u v h
    have hu : u = 0 := by omega
    have hv : v = 0 := by omega
    rw [hu, hv]
    rfl
  | succ k ih =>
    intro u v h
    rw [Function.iterate_succ_apply]
    show parentUV^[k] (stepTowardZero u, stepTowardZero v) = (0, 0)
    apply ih
    rw [stepTowardZero_eq, stepTowardZero_eq]
    split_ifs <;> omega

/-- Claim C2: for every plan whose origin lies inside
`[0, mapWidth) × [0, mapHeight)`: the origin anchor `u:0,v:0` is in the plan
with no dependencies; every non-origin anchor has exactly one dependency,
namely the id of the in-plan anchor at `(u - sign u, v - sign v)`; plan
anchors are uniquely determined by their ids; and iterating the dependency
step from any anchor reaches the origin offset — the dependency graph over
the plan's anchors is a tree rooted at `u:0,v:0`. -/
theorem c2_plan_dependency_tree (input : BuildAnchorPlanInput)
    (hor : inBounds input.originX input.originY input.mapWidth input.mapHeight = true) :
    (∃ o ∈ (buildAnchorPlan input).anchors,
      o.id = anchorIdFromUV 0 0 ∧ o.u = 0 ∧ o.v = 0 ∧ o.deps = []) ∧
    (∀ a ∈ (buildAnchorPlan input).anchors, ¬(a.u = 0 ∧ a.v = 0) →
      a.deps = [anchorIdFromUV (stepTowardZero a.u) (stepTowardZero a.v)] ∧
      ∃ b ∈ (buildAnchorPlan input).anchors,
        b.id = anchorIdFromUV (stepTowardZero a.u) (stepTowardZero a.v) ∧
        b.u = stepTowardZero a.u ∧ b.v = stepTowardZero a.v) ∧
    (∀ b ∈ (buildAnchorPlan input).anchors, ∀ c ∈ (buildAnchorPlan input).anchors,
      b.id = c.id → b = c) ∧
    (∀ a ∈ (buildAnchorPlan input).anchors,
      parentUV^[max a.u.natAbs a.v.natAbs] (a.u, a.v) = (0, 0)) := by
  have horgrid : inGrid input 0 0 := by
    refine ⟨by omega, by omega, by omega, by omega, by simpa using hor⟩
  refine ⟨?_, ?_, ?_, ?_⟩
  · refine ⟨planMember input 0 0, mem_plan_anchors_iff.mpr ⟨0, 0, horgrid, rfl⟩, ?_⟩
    obtain ⟨p1, p2, p3, _⟩ := planMember_proj input 0 0
    exact ⟨p1, p2, p3, planMember_deps_origin input⟩
  · intro a ha hno
    obtain ⟨u, v, hg, rfl⟩ := mem_plan_anchors_iff.mp ha
    obtain ⟨p1, p2, p3, _⟩ := planMember_proj input u v
    rw [p2, p3]
    have hno' : ¬(u = 0 ∧ v = 0) := by
      intro h
      exact hno ⟨by rw [p2, h.1], by rw [p3, h.2]⟩
    refine ⟨planMember_deps_nonorigin hor hg hno', ?_⟩
    have hg' := inGrid_step hor hg
    obtain ⟨q1, q2, q3, _⟩ :=
      planMember_proj input (stepTowardZero u) (stepTowardZero v)
    exact ⟨planMember input (stepTowardZero u) (stepTowardZero v),
      mem_plan_anchors_iff.mpr ⟨_, _, hg', rfl⟩, q1, q2, q3⟩
  · intro b hb c hc hid
    obtain ⟨u1, v1, _, rfl⟩ := mem_plan_anchors_iff.mp hb
    obtain ⟨u2, v2, _, rfl⟩ := mem_plan_anchors_iff.mp hc
    obtain ⟨p1, _⟩ := planMember_proj input u1 v1
    obtain ⟨q1, _⟩ := planMember_proj input u2 v2
    rw [p1, q1] at hid
    obtain ⟨rfl, rfl⟩ := anchorIdFromUV_injective hid
    rfl
  · intro a ha
    obtain ⟨u, v, _, rfl⟩ := mem_plan_anchors_iff.mp ha
    obtain ⟨_, p2, p3, _⟩ := planMember_proj input u v
    rw [p2, p3]
    exact parentUV_iterate _ u v rfl

/-- Witness for `c2_plan_dependency_tree` at a concrete in-bounds input. -/
theorem c2_plan_dependency_tree_witness :
    inBounds 20 20 64 64 = true ∧
    (∃ o ∈ (buildAnchorPlan ⟨20, 20, 1, 64, 64⟩).anchors,
      o.id = anchorIdFromUV 0 0 ∧ o.u = 0 ∧ o.v = 0 ∧ o.deps = []) :=
  ⟨by decide, ((c2_plan_dependency_tree ⟨20, 20, 1, 64, 64⟩ (by decide)).1)⟩

/-! ## Claim C9: the `layers` clamp -/

/-- Counterexample to claim C9: with `layers = 257` on a wide map the
reported `state.layers` is 256, yet the plan contains the anchor `u:257,v:0`
— `buildAnchorPlan` receives the unclamped layers value. -/
theorem c9_counterexample :
    stateLayers (JSNum.finite 257) = 256 ∧
    ∃ a ∈ (buildAnchorPlan ⟨600, 0, 257, 1200, 1⟩).anchors, 256 < a.u.natAbs := by
  constructor
  · rw [stateLayers, clampInt]
    norm_num [JSNum.isFinite, jsFloor]
  · refine ⟨planMember ⟨600, 0, 257, 1200, 1⟩ 257 0,
      mem_plan_anchors_iff.mpr ⟨257, 0, by decide, rfl⟩, ?_⟩
    obtain ⟨_, p2, _⟩ := planMember_proj ⟨600, 0, 257, 1200, 1⟩ 257 0
    rw [p2]
    decide

/-- Claim C9 (amended): `state.layers` is the input clamped into `[0, 256]`,
but the plan is built from the unclamped value — every plan anchor satisfies
`|u| ≤ max 0 layers` and `|v| ≤ max 0 layers` (a lower clamp only), so
offsets beyond 256 appear whenever `layers > 256` and the map is large
enough. -/
theorem c9_layers_clamp_amended (input : BuildAnchorPlanInput) :
    0 ≤ stateLayers (JSNum.finite (input.layers : Rat)) ∧
    stateLayers (JSNum.finite (input.layers : Rat)) ≤ 256 ∧
    stateLayers (JSNum.finite (input.layers : Rat)) = max 0 (min 256 input.layers) ∧
    ∀ a ∈ (buildAnchorPlan input).anchors,
      -(max 0 input.layers) ≤ a.u ∧ a.u ≤ max 0 input.layers ∧
      -(max 0 input.layers) ≤ a.v ∧ a.v ≤ max 0 input.layers := by
  have hfloor : jsFloor (JSNum.finite (input.layers : Rat)) = input.layers := by
    simp [jsFloor]
  have hval : stateLayers (JSNum.finite (input.layers : Rat)) =
      max 0 (min 256 input.layers) := by
    rw [stateLayers, clampInt]
    simp [JSNum.isFinite, hfloor]
  refine ⟨by omega, by omega, hval, ?_⟩
  intro a ha
  obtain ⟨u, v, hg, rfl⟩ := mem_plan_anchors_iff.mp ha
  obtain ⟨_, p2, p3, _⟩ := planMember_proj input u v
  rw [p2, p3]
  exact ⟨hg.1, hg.2.1, hg.2.2.1, hg.2.2.2.1⟩

/-! ## The comparator is a total preorder; the sorted plan order -/

theorem localeCompare_le_zero {a b : String} : localeCompare a b ≤ 0 ↔ a ≤ b := by
  rw [localeCompare]
  split_ifs with hab hba
  · exact iff_of_true (by norm_num) (le_of_lt hab)
  · exact iff_of_false (by norm_num) (not_le.mpr hba)
  · exact iff_of_true le_rfl (not_lt.mp hba)

theorem lexCmp_zipWith_trans :
    ∀ (xs ys zs : List Int) (fa fb fc : Int),
      (fa ≤ 0 → fb ≤ 0 → fc ≤ 0) →
      xs.length = ys.length → ys.length = zs.length →
      lexCmp (List.zipWith (fun x y => x - y) xs ys) fa ≤ 0 →
      lexCmp (List.zipWith (fun x y => x - y) ys zs) fb ≤ 0 →
      lexCmp (List.zipWith (fun x y => x - y) xs zs) fc ≤ 0 := by
  intro xs
  induction xs with
  | nil =>
    intro ys zs fa fb fc hf h1 h2 ha hb
    have hys : ys = [] := List.eq_nil_of_length_eq_zero h1.symm
    have hzs : zs = [] := List.eq_nil_of_length_eq_zero (hys ▸ h2).symm
    subst hys; subst hzs
    simp only [List.zipWith_nil_right, lexCmp] at ha hb ⊢
    exact hf ha hb
  | cons x xs ih =>
    intro ys zs fa fb fc hf h1 h2 ha hb
    match ys, zs with
    | [], _ => simp at h1
    | _ :: _, [] => simp at h2
    | y :: ys, z :: zs =>
      simp only [List.zipWith_cons_cons, lexCmp] at ha hb ⊢
      by_cases hxy : x - y = 0
      · by_cases hyz : y - z = 0
        · rw [if_pos hxy] at ha
          rw [if_pos hyz] at hb
          rw [if_pos (by omega : x - z = 0)]
          exact ih ys zs fa fb fc hf (by simpa using h1) (by simpa using h2) ha hb
        · rw [if_pos hxy] at ha
          rw [if_neg hyz] at hb
          rw [if_neg (by omega : ¬x - z = 0)]
          omega
      · by_cases hyz : y - z = 0
        · rw [if_neg hxy] at ha
          rw [if_neg (by omega : ¬x - z = 0)]
          omega
        · rw [if_neg hxy] at ha
          rw [if_neg hyz] at hb
          have hxz : ¬x - z = 0 := by omega
          rw [if_neg hxz]
          omega

theorem lexCmp_zipWith_total :
    ∀ (xs ys : List Int) (fa fb : Int), (fa ≤ 0 ∨ fb ≤ 0) →
      xs.length = ys.length →
      lexCmp (List.zipWith (fun x y => x - y) xs ys) fa ≤ 0 ∨
      lexCmp (List.zipWith (fun x y => x - y) ys xs) fb ≤ 0 := by
  intro xs
  induction xs with
  | nil =>
    intro ys fa fb hf h1
    have hys : ys = [] := List.eq_nil_of_length_eq_zero h1.symm
    subst hys
    simpa [lexCmp] using hf
  | cons x xs ih =>
    intro ys fa fb hf h1
    match ys with
    | [] => simp at h1
    | y :: ys =>
      simp only [List.zipWith_cons_cons, lexCmp]
      by_cases hxy : x - y = 0
      · rw [if_pos hxy, if_pos (by omega : y - x = 0)]
        exact ih ys fa fb hf (by simpa using h1)
      · rw [if_neg hxy, if_neg (by omega : ¬y - x = 0)]
        omega

theorem pairwise_orderedInsert {α : Type} {r : α → α → Prop} [DecidableRel r]
    (total : ∀ x y, r x y ∨ r y x) (trans : ∀ x y z, r x y → r y z → r x z) :
    ∀ (a : α) (l : List α), l.Pairwise r → (l.orderedInsert r a).Pairwise r := by
  intro a l
  induction l with
  | nil => intro _; simp [List.orderedInsert]
  | cons b l ih =>
    intro hp
    rw [List.orderedInsert]
    rcases List.pairwise_cons.mp hp with ⟨hb, hl⟩
    by_cases hr : r a b
    · rw [if_pos hr]
      refine List.pairwise_cons.mpr ⟨?_, hp⟩
      intro x hx
      rcases List.mem_cons.mp hx with rfl | hx
      · exact hr
      · exact trans a b x hr (hb x hx)
    · rw [if_neg hr]
      refine List.pairwise_cons.mpr ⟨?_, ih hl⟩
      intro x hx
      rcases List.mem_cons.mp ((List.perm_orderedInsert r a l).mem_iff.mp hx) with hxa | hx
      · rcases total a b with h | h
        · exact absurd h hr
        · exact hxa ▸ h
      · exact hb x hx

theorem pairwise_insertionSort {α : Type} {r : α → α → Prop} [DecidableRel r]
    (total : ∀ x y, r x y ∨ r y x) (trans : ∀ x y z, r x y → r y z → r x z) :
    ∀ l : List α, (l.insertionSort r).Pairwise r := by
  intro l
  induction l with
  | nil => simp [List.insertionSort]
  | cons a l ih => exact pairwise_orderedInsert total trans a _ ih

/-- `compareAnchorsByPriority` is the lexicographic comparison of the
pointwise differences of `priorityKey`, with `localeCompare` on ids as the
final fallback. -/
theorem compare_eq_lexCmp (a b : AnchorTask) :
    compareAnchorsByPriority a b =
      lexCmp (List.zipWith (fun x y => x - y) (priorityKey a) (priorityKey b))
        (localeCompare a.id b.id) := by
  rw [compareAnchorsByPriority]
  simp only [priorityKey, List.zipWith_cons_cons, List.zipWith_nil_left]
  by_cases h1 : a.priority.distance = b.priority.distance
  case neg => simp [lexCmp, h1, sub_eq_zero]
  by_cases h2 : a.priority.bucket = b.priority.bucket
  case neg => simp [lexCmp, h1, h2, sub_eq_zero]
  by_cases hb1 : b.priority.bucket = 1
  · by_cases h3 : |a.u| = |b.u|
    case neg => simp [lexCmp, h1, h2, hb1, h3, sub_eq_zero]
    by_cases h4 : a.u = b.u
    case neg => simp [lexCmp, h1, h2, hb1, h3, h4, sub_eq_zero]
    by_cases h5 : a.v = b.v
    case neg => simp [lexCmp, h1, h2, hb1, h3, h4, h5, sub_eq_zero]
    simp [lexCmp, h1, h2, hb1, h3, h4, h5, sub_eq_zero]
  · by_cases hb2 : b.priority.bucket = 2
    · by_cases h3 : |a.v| = |b.v|
      case neg => simp [lexCmp, h1, h2, hb1, hb2, h3, sub_eq_zero]
      by_cases h4 : a.v = b.v
      case neg => simp [lexCmp, h1, h2, hb1, hb2, h3, h4, sub_eq_zero]
      by_cases h5 : a.u = b.u
      case neg => simp [lexCmp, h1, h2, hb1, hb2, h3, h4, h5, sub_eq_zero]
      simp [lexCmp, h1, h2, hb1, hb2, h3, h4, h5, sub_eq_zero]
    · by_cases hb3 : b.priority.bucket = 3
      · by_cases h3 : a.priority.quadrantOrder = b.priority.quadrantOrder
        case neg => simp [lexCmp, h1, h2, hb1, hb2, hb3, h3, sub_eq_zero]
        by_cases h4 : max |a.u| |a.v| = max |b.u| |b.v|
        case neg => simp [lexCmp, h1, h2, hb1, hb2, hb3, h3, h4, sub_eq_zero]
        by_cases h5 : |a.u| = |b.u|
        case neg => simp [lexCmp, h1, h2, hb1, hb2, hb3, h3, h4, h5, sub_eq_zero]
        by_cases h6 : a.v = b.v
        case neg => simp [lexCmp, h1, h2, hb1, hb2, hb3, h3, h4, h5, h6, sub_eq_zero]
        by_cases h7 : a.u = b.u
        case neg => simp [lexCmp, h1, h2, hb1, hb2, hb3, h3, h4, h5, h6, h7, sub_eq_zero]
        simp [lexCmp, h1, h2, hb1, hb2, hb3, h3, h4, h5, h6, h7, sub_eq_zero]
      · by_cases h3 : a.v = b.v
        case neg => simp [lexCmp, h1, h2, hb1, hb2, hb3, h3, sub_eq_zero]
        by_cases h4 : a.u = b.u
        case neg => simp [lexCmp, h1, h2, hb1, hb2, hb3, h3, h4, sub_eq_zero]
        simp [lexCmp, h1, h2, hb1, hb2, hb3, h3, h4, sub_eq_zero]

theorem anchorLe_total (a b : AnchorTask) : anchorLe a b ∨ anchorLe b a := by
  rw [anchorLe, anchorLe, compare_eq_lexCmp, compare_eq_lexCmp]
  apply lexCmp_zipWith_total
  · rcases le_total a.id b.id with h | h
    · exact Or.inl (localeCompare_le_zero.mpr h)
    · exact Or.inr (localeCompare_le_zero.mpr h)
  · rfl

theorem anchorLe_trans (a b c : AnchorTask) (h1 : anchorLe a b) (h2 : anchorLe b c) :
    anchorLe a c := by
  rw [anchorLe, compare_eq_lexCmp] at h1 h2 ⊢
  refine lexCmp_zipWith_trans (priorityKey a) (priorityKey b) (priorityKey c)
    _ _ _ ?_ rfl rfl h1 h2
  intro ha hb
  exact localeCompare_le_zero.mpr
    (le_trans (localeCompare_le_zero.mp ha) (localeCompare_le_zero.mp hb))

theorem plan_anchors_pairwise (input : BuildAnchorPlanInput) :
    (buildAnchorPlan input).anchors.Pairwise anchorLe := by
  show ((planAnchors2 input).insertionSort anchorLe).Pairwise anchorLe
  exact pairwise_insertionSort anchorLe_total anchorLe_trans _

theorem plan_anchor_priority {input : BuildAnchorPlanInput} {a : AnchorTask}
    (h : a ∈ (buildAnchorPlan input).anchors) :
    a.priority = priorityForAnchor a.u a.v := by
  obtain ⟨u, v, _, rfl⟩ := mem_plan_anchors_iff.mp h
  obtain ⟨_, p2, p3, _, _, p6, _⟩ := planMember_proj input u v
  rw [p2, p3, p6]

theorem priorityForAnchor_axisX {u : Int} (h : u ≠ 0) :
    priorityForAnchor u 0 = ⟨|u|, 1, 4⟩ := by
  rw [priorityForAnchor]
  simp [h]

/-! ## Claim C6: axis-X tie-breaking in the priority order -/

/-- Counterexample to claim C6: in the concrete plan with origin `(10, 10)`,
one layer, on a 64 by 64 map, the axis-X anchor with negative `u` comes
BEFORE the one with positive `u` in `priorityOrder` — the comparator orders
by `u` ascending at equal `|u|`, so the positive anchor does not precede the
negative one. -/
theorem c6_counterexample :
    "u:-1,v:0" ∈ (buildAnchorPlan ⟨10, 10, 1, 64, 64⟩).priorityOrder ∧
    "u:1,v:0" ∈ (buildAnchorPlan ⟨10, 10, 1, 64, 64⟩).priorityOrder ∧
    (buildAnchorPlan ⟨10, 10, 1, 64, 64⟩).priorityOrder.indexOf "u:-1,v:0" <
      (buildAnchorPlan ⟨10, 10, 1, 64, 64⟩).priorityOrder.indexOf "u:1,v:0" := by
  decide

/-- Claim C6 (amended): in the priority order produced by `buildAnchorPlan`,
for every pair of distinct axis-X anchors with the same `|u|`, the anchor
with NEGATIVE `u` precedes the anchor with positive `u` (the comparator
breaks the `|u|` tie by `u` ascending). -/
theorem c6_axis_x_order_amended (input : BuildAnchorPlanInput)
    (i j : Fin (buildAnchorPlan input).anchors.length) (hij : i < j)
    (hAv : ((buildAnchorPlan input).anchors.get i).v = 0)
    (hBv : ((buildAnchorPlan input).anchors.get j).v = 0)
    (hA0 : ((buildAnchorPlan input).anchors.get i).u ≠ 0)
    (habs : ((buildAnchorPlan input).anchors.get i).u.natAbs =
      ((buildAnchorPlan input).anchors.get j).u.natAbs)
    (hne : ((buildAnchorPlan input).anchors.get i).u ≠
      ((buildAnchorPlan input).anchors.get j).u) :
    ((buildAnchorPlan input).anchors.get i).u < 0 ∧
    0 < ((buildAnchorPlan input).anchors.get j).u := by
  have hle : anchorLe ((buildAnchorPlan input).anchors.get i)
      ((buildAnchorPlan input).anchors.get j) :=
    List.pairwise_iff_get.mp (plan_anchors_pairwise input) i j hij
  set A := (buildAnchorPlan input).anchors.get i with hA
  set B := (buildAnchorPlan input).anchors.get j with hB
  have hAmem : A ∈ (buildAnchorPlan input).anchors := List.get_mem _ i.1 i.2
  have hBmem : B ∈ (buildAnchorPlan input).anchors := List.get_mem _ j.1 j.2
  have hB0 : B.u ≠ 0 := by
    intro h0
    rw [h0] at habs
    simp at habs
    exact hA0 (by omega)
  have hAp : A.priority = ⟨|A.u|, 1, 4⟩ := by
    rw [plan_anchor_priority hAmem, hAv, priorityForAnchor_axisX hA0]
  have hBp : B.priority = ⟨|B.u|, 1, 4⟩ := by
    rw [plan_anchor_priority hBmem, hBv, priorityForAnchor_axisX hB0]
  have habs' : |A.u| = |B.u| := by
    rw [Int.abs_eq_natAbs, Int.abs_eq_natAbs, habs]
  rw [anchorLe, compareAnchorsByPriority, hAp, hBp] at hle
  simp only [habs', hne] at hle
  simp [hne] at hle
  constructor <;> omega

/-- Witness for `c6_axis_x_order_amended` at the concrete one-layer plan:
position 1 holds `u:-1,v:0` and position 2 holds `u:1,v:0`. -/
theorem c6_axis_x_order_amended_witness :
    ((buildAnchorPlan ⟨10, 10, 1, 64, 64⟩).anchors.get ⟨1, by decide⟩).u < 0 ∧
    0 < ((buildAnchorPlan ⟨10, 10, 1, 64, 64⟩).anchors.get ⟨2, by decide⟩).u :=
  c6_axis_x_order_amended ⟨10, 10, 1, 64, 64⟩ ⟨1, by decide⟩ ⟨2, by decide⟩
    (by decide) (by decide) (by decide) (by decide) (by decide) (by decide)

/-! ## Claim C10: non-finite option values clamp to the lower bound -/

/-- Claim C10: for every numeric option routed through `clampInt`, a
non-finite supplied value (NaN or an infinity) yields the option's lower
bound, not its upper bound — e.g. `maxParallel = Infinity` gives effective
parallelism 1, not 16. -/
theorem c10_nonfinite_clamps_to_min (v : JSNum) (opts : BatchRunNumericOptions)
    (hv : v.isFinite = false) :
    (∀ lo hi : Int, clampInt v lo hi = lo) ∧
    (opts.maxParallel = some v →
      effectiveMaxParallel opts = 1 ∧ effectiveMaxParallel opts ≠ 16) ∧
    (opts.maxGenerateRetries = some v → effectiveMaxGenerateRetries opts = 0) ∧
    (opts.parentJobRetries = some v → effectiveParentJobRetries opts = 0) ∧
    (opts.parentWorkerConcurrency = some v → effectiveParentWorkerConcurrency opts = 1) ∧
    (opts.parentDebounceMs = some v → effectiveParentDebounceMs opts = 0) ∧
    (opts.parentWaveBatchSize = some v → effectiveParentWaveBatchSize opts = 1) ∧
    (opts.parentLeafBatchSize = some v → effectiveParentLeafBatchSize opts = 1) ∧
    (opts.parentCascadeDepth = some v → effectiveParentCascadeDepth opts = 0) := by
  have hgen : ∀ lo hi : Int, clampInt v lo hi = lo := by
    intro lo hi
    simp [clampInt, hv]
  refine ⟨hgen, ?_, ?_, ?_, ?_, ?_, ?_, ?_, ?_⟩
  · intro h
    rw [effectiveMaxParallel, h, Option.getD_some, hgen 1 16]
    exact ⟨rfl, by norm_num⟩
  · intro h; rw [effectiveMaxGenerateRetries, h, Option.getD_some, hgen 0 10]
  · intro h; rw [effectiveParentJobRetries, h, Option.getD_some, hgen 0 10]
  · intro h; rw [effectiveParentWorkerConcurrency, h, Option.getD_some, hgen 1 4]
  · intro h; rw [effectiveParentDebounceMs, h, Option.getD_some, hgen 0 60000]
  · intro h; rw [effectiveParentWaveBatchSize, h, Option.getD_some, hgen 1 64]
  · intro h; rw [effectiveParentLeafBatchSize, h, Option.getD_some, hgen 1 10000]
  · intro h; rw [effectiveParentCascadeDepth, h, Option.getD_some, hgen 0 opts.z]

/-- Witness for `c10_nonfinite_clamps_to_min` at `Infinity` with every
option supplied as `Infinity`. -/
theorem c10_nonfinite_clamps_to_min_witness :
    JSNum.posInf.isFinite = false ∧
    effectiveMaxParallel
      { z := 6, maxParallel := some JSNum.posInf, maxGenerateRetries := some JSNum.posInf,
        parentJobRetries := some JSNum.posInf, parentWorkerConcurrency := some JSNum.posInf,
        parentDebounceMs := some JSNum.posInf, parentWaveBatchSize := some JSNum.posInf,
        parentLeafBatchSize := some JSNum.posInf, parentCascadeDepth := some JSNum.posInf } = 1 :=
  ⟨by decide,
    ((c10_nonfinite_clamps_to_min JSNum.posInf
      { z := 6, maxParallel := some JSNum.posInf, maxGenerateRetries := some JSNum.posInf,
        parentJobRetries := some JSNum.posInf, parentWorkerConcurrency := some JSNum.posInf,
        parentDebounceMs := some JSNum.posInf, parentWaveBatchSize := some JSNum.posInf,
        parentLeafBatchSize := some JSNum.posInf, parentCascadeDepth := some JSNum.posInf }
      (by decide)).2.1 rfl).1⟩

/-! ## Claim C4: the anchor retry loop -/

theorem runAnchorWithRetryGo_spec (outcomeAt : Nat → AttemptOutcome) (maxAttempts : Nat) :
    ∀ (attempt : Nat) (sleeps : List Int), 1 ≤ attempt → attempt ≤ maxAttempts →
      attempt ≤ (runAnchorWithRetryGo outcomeAt maxAttempts attempt sleeps).attempts ∧
      (runAnchorWithRetryGo outcomeAt maxAttempts attempt sleeps).attempts ≤ maxAttempts ∧
      ((runAnchorWithRetryGo outcomeAt maxAttempts attempt sleeps).ok = false →
        (runAnchorWithRetryGo outcomeAt maxAttempts attempt sleeps).attempts = maxAttempts) ∧
      (∀ k, attempt ≤ k →
        k < (runAnchorWithRetryGo outcomeAt maxAttempts attempt sleeps).attempts →
        ∃ e, outcomeAt k = .fail e) ∧
      (runAnchorWithRetryGo outcomeAt maxAttempts attempt sleeps).sleeps =
        sleeps.reverse ++
          (List.range ((runAnchorWithRetryGo outcomeAt maxAttempts attempt sleeps).attempts
              - attempt)).map
            (fun i => expectedRetryDelay outcomeAt (attempt + i)) := by
  have main : ∀ (n attempt : Nat) (sleeps : List Int), maxAttempts - attempt = n →
      1 ≤ attempt → attempt ≤ maxAttempts →
      attempt ≤ (runAnchorWithRetryGo outcomeAt maxAttempts attempt sleeps).attempts ∧
      (runAnchorWithRetryGo outcomeAt maxAttempts attempt sleeps).attempts ≤ maxAttempts ∧
      ((runAnchorWithRetryGo outcomeAt maxAttempts attempt sleeps).ok = false →
        (runAnchorWithRetryGo outcomeAt maxAttempts attempt sleeps).attempts = maxAttempts) ∧
      (∀ k, attempt ≤ k →
        k < (runAnchorWithRetryGo outcomeAt maxAttempts attempt sleeps).attempts →
        ∃ e, outcomeAt k = .fail e) ∧
      (runAnchorWithRetryGo outcomeAt maxAttempts attempt sleeps).sleeps =
        sleeps.reverse ++
          (List.range ((runAnchorWithRetryGo outcomeAt maxAttempts attempt sleeps).attempts
              - attempt)).map
            (fun i => expectedRetryDelay outcomeAt (attempt + i)) := by
    intro n
    induction n with
    | zero =>
      intro attempt sleeps hn h1 h2
      have heq : attempt = maxAttempts := by omega
      rw [runAnchorWithRetryGo]
      cases houtc : outcomeAt attempt with
      | ok =>
        dsimp only
        refine ⟨le_refl _, by simpa using h2, by simp, ?_, by simp⟩
        intro k hk1 hk2
        omega
      | fail e =>
        dsimp only
        rw [dif_pos (by omega : maxAttempts ≤ attempt)]
        refine ⟨le_refl _, by simpa using h2, fun _ => heq, ?_, by simp⟩
        intro k hk1 hk2
        simp at hk2
        have : k = attempt := by omega
        exact ⟨e, this ▸ houtc⟩
    | succ n ih =>
      intro attempt sleeps hn h1 h2
      rw [runAnchorWithRetryGo]
      cases houtc : outcomeAt attempt with
      | ok =>
        dsimp only
        refine ⟨le_refl _, by simpa using h2, by simp, ?_, by simp⟩
        intro k hk1 hk2
        omega
      | fail e =>
        dsimp only
        rw [dif_neg (by omega : ¬maxAttempts ≤ attempt)]
        set dms := (retryAfterMsFromUnknown e).getD (backoffDelayMs attempt) with hdms
        obtain ⟨ih1, ih2, ih3, ih4, ih5⟩ :=
          ih (attempt + 1) (dms :: sleeps) (by omega) (by omega) (by omega)
        refine ⟨by omega, ih2, ih3, ?_, ?_⟩
        · intro k hk1 hk2
          rcases Nat.eq_or_lt_of_le hk1 with rfl | hk3
          · exact ⟨e, houtc⟩
          · exact ih4 k hk3 hk2
        · rw [ih5]
          have hm : (runAnchorWithRetryGo outcomeAt maxAttempts (attempt + 1)
              (dms :: sleeps)).attempts - attempt =
              ((runAnchorWithRetryGo outcomeAt maxAttempts (attempt + 1)
                (dms :: sleeps)).attempts - (attempt + 1)) + 1 := by
            omega
          rw [hm, List.range_succ_eq_map, List.map_cons, List.map_map,
            List.reverse_cons, List.append_assoc, List.singleton_append]
          have hhead : expectedRetryDelay outcomeAt (attempt + 0) = dms := by
            simp [expectedRetryDelay, houtc, hdms]
          rw [hhead]
          have htail : ∀ l : List Nat,
              List.map ((fun i => expectedRetryDelay outcomeAt (attempt + i)) ∘ Nat.succ) l =
              List.map (fun i => expectedRetryDelay outcomeAt (attempt + 1 + i)) l := by
            intro l
            apply List.map_congr_left
            intro i _
            simp only [Function.comp_apply]
            congr 1
            omega
          rw [htail]
  intro attempt sleeps h1 h2
  exact main (maxAttempts - attempt) attempt sleeps rfl h1 h2

/-- Claim C4: for every anchor, `runAnchorWithRetry` makes at most
`maxGenerateRetries + 1` attempts; a failed result has exactly (hence at
least) `maxGenerateRetries + 1` attempts; and the sleep after a failed
attempt `k` (before attempt `k + 1`) is the surfaced `retry_after` hint
converted to milliseconds when it exists and
`min(15000, 500 * 2 ^ (k - 1))` milliseconds otherwise. -/
theorem c4_run_anchor_retry (maxGenerateRetries : Nat) (outcomeAt : Nat → AttemptOutcome) :
    1 ≤ (runAnchorWithRetry maxGenerateRetries outcomeAt).attempts ∧
    (runAnchorWithRetry maxGenerateRetries outcomeAt).attempts ≤ maxGenerateRetries + 1 ∧
    ((runAnchorWithRetry maxGenerateRetries outcomeAt).ok = false →
      (runAnchorWithRetry maxGenerateRetries outcomeAt).attempts = maxGenerateRetries + 1) ∧
    (runAnchorWithRetry maxGenerateRetries outcomeAt).sleeps.length =
      (runAnchorWithRetry maxGenerateRetries outcomeAt).attempts - 1 ∧
    (∀ k : Nat, ∀ hk : k < (runAnchorWithRetry maxGenerateRetries outcomeAt).sleeps.length,
      ∃ e, outcomeAt (k + 1) = .fail e ∧
        (runAnchorWithRetry maxGenerateRetries outcomeAt).sleeps.get ⟨k, hk⟩ =
          (retryAfterMsFromUnknown e).getD (min 15000 (500 * 2 ^ k))) := by
  obtain ⟨g1, g2, g3, g4, g5⟩ :=
    runAnchorWithRetryGo_spec outcomeAt (maxGenerateRetries + 1) 1 [] le_rfl (by omega)
  rw [runAnchorWithRetry]
  have hlen : (runAnchorWithRetryGo outcomeAt (maxGenerateRetries + 1) 1 []).sleeps.length =
      (runAnchorWithRetryGo outcomeAt (maxGenerateRetries + 1) 1 []).attempts - 1 := by
    rw [g5]
    simp
  refine ⟨g1, g2, g3, hlen, ?_⟩
  intro k hk
  have hk2 : k < (runAnchorWithRetryGo outcomeAt (maxGenerateRetries + 1) 1 []).attempts - 1 := by
    rw [← hlen]
    exact hk
  obtain ⟨e, he⟩ := g4 (k + 1) (by omega) (by omega)
  refine ⟨e, he, ?_⟩
  have hval : (runAnchorWithRetryGo outcomeAt (maxGenerateRetries + 1) 1 []).sleeps.get ⟨k, hk⟩ =
      expectedRetryDelay outcomeAt (1 + k) := by
    have h := g5
    simp only [List.reverse_nil, List.nil_append] at h
    rw [List.get_of_eq h]
    simp
  rw [hval]
  have h1k : 1 + k = k + 1 := by omega
  rw [h1k, expectedRetryDelay]
  simp only [he]
  rw [backoffDelayMs]
  have hsub : k + 1 - 1 = k := by omega
  rw [hsub]

/-! ## Claim C8: review queue FIFO and settle-once -/

theorem settledIdxs_append (l1 l2 : List RQEvent) :
    settledIdxs (l1 ++ l2) = settledIdxs l1 ++ settledIdxs l2 :=
  List.filterMap_append _ _ _

theorem activatedIdxs_append (l1 l2 : List RQEvent) :
    activatedIdxs (l1 ++ l2) = activatedIdxs l1 ++ activatedIdxs l2 :=
  List.filterMap_append _ _ _

theorem decisionIdxs_append (l1 l2 : List RQEvent) :
    decisionIdxs (l1 ++ l2) = decisionIdxs l1 ++ decisionIdxs l2 :=
  List.filterMap_append _ _ _

theorem settledIdxs_map_cancel (l : List Nat) :
    settledIdxs (l.map fun i => RQEvent.settled i RQSettle.cancelledErr) = l := by
  induction l with
  | nil => rfl
  | cons x xs ih =>
    simp only [List.map_cons, settledIdxs, List.filterMap_cons] at ih ⊢
    rw [ih]

theorem activatedIdxs_map_cancel (l : List Nat) :
    activatedIdxs (l.map fun i => RQEvent.settled i RQSettle.cancelledErr) = [] := by
  induction l with
  | nil => rfl
  | cons x xs ih =>
    simp only [List.map_cons, activatedIdxs, List.filterMap_cons] at ih ⊢
    rw [ih]

theorem decisionIdxs_map_cancel (l : List Nat) :
    decisionIdxs (l.map fun i => RQEvent.settled i RQSettle.cancelledErr) = [] := by
  induction l with
  | nil => rfl
  | cons x xs ih =>
    simp only [List.map_cons, decisionIdxs, List.filterMap_cons] at ih ⊢
    rw [ih]

theorem sorted_append_one {l : List Nat} {x : Nat}
    (hs : List.Sorted (· < ·) l) (hx : ∀ a ∈ l, a < x) :
    List.Sorted (· < ·) (l ++ [x]) := by
  refine List.pairwise_append.mpr ⟨hs, List.pairwise_singleton _ _, ?_⟩
  intro a ha b hb
  rw [List.mem_singleton] at hb
  subst hb
  exact hx a ha

theorem append_get_right_mem {α : Type} (l1 l2 : List α) (p : Nat)
    (hp : p < (l1 ++ l2).length) (hge : l1.length ≤ p) :
    (l1 ++ l2).get ⟨p, hp⟩ ∈ l2 := by
  have hlen : p < l1.length + l2.length := by
    have h0 := hp
    rwa [List.length_append] at h0
  have he : (l1 ++ l2).get ⟨p, hp⟩ = l2.get ⟨p - l1.length, by omega⟩ := by
    rw [List.get_eq_getElem, List.get_eq_getElem]
    exact List.getElem_append_right hge
  rw [he]
  exact List.get_mem _ _ _

theorem rqDecidedAfterActive_append (log es : List RQEvent)
    (h : rqDecidedAfterActive log)
    (hes : ∀ e ∈ es, ∀ i d, e ≠ RQEvent.settled i (RQSettle.decision d)) :
    rqDecidedAfterActive (log ++ es) := by
  intro p hp i d hget
  have hlen : p < log.length + es.length := by
    have h0 := hp
    rwa [List.length_append] at h0
  by_cases hlt : p < log.length
  · have hg : (log ++ es).get ⟨p, hp⟩ = log.get ⟨p, hlt⟩ :=
      List.get_append p hlt
    rw [hg] at hget
    obtain ⟨q, hq, hqp, hact⟩ := h p hlt i d hget
    refine ⟨q, by rw [List.length_append]; omega, hqp, ?_⟩
    rw [List.get_append q hq]
    exact hact
  · exfalso
    have hmem : (log ++ es).get ⟨p, hp⟩ ∈ es :=
      append_get_right_mem log es p hp (by omega)
    rw [hget] at hmem
    exact hes _ hmem i d rfl

theorem rqDecidedAfterActive_append_decision (log : List RQEvent) (i : Nat)
    (d : ReviewDecision) (h : rqDecidedAfterActive log) (hact : i ∈ activatedIdxs log) :
    rqDecidedAfterActive (log ++ [RQEvent.settled i (RQSettle.decision d)]) := by
  intro p hp j dj hget
  have hlen : p < log.length + 1 := by
    have h0 := hp
    rwa [List.length_append, List.length_singleton] at h0
  by_cases hlt : p < log.length
  · have hg : (log ++ [RQEvent.settled i (RQSettle.decision d)]).get
        ⟨p, hp⟩ = log.get ⟨p, hlt⟩ :=
      List.get_append p hlt
    rw [hg] at hget
    obtain ⟨q, hq, hqp, hactq⟩ := h p hlt j dj hget
    refine ⟨q, by rw [List.length_append]; omega, hqp, ?_⟩
    rw [List.get_append q hq]
    exact hactq
  · have hval : (log ++ [RQEvent.settled i (RQSettle.decision d)]).get
        ⟨p, hp⟩ ∈ [RQEvent.settled i (RQSettle.decision d)] :=
      append_get_right_mem _ _ p hp (by omega)
    rw [List.mem_singleton] at hval
    rw [hval] at hget
    have hij : j = i ∧ dj = d := by
      cases hget
      exact ⟨rfl, rfl⟩
    obtain ⟨e, he, hme⟩ := List.mem_filterMap.mp hact
    have he2 : e = RQEvent.activated i := by
      cases e with
      | activated a => simp at hme; rw [hme]
      | settled a s => simp at hme
    subst he2
    obtain ⟨q, hq⟩ := List.get_of_mem he
    have hq2 := q.2
    refine ⟨q.1, by rw [List.length_append]; omega, by omega, ?_⟩
    rw [List.get_append q.1 q.2]
    rw [hij.1]
    exact (by
      have hfin : log.get ⟨q.1, q.2⟩ = RQEvent.activated i := hq
      exact hfin)

theorem decisionIdxs_subset_settledIdxs {log : List RQEvent} {x : Nat}
    (h : x ∈ decisionIdxs log) : x ∈ settledIdxs log := by
  obtain ⟨e, he, hme⟩ := List.mem_filterMap.mp h
  refine List.mem_filterMap.mpr ⟨e, he, ?_⟩
  cases e with
  | activated a => simp at hme
  | settled a hs =>
    cases hs with
    | decision d =>
      simp only at hme ⊢
      exact hme
    | cancelledErr => simp at hme

theorem sorted_lt_nodup {l : List Nat} (h : List.Sorted (· < ·) l) : l.Nodup :=
  List.Pairwise.imp (fun hab => Nat.ne_of_lt hab) h

theorem rqPromote_inv {s : RQState} (h : RQInv s) : RQInv (rqPromote s) := by
  obtain ⟨h1, h2, h3, h4, h5, h6, h7, h8, h9, h10, h11, h12⟩ := h
  unfold rqPromote
  by_cases hc : s.active.isSome = true ∨ s.cancelled = true
  · rw [if_pos hc]
    exact ⟨h1, h2, h3, h4, h5, h6, h7, h8, h9, h10, h11, h12⟩
  · rw [if_neg hc]
    push_neg at hc
    have hcanc : s.cancelled = false := by
      cases hcv : s.cancelled with
      | false => rfl
      | true => exact absurd hcv hc.2
    cases hpend : s.pending with
    | nil => exact ⟨h1, h2, h3, h4, h5, h6, h7, h8, h9, h10, h11, h12⟩
    | cons n rest =>
      have hn : n ∈ s.pending := by rw [hpend]; exact List.mem_cons_self _ _
      obtain ⟨hn_nact, hn_nset, hn_max⟩ := h8 n hn
      have hsort := h5
      rw [hpend] at hsort
      have hsc := List.sorted_cons.mp hsort
      have hacts : activatedIdxs [RQEvent.activated n] = [n] := rfl
      have hsets : settledIdxs [RQEvent.activated n] = [] := rfl
      have hdecs : decisionIdxs [RQEvent.activated n] = [] := rfl
      refine ⟨?_, ?_, ?_, ?_, ?_, ?_, ?_, ?_, ?_, ?_, ?_, ?_⟩
      · show List.Sorted (· < ·) (activatedIdxs (s.eventLog ++ [RQEvent.activated n]))
        rw [activatedIdxs_append, hacts]
        exact sorted_append_one h1 hn_max
      · show List.Sorted (· < ·) (decisionIdxs (s.eventLog ++ [RQEvent.activated n]))
        rw [decisionIdxs_append, hdecs, List.append_nil]
        exact h2
      · show (settledIdxs (s.eventLog ++ [RQEvent.activated n])).Nodup
        rw [settledIdxs_append, hsets, List.append_nil]
        exact h3
      · exact rqDecidedAfterActive_append _ _ h4 (by
          intro e he i d
          rw [List.mem_singleton] at he
          subst he
          simp)
      · exact hsc.2
      · intro p hp
        exact h6 p (by rw [hpend]; exact List.mem_cons_of_mem _ hp)
      · intro i hi
        have hin : n = i := by
          have hi2 : some n = some i := hi
          injection hi2
        subst hin
        refine ⟨h6 n hn, fun p hp => hsc.1 p hp, ?_, ?_, ?_⟩
        · show n ∈ activatedIdxs (s.eventLog ++ [RQEvent.activated n])
          rw [activatedIdxs_append, hacts]
          exact List.mem_append.mpr (Or.inr (List.mem_singleton.mpr rfl))
        · show n ∉ settledIdxs (s.eventLog ++ [RQEvent.activated n])
          rw [settledIdxs_append, hsets, List.append_nil]
          exact hn_nset
        · intro a ha
          have ha2 : a ∈ activatedIdxs s.eventLog ++ [n] := by
            rw [← hacts, ← activatedIdxs_append]
            exact ha
          rcases List.mem_append.mp ha2 with hold | hnew
          · exact Nat.le_of_lt (hn_max a hold)
          · rw [List.mem_singleton] at hnew
            omega
      · intro p hp
        have hps : p ∈ s.pending := by rw [hpend]; exact List.mem_cons_of_mem _ hp
        obtain ⟨hp_nact, hp_nset, hp_gt⟩ := h8 p hps
        have hnp : n < p := hsc.1 p hp
        refine ⟨?_, ?_, ?_⟩
        · show p ∉ activatedIdxs (s.eventLog ++ [RQEvent.activated n])
          rw [activatedIdxs_append, hacts]
          intro hmem
          rcases List.mem_append.mp hmem with hold | hnew
          · exact hp_nact hold
          · rw [List.mem_singleton] at hnew
            omega
        · show p ∉ settledIdxs (s.eventLog ++ [RQEvent.activated n])
          rw [settledIdxs_append, hsets, List.append_nil]
          exact hp_nset
        · intro a ha
          have ha2 : a ∈ activatedIdxs s.eventLog ++ [n] := by
            rw [← hacts, ← activatedIdxs_append]
            exact ha
          rcases List.mem_append.mp ha2 with hold | hnew
          · exact hp_gt a hold
          · rw [List.mem_singleton] at hnew
            omega
      · intro a ha
        have ha2 : a ∈ activatedIdxs s.eventLog ++ [n] := by
          rw [← hacts, ← activatedIdxs_append]
          exact ha
        rcases List.mem_append.mp ha2 with hold | hnew
        · exact h9 a hold
        · rw [List.mem_singleton] at hnew
          rw [hnew]
          exact h6 n hn
      · intro x hx
        have hx2 : x ∈ settledIdxs s.eventLog := by
          rw [← List.append_nil (settledIdxs s.eventLog), ← hsets, ← settledIdxs_append]
          exact hx
        exact h10 x hx2
      · intro dd hdd
        have hdd2 : dd ∈ decisionIdxs s.eventLog := by
          rw [← List.append_nil (decisionIdxs s.eventLog), ← hdecs, ← decisionIdxs_append]
          exact hdd
        obtain ⟨hd1, _⟩ := h11 dd hdd2
        refine ⟨fun p hp => hd1 p (by rw [hpend]; exact List.mem_cons_of_mem _ hp), ?_⟩
        intro i hi
        have hin : n = i := by
          have hi2 : some n = some i := hi
          injection hi2
        subst hin
        exact hd1 n hn
      · intro hc2
        have hc3 : s.cancelled = true := hc2
        rw [hcanc] at hc3
        cases hc3

theorem rqApplyOp_inv {s : RQState} (op : RQOp) (h : RQInv s) :
    RQInv (rqApplyOp s op) := by
  obtain ⟨pend, act, canc, nid, log⟩ := s
  obtain ⟨g1, g2, g3, g4, g5, g6, g7, g8, g9, g10, g11, g12⟩ := h
  have h1 : List.Sorted (· < ·) (activatedIdxs log) := g1
  have h2 : List.Sorted (· < ·) (decisionIdxs log) := g2
  have h3 : (settledIdxs log).Nodup := g3
  have h4 : rqDecidedAfterActive log := g4
  have h5 : List.Sorted (· < ·) pend := g5
  have h6 : ∀ p ∈ pend, p < nid := g6
  have h7 : ∀ i, act = some i → i < nid ∧ (∀ p ∈ pend, i < p) ∧
      i ∈ activatedIdxs log ∧ i ∉ settledIdxs log ∧
      (∀ a ∈ activatedIdxs log, a ≤ i) := g7
  have h8 : ∀ p ∈ pend, p ∉ activatedIdxs log ∧ p ∉ settledIdxs log ∧
      (∀ a ∈ activatedIdxs log, a < p) := g8
  have h9 : ∀ a ∈ activatedIdxs log, a < nid := g9
  have h10 : ∀ x ∈ settledIdxs log, x < nid := g10
  have h11 : ∀ dd ∈ decisionIdxs log, (∀ p ∈ pend, dd < p) ∧
      (∀ i, act = some i → dd < i) := g11
  have h12 : canc = true → pend = [] ∧ act = none := g12
  clear g1 g2 g3 g4 g5 g6 g7 g8 g9 g10 g11 g12
  cases op with
  | enqueue =>
    cases canc with
    | true =>
      obtain ⟨hpe, hae⟩ := h12 rfl
      have hsets : settledIdxs [RQEvent.settled nid RQSettle.cancelledErr] = [nid] := rfl
      have hacts : activatedIdxs [RQEvent.settled nid RQSettle.cancelledErr] = [] := rfl
      have hdecs : decisionIdxs [RQEvent.settled nid RQSettle.cancelledErr] = [] := rfl
      refine ⟨?_, ?_, ?_, ?_, ?_, ?_, ?_, ?_, ?_, ?_, ?_, ?_⟩
      · show List.Sorted (· < ·)
          (activatedIdxs (log ++ [RQEvent.settled nid RQSettle.cancelledErr]))
        rw [activatedIdxs_append, hacts, List.append_nil]
        exact h1
      · show List.Sorted (· < ·)
          (decisionIdxs (log ++ [RQEvent.settled nid RQSettle.cancelledErr]))
        rw [decisionIdxs_append, hdecs, List.append_nil]
        exact h2
      · show (settledIdxs (log ++ [RQEvent.settled nid RQSettle.cancelledErr])).Nodup
        rw [settledIdxs_append, hsets]
        refine List.Nodup.append h3 (List.nodup_singleton _) ?_
        intro x hx hx2
        rw [List.mem_singleton] at hx2
        subst hx2
        exact Nat.lt_irrefl _ (h10 _ hx)
      · exact rqDecidedAfterActive_append _ _ h4 (by
          intro e he i d
          rw [List.mem_singleton] at he
          subst he
          simp)
      · show List.Sorted (· < ·) pend
        rw [hpe]
        exact List.sorted_nil
      · intro p hp
        have hp2 : p ∈ pend := hp
        rw [hpe] at hp2
        exact absurd hp2 (List.not_mem_nil p)
      · intro i hi
        have hi2 : act = some i := hi
        rw [hae] at hi2
        exact Option.noConfusion hi2
      · intro p hp
        have hp2 : p ∈ pend := hp
        rw [hpe] at hp2
        exact absurd hp2 (List.not_mem_nil p)
      · intro a ha
        have ha2 : a ∈ activatedIdxs log := by
          rw [← List.append_nil (activatedIdxs log), ← hacts, ← activatedIdxs_append]
          exact ha
        show a < nid + 1
        have := h9 a ha2
        omega
      · intro x hx
        have hx2 : x ∈ settledIdxs log ++ [nid] := by
          rw [← hsets, ← settledIdxs_append]
          exact hx
        show x < nid + 1
        rcases List.mem_append.mp hx2 with hold | hnew
        · have := h10 x hold
          omega
        · rw [List.mem_singleton] at hnew
          omega
      · intro dd hdd
        refine ⟨?_, ?_⟩
        · intro p hp
          have hp2 : p ∈ pend := hp
          rw [hpe] at hp2
          exact absurd hp2 (List.not_mem_nil p)
        · intro i hi
          have hi2 : act = some i := hi
          rw [hae] at hi2
          exact Option.noConfusion hi2
      · intro hc2
        exact ⟨hpe, hae⟩
    | false =>
      refine rqPromote_inv ⟨h1, h2, h3, h4, ?_, ?_, ?_, ?_, ?_, ?_, ?_, ?_⟩
      · exact sorted_append_one h5 h6
      · intro p hp
        show p < nid + 1
        rcases List.mem_append.mp hp with hold | hnew
        · have := h6 p hold
          omega
        · have hnw : p = nid := by rw [List.mem_singleton] at hnew; exact hnew
          omega
      · intro i hi
        have hi0 : act = some i := hi
        obtain ⟨hi1, hi2p, hi3, hi4, hi5⟩ := h7 i hi0
        refine ⟨by show i < nid + 1; omega, ?_, hi3, hi4, hi5⟩
        intro p hp
        rcases List.mem_append.mp hp with hold | hnew
        · exact hi2p p hold
        · have hnw : p = nid := by rw [List.mem_singleton] at hnew; exact hnew
          omega
      · intro p hp
        rcases List.mem_append.mp hp with hold | hnew
        · exact h8 p hold
        · rw [List.mem_singleton] at hnew
          subst hnew
          refine ⟨?_, ?_, h9⟩
          · intro hmem
            exact Nat.lt_irrefl _ (h9 _ hmem)
          · intro hmem
            exact Nat.lt_irrefl _ (h10 _ hmem)
      · intro a ha
        show a < nid + 1
        have := h9 a ha
        omega
      · intro x hx
        show x < nid + 1
        have := h10 x hx
        omega
      · intro dd hdd
        obtain ⟨hd1, hd2⟩ := h11 dd hdd
        refine ⟨?_, hd2⟩
        intro p hp
        rcases List.mem_append.mp hp with hold | hnew
        · exact hd1 p hold
        · rw [List.mem_singleton] at hnew
          subst hnew
          exact h10 dd (decisionIdxs_subset_settledIdxs hdd)
      · intro hc2
        exact Bool.noConfusion hc2
  | resolveActive d =>
    cases act with
    | none => exact ⟨h1, h2, h3, h4, h5, h6, h7, h8, h9, h10, h11, h12⟩
    | some i =>
      obtain ⟨hi_lt, hi_p, hi_act, hi_ns, hi_max⟩ := h7 i rfl
      have hacts : activatedIdxs [RQEvent.settled i (RQSettle.decision d)] = [] := rfl
      have hsets : settledIdxs [RQEvent.settled i (RQSettle.decision d)] = [i] := rfl
      have hdecs : decisionIdxs [RQEvent.settled i (RQSettle.decision d)] = [i] := rfl
      refine rqPromote_inv ⟨?_, ?_, ?_, ?_, h5, h6, ?_, ?_, ?_, ?_, ?_, ?_⟩
      · show List.Sorted (· < ·)
          (activatedIdxs (log ++ [RQEvent.settled i (RQSettle.decision d)]))
        rw [activatedIdxs_append, hacts, List.append_nil]
        exact h1
      · show List.Sorted (· < ·)
          (decisionIdxs (log ++ [RQEvent.settled i (RQSettle.decision d)]))
        rw [decisionIdxs_append, hdecs]
        exact sorted_append_one h2 (fun dd hdd => (h11 dd hdd).2 i rfl)
      · show (settledIdxs (log ++ [RQEvent.settled i (RQSettle.decision d)])).Nodup
        rw [settledIdxs_append, hsets]
        refine List.Nodup.append h3 (List.nodup_singleton _) ?_
        intro x hx hx2
        rw [List.mem_singleton] at hx2
        subst hx2
        exact hi_ns hx
      · exact rqDecidedAfterActive_append_decision _ i d h4 hi_act
      · intro j hj
        have hj2 : (none : Option Nat) = some j := hj
        exact Option.noConfusion hj2
      · intro p hp
        obtain ⟨hp1, hp2, hp3⟩ := h8 p hp
        refine ⟨?_, ?_, ?_⟩
        · show p ∉ activatedIdxs (log ++ [RQEvent.settled i (RQSettle.decision d)])
          rw [activatedIdxs_append, hacts, List.append_nil]
          exact hp1
        · show p ∉ settledIdxs (log ++ [RQEvent.settled i (RQSettle.decision d)])
          rw [settledIdxs_append, hsets]
          intro hmem
          rcases List.mem_append.mp hmem with hold | hnew
          · exact hp2 hold
          · rw [List.mem_singleton] at hnew
            have := hi_p p hp
            omega
        · intro a ha
          have ha2 : a ∈ activatedIdxs log := by
            rw [← List.append_nil (activatedIdxs log), ← hacts, ← activatedIdxs_append]
            exact ha
          exact hp3 a ha2
      · intro a ha
        have ha2 : a ∈ activatedIdxs log := by
          rw [← List.append_nil (activatedIdxs log), ← hacts, ← activatedIdxs_append]
          exact ha
        exact h9 a ha2
      · intro x hx
        have hx2 : x ∈ settledIdxs log ++ [i] := by
          rw [← hsets, ← settledIdxs_append]
          exact hx
        rcases List.mem_append.mp hx2 with hold | hnew
        · exact h10 x hold
        · rw [List.mem_singleton] at hnew
          rw [hnew]
          exact hi_lt
      · intro dd hdd
        have hdd2 : dd ∈ decisionIdxs log ++ [i] := by
          rw [← hdecs, ← decisionIdxs_append]
          exact hdd
        refine ⟨?_, ?_⟩
        · intro p hp
          rcases List.mem_append.mp hdd2 with hold | hnew
          · exact (h11 dd hold).1 p hp
          · rw [List.mem_singleton] at hnew
            rw [hnew]
            exact hi_p p hp
        · intro j hj
          have hj2 : (none : Option Nat) = some j := hj
          exact Option.noConfusion hj2
      · intro hc2
        have hc3 : canc = true := hc2
        have hno := (h12 hc3).2
        exact Option.noConfusion hno
  | cancelAll =>
    cases canc with
    | true => exact ⟨h1, h2, h3, h4, h5, h6, h7, h8, h9, h10, h11, h12⟩
    | false =>
      have hmapset : settledIdxs (pend.map fun p => RQEvent.settled p
          RQSettle.cancelledErr) = pend := settledIdxs_map_cancel _
      have hmapact : activatedIdxs (pend.map fun p => RQEvent.settled p
          RQSettle.cancelledErr) = [] := activatedIdxs_map_cancel _
      have hmapdec : decisionIdxs (pend.map fun p => RQEvent.settled p
          RQSettle.cancelledErr) = [] := decisionIdxs_map_cancel _
      have hmapdaa : ∀ e ∈ (pend.map fun p => RQEvent.settled p RQSettle.cancelledErr),
          ∀ i d, e ≠ RQEvent.settled i (RQSettle.decision d) := by
        intro e he i d
        obtain ⟨p, _, hpe2⟩ := List.mem_map.mp he
        rw [← hpe2]
        simp
      cases act with
      | some i =>
        obtain ⟨hi_lt, hi_p, hi_act, hi_ns, hi_max⟩ := h7 i rfl
        have hacts : activatedIdxs [RQEvent.settled i RQSettle.cancelledErr] = [] := rfl
        have hsets : settledIdxs [RQEvent.settled i RQSettle.cancelledErr] = [i] := rfl
        have hdecs : decisionIdxs [RQEvent.settled i RQSettle.cancelledErr] = [] := rfl
        refine ⟨?_, ?_, ?_, ?_, List.sorted_nil, ?_, ?_, ?_, ?_, ?_, ?_, ?_⟩
        · show List.Sorted (· < ·) (activatedIdxs
            ((log ++ [RQEvent.settled i RQSettle.cancelledErr]) ++
              pend.map fun p => RQEvent.settled p RQSettle.cancelledErr))
          rw [activatedIdxs_append, activatedIdxs_append, hacts, hmapact,
            List.append_nil, List.append_nil]
          exact h1
        · show List.Sorted (· < ·) (decisionIdxs
            ((log ++ [RQEvent.settled i RQSettle.cancelledErr]) ++
              pend.map fun p => RQEvent.settled p RQSettle.cancelledErr))
          rw [decisionIdxs_append, decisionIdxs_append, hdecs, hmapdec,
            List.append_nil, List.append_nil]
          exact h2
        · show (settledIdxs
            ((log ++ [RQEvent.settled i RQSettle.cancelledErr]) ++
              pend.map fun p => RQEvent.settled p RQSettle.cancelledErr)).Nodup
          rw [settledIdxs_append, settledIdxs_append, hsets, hmapset]
          have hnd1 : (settledIdxs log ++ [i]).Nodup := by
            refine List.Nodup.append h3 (List.nodup_singleton _) ?_
            intro x hx hx2
            rw [List.mem_singleton] at hx2
            subst hx2
            exact hi_ns hx
          refine List.Nodup.append hnd1 (sorted_lt_nodup h5) ?_
          intro x hx hx2
          rcases List.mem_append.mp hx with hxs | hxi
          · exact (h8 x hx2).2.1 hxs
          · rw [List.mem_singleton] at hxi
            subst hxi
            exact Nat.lt_irrefl _ (hi_p _ hx2)
        · show rqDecidedAfterActive
            ((log ++ [RQEvent.settled i RQSettle.cancelledErr]) ++
              pend.map fun p => RQEvent.settled p RQSettle.cancelledErr)
          refine rqDecidedAfterActive_append _ _
            (rqDecidedAfterActive_append _ _ h4 ?_) hmapdaa
          intro e he j dj
          rw [List.mem_singleton] at he
          subst he
          simp
        · intro p hp
          have hp2 : p ∈ ([] : List Nat) := hp
          exact absurd hp2 (List.not_mem_nil p)
        · intro j hj
          have hj2 : (none : Option Nat) = some j := hj
          exact Option.noConfusion hj2
        · intro p hp
          have hp2 : p ∈ ([] : List Nat) := hp
          exact absurd hp2 (List.not_mem_nil p)
        · intro a ha
          have ha2 : a ∈ activatedIdxs log := by
            rw [← List.append_nil (activatedIdxs log), ← hacts, ← activatedIdxs_append,
              ← List.append_nil
                (activatedIdxs (log ++ [RQEvent.settled i RQSettle.cancelledErr])),
              ← hmapact, ← activatedIdxs_append]
            exact ha
          exact h9 a ha2
        · intro x hx
          have hx2 : x ∈ (settledIdxs log ++ [i]) ++ pend := by
            rw [← hmapset, ← hsets, ← settledIdxs_append, ← settledIdxs_append]
            exact hx
          rcases List.mem_append.mp hx2 with hxl | hxp
          · rcases List.mem_append.mp hxl with hold | hnew
            · exact h10 x hold
            · rw [List.mem_singleton] at hnew
              rw [hnew]
              exact hi_lt
          · exact h6 x hxp
        · intro dd hdd
          refine ⟨?_, ?_⟩
          · intro p hp
            have hp2 : p ∈ ([] : List Nat) := hp
            exact absurd hp2 (List.not_mem_nil p)
          · intro j hj
            have hj2 : (none : Option Nat) = some j := hj
            exact Option.noConfusion hj2
        · intro hc2
          exact ⟨rfl, rfl⟩
      | none =>
        refine ⟨?_, ?_, ?_, ?_, List.sorted_nil, ?_, ?_, ?_, ?_, ?_, ?_, ?_⟩
        · show List.Sorted (· < ·) (activatedIdxs
            (log ++ pend.map fun p => RQEvent.settled p RQSettle.cancelledErr))
          rw [activatedIdxs_append, hmapact, List.append_nil]
          exact h1
        · show List.Sorted (· < ·) (decisionIdxs
            (log ++ pend.map fun p => RQEvent.settled p RQSettle.cancelledErr))
          rw [decisionIdxs_append, hmapdec, List.append_nil]
          exact h2
        · show (settledIdxs
            (log ++ pend.map fun p => RQEvent.settled p RQSettle.cancelledErr)).Nodup
          rw [settledIdxs_append, hmapset]
          refine List.Nodup.append h3 (sorted_lt_nodup h5) ?_
          intro x hx hx2
          exact (h8 x hx2).2.1 hx
        · show rqDecidedAfterActive
            (log ++ pend.map fun p => RQEvent.settled p RQSettle.cancelledErr)
          exact rqDecidedAfterActive_append _ _ h4 hmapdaa
        · intro p hp
          have hp2 : p ∈ ([] : List Nat) := hp
          exact absurd hp2 (List.not_mem_nil p)
        · intro j hj
          have hj2 : (none : Option Nat) = some j := hj
          exact Option.noConfusion hj2
        · intro p hp
          have hp2 : p ∈ ([] : List Nat) := hp
          exact absurd hp2 (List.not_mem_nil p)
        · intro a ha
          have ha2 : a ∈ activatedIdxs log := by
            rw [← List.append_nil (activatedIdxs log), ← hmapact, ← activatedIdxs_append]
            exact ha
          exact h9 a ha2
        · intro x hx
          have hx2 : x ∈ settledIdxs log ++ pend := by
            rw [← hmapset, ← settledIdxs_append]
            exact hx
          rcases List.mem_append.mp hx2 with hold | hnew
          · exact h10 x hold
          · exact h6 x hnew
        · intro dd hdd
          refine ⟨?_, ?_⟩
          · intro p hp
            have hp2 : p ∈ ([] : List Nat) := hp
            exact absurd hp2 (List.not_mem_nil p)
          · intro j hj
            have hj2 : (none : Option Nat) = some j := hj
            exact Option.noConfusion hj2
        · intro hc2
          exact ⟨rfl, rfl⟩

theorem rqInit_inv :
    RQInv { pending := [], active := none, cancelled := false, nextIdx := 0,
            eventLog := [] } := by
  refine ⟨?_, ?_, ?_, ?_, ?_, ?_, ?_, ?_, ?_, ?_, ?_, ?_⟩
  · exact List.sorted_nil
  · exact List.sorted_nil
  · exact List.nodup_nil
  · intro p hp i d hget
    exact absurd hp (by simp)
  · exact List.sorted_nil
  · intro p hp
    exact absurd hp (List.not_mem_nil p)
  · intro i hi
    exact Option.noConfusion hi
  · intro p hp
    exact absurd hp (List.not_mem_nil p)
  · intro a ha
    exact absurd ha (List.not_mem_nil a)
  · intro x hx
    exact absurd hx (List.not_mem_nil x)
  · intro dd hdd
    exact absurd hdd (List.not_mem_nil dd)
  · intro hc2
    exact Bool.noConfusion hc2

theorem rqFoldl_inv (ops : List RQOp) (s : RQState) (h : RQInv s) :
    RQInv (ops.foldl rqApplyOp s) := by
  induction ops generalizing s with
  | nil => exact h
  | cons op rest ih => exact ih _ (rqApplyOp_inv op h)

theorem rqRun_inv (ops : List RQOp) : RQInv (rqRun ops) :=
  rqFoldl_inv ops _ rqInit_inv

/-- C8: in the review queue, under any sequence of enqueue / resolveActive /
cancelAll operations, items become active in FIFO enqueue order (activation
indices strictly increase along the event log), decisions resolve in FIFO
enqueue order (decision indices strictly increase), every item settles at most
once (settle indices are duplicate-free) and only enqueued items settle, and no
item receives a decision before it has become active.  At most one item is
active at a time by construction (the active slot is a single `Option`). -/
theorem c8_review_queue_fifo (ops : List RQOp) :
    List.Sorted (· < ·) (activatedIdxs (rqRun ops).eventLog) ∧
    List.Sorted (· < ·) (decisionIdxs (rqRun ops).eventLog) ∧
    (settledIdxs (rqRun ops).eventLog).Nodup ∧
    rqDecidedAfterActive (rqRun ops).eventLog ∧
    (∀ x ∈ settledIdxs (rqRun ops).eventLog, x < (rqRun ops).nextIdx) := by
  obtain ⟨h1, h2, h3, h4, _, _, _, _, _, h10, _, _⟩ := rqRun_inv ops
  exact ⟨h1, h2, h3, h4, h10⟩

/-! ## Claim C7: final catch-up parent job -/

theorem addLeafKey_ne_nil (l : List TileCoord) (c : TileCoord) : addLeafKey l c ≠ [] := by
  unfold addLeafKey
  split
  · rename_i hmem
    intro hl
    rw [hl] at hmem
    exact List.not_mem_nil c hmem
  · intro hl
    exact absurd hl (by simp)

theorem foldl_addLeafKey_ne_nil (ls : List TileCoord) :
    ∀ l : List TileCoord, l ≠ [] → ls.foldl addLeafKey l ≠ [] := by
  induction ls with
  | nil => intro l h; exact h
  | cons c rest ih =>
    intro l h
    rw [List.foldl_cons]
    exact ih _ (addLeafKey_ne_nil l c)

theorem foldl_addLeafKey_ne_nil_left (ls : List TileCoord) (l : List TileCoord)
    (h : ls ≠ []) : ls.foldl addLeafKey l ≠ [] := by
  cases ls with
  | nil => exact absurd rfl h
  | cons c rest =>
    rw [List.foldl_cons]
    exact foldl_addLeafKey_ne_nil rest _ (addLeafKey_ne_nil l c)

theorem dedupe_go_ne_nil (l : List TileCoord) :
    ∀ acc : List TileCoord, acc ≠ [] → dedupeTileCoords.go l acc ≠ [] := by
  induction l with
  | nil =>
    intro acc hacc
    show acc.reverse ≠ []
    intro h
    exact hacc (by simpa using h)
  | cons c rest ih =>
    intro acc hacc
    show (if c ∈ acc then dedupeTileCoords.go rest acc
      else dedupeTileCoords.go rest (c :: acc)) ≠ []
    split
    · exact ih acc hacc
    · exact ih (c :: acc) (by simp)

theorem dedupeTileCoords_ne_nil {l : List TileCoord} (h : l ≠ []) :
    dedupeTileCoords l ≠ [] := by
  cases l with
  | nil => exact absurd rfl h
  | cons c rest =>
    show (if c ∈ ([] : List TileCoord) then dedupeTileCoords.go rest []
      else dedupeTileCoords.go rest [c]) ≠ []
    rw [if_neg (List.not_mem_nil c)]
    exact dedupe_go_ne_nil rest [c] (by simp)

theorem catchupCount_congr {s1 s2 : ParentAggState}
    (h : s1.parentJobs = s2.parentJobs) : catchupCount s1 = catchupCount s2 := by
  unfold catchupCount
  rw [h]

theorem mapIdx_mem_of_ite (f : ParentRefreshJob → ParentRefreshJob) :
    ∀ (jobs : List ParentRefreshJob) (g : Nat → ParentRefreshJob → ParentRefreshJob),
      (∀ j a, g j a = a ∨ g j a = f a) →
      ∀ x ∈ jobs.mapIdx g, x ∈ jobs ∨ ∃ y ∈ jobs, x = f y := by
  intro jobs
  induction jobs with
  | nil =>
    intro g hg x hx
    rw [List.mapIdx_nil] at hx
    exact absurd hx (List.not_mem_nil x)
  | cons a l ih =>
    intro g hg x hx
    rw [List.mapIdx_cons] at hx
    rcases List.mem_cons.mp hx with hx0 | hxl
    · rcases hg 0 a with h | h
      · left
        rw [hx0, h]
        exact List.mem_cons_self _ _
      · right
        exact ⟨a, List.mem_cons_self _ _, by rw [hx0, h]⟩
    · rcases ih (fun i x => g (i + 1) x) (fun j a => hg (j + 1) a) x hxl with h | ⟨y, hy, hxy⟩
      · left
        exact List.mem_cons_of_mem _ h
      · right
        exact ⟨y, List.mem_cons_of_mem _ hy, hxy⟩

theorem updateJobAt_mem (jobs : List ParentRefreshJob) (i : Nat)
    (f : ParentRefreshJob → ParentRefreshJob) (x : ParentRefreshJob)
    (hx : x ∈ updateJobAt jobs i f) : x ∈ jobs ∨ ∃ y ∈ jobs, x = f y :=
  mapIdx_mem_of_ite f jobs _ (fun j a => by
    by_cases hj : j = i
    · right
      rw [if_pos hj]
    · left
      rw [if_neg hj]) x hx

theorem countP_mapIdx (p : ParentRefreshJob → Bool) :
    ∀ (jobs : List ParentRefreshJob) (g : Nat → ParentRefreshJob → ParentRefreshJob),
      (∀ j a, p (g j a) = p a) →
      (jobs.mapIdx g).countP p = jobs.countP p := by
  intro jobs
  induction jobs with
  | nil => intro g hg; rfl
  | cons a l ih =>
    intro g hg
    rw [List.mapIdx_cons, List.countP_cons, List.countP_cons, hg 0 a,
      ih (fun i x => g (i + 1) x) (fun j a => hg (j + 1) a)]

theorem countP_updateJobAt (jobs : List ParentRefreshJob) (i : Nat)
    (f : ParentRefreshJob → ParentRefreshJob) (p : ParentRefreshJob → Bool)
    (hf : ∀ a, p (f a) = p a) :
    (updateJobAt jobs i f).countP p = jobs.countP p :=
  countP_mapIdx p jobs _ (fun j a => by
    by_cases hj : j = i
    · rw [if_pos hj]
      exact hf a
    · rw [if_neg hj])

theorem markDirtyParentLeaves_spec (cfg : ParentCfg) (w : Nat) (ls : List TileCoord)
    (s : ParentAggState) :
    markDirtyParentLeaves cfg w ls s = s ∨
    (dedupeTileCoords ls ≠ [] ∧
     (markDirtyParentLeaves cfg w ls s).parentJobs = s.parentJobs ∧
     (markDirtyParentLeaves cfg w ls s).generationFinished = s.generationFinished ∧
     (markDirtyParentLeaves cfg w ls s).finalCatchupEnqueued = s.finalCatchupEnqueued ∧
     (markDirtyParentLeaves cfg w ls s).touchedAll =
       (dedupeTileCoords ls).foldl addLeafKey s.touchedAll ∧
     (markDirtyParentLeaves cfg w ls s).allTouchedParentLeaves =
       (dedupeTileCoords ls).foldl addLeafKey s.allTouchedParentLeaves ∧
     (markDirtyParentLeaves cfg w ls s).everTouched = true) := by
  unfold markDirtyParentLeaves
  split
  · exact Or.inl rfl
  · dsimp only
    split
    · exact Or.inl rfl
    · rename_i h1 h2
      have hne : dedupeTileCoords ls ≠ [] := by
        intro hc
        rw [hc] at h2
        exact h2 rfl
      repeat' split
      all_goals exact Or.inr ⟨hne, rfl, rfl, rfl, rfl, rfl, rfl⟩

theorem flushDirtyParentsToJob_spec (cfg : ParentCfg) (s : ParentAggState) :
    flushDirtyParentsToJob cfg s = s ∨
    ((flushDirtyParentsToJob cfg s).touchedAll = s.touchedAll ∧
     (flushDirtyParentsToJob cfg s).allTouchedParentLeaves = s.allTouchedParentLeaves ∧
     (flushDirtyParentsToJob cfg s).generationFinished = s.generationFinished ∧
     (flushDirtyParentsToJob cfg s).finalCatchupEnqueued = s.finalCatchupEnqueued ∧
     (flushDirtyParentsToJob cfg s).everTouched = s.everTouched ∧
     ((flushDirtyParentsToJob cfg s).parentJobs = s.parentJobs ∨
      ∃ j : ParentRefreshJob, j.isFinal = false ∧
        (flushDirtyParentsToJob cfg s).parentJobs = s.parentJobs ++ [j])) := by
  unfold flushDirtyParentsToJob
  split
  · exact Or.inl rfl
  · dsimp only
    split
    · exact Or.inr ⟨rfl, rfl, rfl, rfl, rfl, Or.inl rfl⟩
    · exact Or.inr ⟨rfl, rfl, rfl, rfl, rfl, Or.inr ⟨_, rfl, rfl⟩⟩

theorem enqueueFinalCatchupJob_spec (cfg : ParentCfg) (s : ParentAggState) :
    enqueueFinalCatchupJob cfg s = s ∨
    (s.generationFinished = true ∧ s.finalCatchupEnqueued = false ∧
     hasRunningOrQueued s = false ∧
     (enqueueFinalCatchupJob cfg s).generationFinished = true ∧
     (enqueueFinalCatchupJob cfg s).finalCatchupEnqueued = true ∧
     (enqueueFinalCatchupJob cfg s).everTouched = s.everTouched ∧
     (enqueueFinalCatchupJob cfg s).touchedAll = s.touchedAll ∧
     ((dedupeTileCoords s.allTouchedParentLeaves = [] ∧
       (enqueueFinalCatchupJob cfg s).parentJobs = s.parentJobs) ∨
      (dedupeTileCoords s.allTouchedParentLeaves ≠ [] ∧
       (enqueueFinalCatchupJob cfg s).parentJobs = s.parentJobs ++
         [{ isFinal := true, waveIndex := s.currentWave, childZ := cfg.z,
            leafTiles := dedupeTileCoords s.allTouchedParentLeaves,
            maxLevels := cfg.z, status := ParentRefreshJobStatus.QUEUED,
            attempts := 0, enqueuedAt := s.now }]))) := by
  unfold enqueueFinalCatchupJob
  split
  · exact Or.inl rfl
  · split
    · exact Or.inl rfl
    · split
      · exact Or.inl rfl
      · rename_i hg hf hr
        have hg2 : s.generationFinished = true := by
          cases hgen : s.generationFinished
          · rw [hgen] at hg
            exact absurd rfl hg
          · rfl
        have hf2 : s.finalCatchupEnqueued = false := by
          cases hfe : s.finalCatchupEnqueued
          · rfl
          · rw [hfe] at hf
            exact absurd rfl hf
        have hr2 : hasRunningOrQueued s = false := by
          cases hrq : hasRunningOrQueued s
          · rfl
          · rw [hrq] at hr
            exact absurd rfl hr
        dsimp only
        split
        · rename_i hde
          refine Or.inr ⟨hg2, hf2, hr2, hg2, rfl, rfl, rfl, Or.inl ⟨?_, rfl⟩⟩
          cases hcase : dedupeTileCoords s.allTouchedParentLeaves with
          | nil => rfl
          | cons a l =>
            rw [hcase] at hde
            exact absurd hde (by simp)
        · rename_i hde
          refine Or.inr ⟨hg2, hf2, hr2, hg2, rfl, rfl, rfl, Or.inr ⟨?_, rfl⟩⟩
          intro hc
          rw [hc] at hde
          exact hde rfl

theorem cInv_updateJob {cfg : ParentCfg} {s : ParentAggState}
    (hinv : CInv cfg s) (i : Nat) (f : ParentRefreshJob → ParentRefreshJob)
    (hfin : ∀ a, (f a).isFinal = a.isFinal)
    (hcz : ∀ a, (f a).childZ = a.childZ)
    (hml : ∀ a, (f a).maxLevels = a.maxLevels)
    (hlt : ∀ a, (f a).leafTiles = a.leafTiles) (n : Nat) :
    CInv cfg { s with parentJobs := updateJobAt s.parentJobs i f, now := n } := by
  obtain ⟨i1, i2, i3, i4, i5, i6, i7⟩ := hinv
  have hcount : (updateJobAt s.parentJobs i f).countP (fun j => j.isFinal) =
      s.parentJobs.countP (fun j => j.isFinal) :=
    countP_updateJobAt _ i f _ hfin
  refine ⟨?_, ?_, ?_, ?_, i5, i6, ?_⟩
  · intro hz
    obtain ⟨f1, f2⟩ := i1 hz
    refine ⟨f1, ?_⟩
    show (updateJobAt s.parentJobs i f).countP (fun j => j.isFinal) = 0
    rw [hcount]
    exact f2
  · intro hflag2
    obtain ⟨f1, f2⟩ := i2 hflag2
    refine ⟨?_, f2⟩
    show (updateJobAt s.parentJobs i f).countP (fun j => j.isFinal) = 0
    rw [hcount]
    exact f1
  · show (updateJobAt s.parentJobs i f).countP (fun j => j.isFinal) ≤ 1
    rw [hcount]
    exact i3
  · intro job hj hf
    rcases updateJobAt_mem s.parentJobs i f job hj with hold | ⟨y, hy, hxy⟩
    · exact i4 job hold hf
    · have hyfin : y.isFinal = true := by
        rw [← hfin y, ← hxy]
        exact hf
      obtain ⟨a1, a2, a3, a4⟩ := i4 y hy hyfin
      subst hxy
      exact ⟨by rw [hcz y]; exact a1, by rw [hml y]; exact a2,
        by rw [hlt y]; exact a3, a4⟩
  · intro hc hf2 he2
    show (updateJobAt s.parentJobs i f).countP (fun j => j.isFinal) = 1
    rw [hcount]
    exact i7 hc hf2 he2

theorem cInv_step {cfg : ParentCfg} {s s2 : ParentAggState}
    (hinv : CInv cfg s) (hstep : ParentStep cfg s s2) : CInv cfg s2 := by
  obtain ⟨i1, i2, i3, i4, i5, i6, i7⟩ := hinv
  cases hstep with
  | markDirty w ls s hgen =>
    rcases markDirtyParentLeaves_spec cfg w ls s with
      heq | ⟨hne, hjobs, hgen2, hflag, htall, hallt, hevt⟩
    · rw [heq]
      exact ⟨i1, i2, i3, i4, i5, i6, i7⟩
    · have hcount : catchupCount (markDirtyParentLeaves cfg w ls s) = catchupCount s :=
        catchupCount_congr hjobs
      refine ⟨?_, ?_, ?_, ?_, ?_, ?_, ?_⟩
      · intro hz
        obtain ⟨f1, f2⟩ := i1 hz
        exact ⟨by rw [hflag]; exact f1, by rw [hcount]; exact f2⟩
      · intro hflag2
        rw [hflag] at hflag2
        obtain ⟨f1, f2⟩ := i2 hflag2
        refine ⟨by rw [hcount]; exact f1, ?_⟩
        rw [htall, hallt, f2]
      · rw [hcount]
        exact i3
      · intro job hj hfin
        rw [hjobs] at hj
        have hgenTrue := (i4 job hj hfin).2.2.2
        rw [hgen] at hgenTrue
        exact Bool.noConfusion hgenTrue
      · intro _
        rw [htall]
        exact foldl_addLeafKey_ne_nil_left _ _ hne
      · intro hcz hflag2
        rw [hflag] at hflag2
        rw [hgen2]
        exact i6 hcz hflag2
      · intro hcz hflag2 _
        have hgt := i6 hcz (by rw [← hflag]; exact hflag2)
        rw [hgen] at hgt
        exact Bool.noConfusion hgt
  | setWave w s hgen =>
    exact ⟨i1, i2, i3, i4, i5, i6, i7⟩
  | finishGeneration s =>
    refine ⟨i1, i2, i3, ?_, i5, ?_, i7⟩
    · intro job hj hfin
      have h4 := i4 job hj hfin
      exact ⟨h4.1, h4.2.1, h4.2.2.1, rfl⟩
    · intro _ _
      rfl
  | flush s =>
    rcases flushDirtyParentsToJob_spec cfg s with
      heq | ⟨htall, hallt, hgen2, hflag, hevt, hjobs⟩
    · rw [heq]
      exact ⟨i1, i2, i3, i4, i5, i6, i7⟩
    · have hcount : catchupCount (flushDirtyParentsToJob cfg s) = catchupCount s := by
        rcases hjobs with hsame | ⟨j, hjf, happ⟩
        · exact catchupCount_congr hsame
        · unfold catchupCount
          rw [happ, List.countP_append]
          simp [List.countP_cons, hjf]
      refine ⟨?_, ?_, ?_, ?_, ?_, ?_, ?_⟩
      · intro hz
        obtain ⟨f1, f2⟩ := i1 hz
        exact ⟨by rw [hflag]; exact f1, by rw [hcount]; exact f2⟩
      · intro hflag2
        rw [hflag] at hflag2
        obtain ⟨f1, f2⟩ := i2 hflag2
        refine ⟨by rw [hcount]; exact f1, ?_⟩
        rw [htall, hallt, f2]
      · rw [hcount]
        exact i3
      · intro job hj hfin
        rcases hjobs with hsame | ⟨j, hjf, happ⟩
        · rw [hsame] at hj
          obtain ⟨a1, a2, a3, a4⟩ := i4 job hj hfin
          exact ⟨a1, a2, by rw [htall]; exact a3, by rw [hgen2]; exact a4⟩
        · rw [happ] at hj
          rcases List.mem_append.mp hj with hold | hnewj
          · obtain ⟨a1, a2, a3, a4⟩ := i4 job hold hfin
            exact ⟨a1, a2, by rw [htall]; exact a3, by rw [hgen2]; exact a4⟩
          · rw [List.mem_singleton] at hnewj
            rw [hnewj] at hfin
            rw [hjf] at hfin
            exact Bool.noConfusion hfin
      · intro hevt2
        rw [hevt] at hevt2
        rw [htall]
        exact i5 hevt2
      · intro hcz hflag2
        rw [hflag] at hflag2
        rw [hgen2]
        exact i6 hcz hflag2
      · intro hcz hflag2 hevt2
        rw [hflag] at hflag2
        rw [hevt] at hevt2
        rw [hcount]
        exact i7 hcz hflag2 hevt2
  | catchup s =>
    rcases enqueueFinalCatchupJob_spec cfg s with
      heq | ⟨hsg, hsf, hsr, hgen2, hflag, hevt, htall, hjobs⟩
    · rw [heq]
      exact ⟨i1, i2, i3, i4, i5, i6, i7⟩
    · obtain ⟨c0, ceq⟩ := i2 hsf
      have c0' : s.parentJobs.countP (fun j => j.isFinal) = 0 := c0
      refine ⟨?_, ?_, ?_, ?_, ?_, ?_, ?_⟩
      · intro hz
        obtain ⟨f1, _⟩ := i1 hz
        rw [f1] at hsf
        exact Bool.noConfusion hsf
      · intro hflag2
        rw [hflag] at hflag2
        exact Bool.noConfusion hflag2
      · rcases hjobs with ⟨_, hsame⟩ | ⟨hne, happ⟩
        · rw [catchupCount_congr hsame, c0]
          exact Nat.zero_le 1
        · show (enqueueFinalCatchupJob cfg s).parentJobs.countP (fun j => j.isFinal) ≤ 1
          rw [happ, List.countP_append, c0']
          simp [List.countP_cons]
      · intro job hj hfin
        rcases hjobs with ⟨_, hsame⟩ | ⟨hne, happ⟩
        · rw [hsame] at hj
          exact absurd hfin ((List.countP_eq_zero.mp c0') job hj)
        · rw [happ] at hj
          rcases List.mem_append.mp hj with hold | hnewj
          · exact absurd hfin ((List.countP_eq_zero.mp c0') job hold)
          · rw [List.mem_singleton] at hnewj
            rw [hnewj]
            refine ⟨rfl, rfl, ?_, hgen2⟩
            show dedupeTileCoords s.allTouchedParentLeaves =
              dedupeTileCoords (enqueueFinalCatchupJob cfg s).touchedAll
            rw [htall, ceq]
      · intro hevt2
        rw [hevt] at hevt2
        rw [htall]
        exact i5 hevt2
      · intro _ _
        exact hgen2
      · intro hcz hflag2 hevt2
        rw [hevt] at hevt2
        have htne : s.touchedAll ≠ [] := i5 hevt2
        have hane : s.allTouchedParentLeaves ≠ [] := by
          rw [ceq]
          exact htne
        rcases hjobs with ⟨hde, _⟩ | ⟨hne, happ⟩
        · exact absurd hde (dedupeTileCoords_ne_nil hane)
        · show (enqueueFinalCatchupJob cfg s).parentJobs.countP (fun j => j.isFinal) = 1
          rw [happ, List.countP_append, c0']
          simp [List.countP_cons]
  | jobStart i s hq =>
    exact cInv_updateJob ⟨i1, i2, i3, i4, i5, i6, i7⟩ i
      (fun job => { job with status := .RUNNING, attempts := job.attempts + 1 })
      (fun a => rfl) (fun a => rfl) (fun a => rfl) (fun a => rfl) _
  | jobSuccess i s hr =>
    exact cInv_updateJob ⟨i1, i2, i3, i4, i5, i6, i7⟩ i
      (fun job => { job with status := .SUCCESS })
      (fun a => rfl) (fun a => rfl) (fun a => rfl) (fun a => rfl) _
  | jobRequeue i s hr =>
    exact cInv_updateJob ⟨i1, i2, i3, i4, i5, i6, i7⟩ i
      (fun job => { job with status := .QUEUED })
      (fun a => rfl) (fun a => rfl) (fun a => rfl) (fun a => rfl) _
  | jobFail i s hr =>
    exact cInv_updateJob ⟨i1, i2, i3, i4, i5, i6, i7⟩ i
      (fun job => { job with status := .FAILED })
      (fun a => rfl) (fun a => rfl) (fun a => rfl) (fun a => rfl) _
  | advanceClock k s =>
    exact ⟨i1, i2, i3, i4, i5, i6, i7⟩

theorem cInv_init (cfg : ParentCfg) (now0 : Nat) :
    CInv cfg (initParentAggState cfg now0) := by
  refine ⟨?_, ?_, ?_, ?_, ?_, ?_, ?_⟩
  · intro hz
    refine ⟨?_, rfl⟩
    show decide (cfg.parentCascadeDepth ≥ cfg.z) = true
    exact decide_eq_true hz
  · intro _
    exact ⟨rfl, rfl⟩
  · exact Nat.zero_le 1
  · intro job hj
    exact absurd hj (List.not_mem_nil job)
  · intro he
    exact Bool.noConfusion he
  · intro hcz hfl
    have hzz : cfg.parentCascadeDepth ≥ cfg.z := of_decide_eq_true hfl
    omega
  · intro hcz hfl _
    have hzz : cfg.parentCascadeDepth ≥ cfg.z := of_decide_eq_true hfl
    omega

theorem cInv_reachable {cfg : ParentCfg} {now0 : Nat} {s : ParentAggState}
    (h : ParentReachable cfg now0 s) : CInv cfg s := by
  have h2 : Relation.ReflTransGen (ParentStep cfg) (initParentAggState cfg now0) s := h
  clear h
  induction h2 with
  | refl => exact cInv_init cfg now0
  | tail hab hbc ih => exact cInv_step ih hbc

theorem catchupCount_increase_guard {cfg : ParentCfg} {s s2 : ParentAggState}
    (hstep : ParentStep cfg s s2) (hinc : catchupCount s < catchupCount s2) :
    s.generationFinished = true ∧ hasRunningOrQueued s = false ∧
      s.finalCatchupEnqueued = false := by
  cases hstep with
  | markDirty w ls s hgen =>
    rcases markDirtyParentLeaves_spec cfg w ls s with heq | ⟨_, hjobs, _⟩
    · rw [heq] at hinc
      exact absurd hinc (Nat.lt_irrefl _)
    · rw [catchupCount_congr hjobs] at hinc
      exact absurd hinc (Nat.lt_irrefl _)
  | setWave w s hgen =>
    exact absurd hinc (Nat.lt_irrefl _)
  | finishGeneration s =>
    exact absurd hinc (Nat.lt_irrefl _)
  | flush s =>
    rcases flushDirtyParentsToJob_spec cfg s with heq | ⟨_, _, _, _, _, hjobs⟩
    · rw [heq] at hinc
      exact absurd hinc (Nat.lt_irrefl _)
    · rcases hjobs with hsame | ⟨j, hjf, happ⟩
      · rw [catchupCount_congr hsame] at hinc
        exact absurd hinc (Nat.lt_irrefl _)
      · have hc : catchupCount (flushDirtyParentsToJob cfg s) = catchupCount s := by
          unfold catchupCount
          rw [happ, List.countP_append]
          simp [List.countP_cons, hjf]
        rw [hc] at hinc
        exact absurd hinc (Nat.lt_irrefl _)
  | catchup s =>
    rcases enqueueFinalCatchupJob_spec cfg s with heq | ⟨hsg, hsf, hsr, _⟩
    · rw [heq] at hinc
      exact absurd hinc (Nat.lt_irrefl _)
    · exact ⟨hsg, hsr, hsf⟩
  | jobStart i s hq =>
    have hc : catchupCount { s with
        parentJobs := updateJobAt s.parentJobs i
          (fun job => { job with status := .RUNNING, attempts := job.attempts + 1 }),
        now := s.now + 1 } = catchupCount s :=
      countP_updateJobAt s.parentJobs i _ _ (fun a => rfl)
    rw [hc] at hinc
    exact absurd hinc (Nat.lt_irrefl _)
  | jobSuccess i s hr =>
    have hc : catchupCount { s with
        parentJobs := updateJobAt s.parentJobs i
          (fun job => { job with status := .SUCCESS }),
        now := s.now + 1 } = catchupCount s :=
      countP_updateJobAt s.parentJobs i _ _ (fun a => rfl)
    rw [hc] at hinc
    exact absurd hinc (Nat.lt_irrefl _)
  | jobRequeue i s hr =>
    have hc : catchupCount { s with
        parentJobs := updateJobAt s.parentJobs i
          (fun job => { job with status := .QUEUED }),
        now := s.now + 1 } = catchupCount s :=
      countP_updateJobAt s.parentJobs i _ _ (fun a => rfl)
    rw [hc] at hinc
    exact absurd hinc (Nat.lt_irrefl _)
  | jobFail i s hr =>
    have hc : catchupCount { s with
        parentJobs := updateJobAt s.parentJobs i
          (fun job => { job with status := .FAILED }),
        now := s.now + 1 } = catchupCount s :=
      countP_updateJobAt s.parentJobs i _ _ (fun a => rfl)
    rw [hc] at hinc
    exact absurd hinc (Nat.lt_irrefl _)
  | advanceClock k s =>
    exact absurd hinc (Nat.lt_irrefl _)

/-- C7: in every reachable parent-side state, no final catch-up job exists
when `parentCascadeDepth ≥ z`; at most one final catch-up job ever exists;
every final catch-up job is over the cumulative touched-leaf set with
`childZ = z` and `maxLevels = z`; when `parentCascadeDepth < z`, a run that
touched at least one leaf and reaches the worker-loop exit condition holds
exactly one final catch-up job; and any step that adds a final catch-up job
fires only when generation has finished, no parent job is QUEUED or RUNNING,
and the catch-up was not already enqueued. -/
theorem c7_final_catchup (cfg : ParentCfg) (now0 : Nat) (s : ParentAggState)
    (hreach : ParentReachable cfg now0 s) :
    (cfg.parentCascadeDepth ≥ cfg.z → catchupCount s = 0) ∧
    catchupCount s ≤ 1 ∧
    (∀ job ∈ s.parentJobs, job.isFinal = true →
      job.childZ = cfg.z ∧ job.maxLevels = cfg.z ∧
      job.leafTiles = dedupeTileCoords s.touchedAll) ∧
    (cfg.parentCascadeDepth < cfg.z → s.everTouched = true →
      workerExitCondition s = true → catchupCount s = 1) ∧
    (∀ s2, ParentStep cfg s s2 → catchupCount s < catchupCount s2 →
      s.generationFinished = true ∧ hasRunningOrQueued s = false ∧
        s.finalCatchupEnqueued = false) := by
  obtain ⟨i1, i2, i3, i4, i5, i6, i7⟩ := cInv_reachable hreach
  refine ⟨fun hz => (i1 hz).2, i3, ?_, ?_,
    fun s2 hstep hinc => catchupCount_increase_guard hstep hinc⟩
  · intro job hj hf
    obtain ⟨a1, a2, a3, _⟩ := i4 job hj hf
    exact ⟨a1, a2, a3⟩
  · intro hcz hevt hexit
    have hflag : s.finalCatchupEnqueued = true := by
      unfold workerExitCondition at hexit
      simp only [Bool.and_eq_true] at hexit
      exact hexit.2
    exact i7 hcz hflag hevt

theorem c7_final_catchup_witness :
    ParentReachable ⟨4, 1, 0, 0, 0, 0⟩ 0 (initParentAggState ⟨4, 1, 0, 0, 0, 0⟩ 0) ∧
    (((⟨4, 1, 0, 0, 0, 0⟩ : ParentCfg).parentCascadeDepth ≥
        (⟨4, 1, 0, 0, 0, 0⟩ : ParentCfg).z →
      catchupCount (initParentAggState ⟨4, 1, 0, 0, 0, 0⟩ 0) = 0) ∧
     catchupCount (initParentAggState ⟨4, 1, 0, 0, 0, 0⟩ 0) ≤ 1 ∧
     (∀ job ∈ (initParentAggState (⟨4, 1, 0, 0, 0, 0⟩ : ParentCfg) 0).parentJobs,
        job.isFinal = true →
        job.childZ = (⟨4, 1, 0, 0, 0, 0⟩ : ParentCfg).z ∧
        job.maxLevels = (⟨4, 1, 0, 0, 0, 0⟩ : ParentCfg).z ∧
        job.leafTiles =
          dedupeTileCoords (initParentAggState ⟨4, 1, 0, 0, 0, 0⟩ 0).touchedAll) ∧
     ((⟨4, 1, 0, 0, 0, 0⟩ : ParentCfg).parentCascadeDepth <
        (⟨4, 1, 0, 0, 0, 0⟩ : ParentCfg).z →
      (initParentAggState (⟨4, 1, 0, 0, 0, 0⟩ : ParentCfg) 0).everTouched = true →
      workerExitCondition (initParentAggState ⟨4, 1, 0, 0, 0, 0⟩ 0) = true →
      catchupCount (initParentAggState ⟨4, 1, 0, 0, 0, 0⟩ 0) = 1) ∧
     (∀ s2, ParentStep ⟨4, 1, 0, 0, 0, 0⟩ (initParentAggState ⟨4, 1, 0, 0, 0, 0⟩ 0) s2 →
        catchupCount (initParentAggState ⟨4, 1, 0, 0, 0, 0⟩ 0) < catchupCount s2 →
        (initParentAggState (⟨4, 1, 0, 0, 0, 0⟩ : ParentCfg) 0).generationFinished = true ∧
        hasRunningOrQueued (initParentAggState ⟨4, 1, 0, 0, 0, 0⟩ 0) = false ∧
        (initParentAggState (⟨4, 1, 0, 0, 0, 0⟩ : ParentCfg) 0).finalCatchupEnqueued =
          false)) :=
  ⟨Relation.ReflTransGen.refl,
   c7_final_catchup ⟨4, 1, 0, 0, 0, 0⟩ 0 _ Relation.ReflTransGen.refl⟩

/-! ## Claims C1 and C5: wave scheduling invariants -/

theorem anchorsOverlap3x3_comm (a b : AnchorTask) :
    anchorsOverlap3x3 a b = anchorsOverlap3x3 b a := by
  unfold anchorsOverlap3x3
  rw [abs_sub_comm a.x b.x, abs_sub_comm a.y b.y]

theorem anchorsOverlap3x3_coords {a1 b1 a2 b2 : AnchorTask}
    (hx1 : a1.x = b1.x) (hy1 : a1.y = b1.y) (hx2 : a2.x = b2.x) (hy2 : a2.y = b2.y) :
    anchorsOverlap3x3 a1 a2 = anchorsOverlap3x3 b1 b2 := by
  unfold anchorsOverlap3x3
  rw [hx1, hy1, hx2, hy2]

theorem anchorsOverlap3x3_eq_false_iff (a b : AnchorTask) :
    anchorsOverlap3x3 a b = false ↔ |a.x - b.x| > 2 ∨ |a.y - b.y| > 2 := by
  unfold anchorsOverlap3x3
  simp only [Bool.and_eq_false_iff, decide_eq_false_iff_not]
  omega

theorem coordOf_updateAnchor (anchors : List AnchorTask) (id : String)
    (f : AnchorTask → AnchorTask) (hid : ∀ a, (f a).id = a.id)
    (hx : ∀ a, (f a).x = a.x) (hy : ∀ a, (f a).y = a.y) (id2 : String) :
    coordOf (updateAnchor anchors id f) id2 = coordOf anchors id2 := by
  unfold coordOf lookupById updateAnchor
  rw [List.find?_map]
  have hpeq : ((fun a : AnchorTask => a.id == id2) ∘ fun a =>
      if a.id == id then f a else a) = fun a : AnchorTask => a.id == id2 := by
    funext a
    by_cases hc : (a.id == id) = true
    · simp [Function.comp, hc, hid]
    · simp [Function.comp, hc]
  rw [hpeq]
  cases hfind : anchors.find? fun a => a.id == id2 with
  | none => rfl
  | some a =>
    show some ((fun a : AnchorTask => (a.x, a.y))
      (if a.id == id then f a else a)) = some (a.x, a.y)
    by_cases hc : (a.id == id) = true
    · rw [if_pos hc]
      show some ((f a).x, (f a).y) = some (a.x, a.y)
      rw [hx, hy]
    · rw [if_neg hc]

theorem foldl_coords_pres {α σ : Type} (π : σ → List AnchorTask)
    (f : σ → α → σ) (hf : ∀ st a id2, coordOf (π (f st a)) id2 = coordOf (π st) id2)
    (l : List α) : ∀ (st : σ) (id2 : String),
      coordOf (π (l.foldl f st)) id2 = coordOf (π st) id2 := by
  induction l with
  | nil => intro st id2; rfl
  | cons x xs ih =>
    intro st id2
    rw [List.foldl_cons, ih, hf]

theorem foldl_clock_mono {α σ : Type} (π : σ → Nat)
    (f : σ → α → σ) (hf : ∀ st a, π st ≤ π (f st a))
    (l : List α) : ∀ st : σ, π st ≤ π (l.foldl f st) := by
  induction l with
  | nil => intro st; exact Nat.le_refl _
  | cons x xs ih =>
    intro st
    rw [List.foldl_cons]
    exact Nat.le_trans (hf st x) (ih _)

theorem resolveBlockedAnchors_coords (anchors : List AnchorTask) (now : Nat)
    (id2 : String) :
    coordOf (resolveBlockedAnchors anchors now).1 id2 = coordOf anchors id2 := by
  unfold resolveBlockedAnchors
  dsimp only
  refine foldl_coords_pres Prod.fst _ ?_ _ _ id2
  intro st a id3
  dsimp only
  split
  · rfl
  · split
    · rfl
    · rename_i blocker heqb
      exact coordOf_updateAnchor st.1 a
        (fun x => { x with
          status := .BLOCKED, blockedBy := some blocker, finishedAt := some st.2.1 })
        (fun x => rfl) (fun x => rfl) (fun x => rfl) id3

theorem resolveBlockedAnchors_now_le (anchors : List AnchorTask) (now : Nat) :
    now ≤ (resolveBlockedAnchors anchors now).2.1 := by
  unfold resolveBlockedAnchors
  dsimp only
  refine foldl_clock_mono (fun st : List AnchorTask × Nat × Bool => st.2.1) _ ?_ _
    (anchors, now, false)
  intro st a
  dsimp only
  split
  · exact Nat.le_refl _
  · split
    · exact Nat.le_refl _
    · exact Nat.le_succ _

theorem blockUnreachablePendingAnchors_coords (anchors : List AnchorTask) (now : Nat)
    (id2 : String) :
    coordOf (blockUnreachablePendingAnchors anchors now).1 id2 = coordOf anchors id2 := by
  unfold blockUnreachablePendingAnchors
  dsimp only
  refine foldl_coords_pres Prod.fst _ ?_ _ _ id2
  intro st a id3
  exact coordOf_updateAnchor st.1 a
    (fun x => { x with
      status := .BLOCKED, blockedBy := x.deps.head?, finishedAt := some st.2 })
    (fun x => rfl) (fun x => rfl) (fun x => rfl) id3

theorem blockUnreachablePendingAnchors_now_le (anchors : List AnchorTask) (now : Nat) :
    now ≤ (blockUnreachablePendingAnchors anchors now).2 := by
  unfold blockUnreachablePendingAnchors
  dsimp only
  refine foldl_clock_mono (fun st : List AnchorTask × Nat => st.2) _ ?_ _ (anchors, now)
  intro st a
  exact Nat.le_succ _

theorem propagateLoop_coords (failedId : String) :
    ∀ (anchors : List AnchorTask) (queue : List String) (now : Nat) (acc : List String),
      ∀ id2 : String,
        coordOf (propagateLoop failedId anchors queue now acc).1 id2 =
          coordOf anchors id2 := by
  intro anchors queue now acc
  induction anchors, queue, now, acc using propagateLoop.induct failedId with
  | case1 anchors now acc =>
    intro id2
    rw [propagateLoop]
  | case2 anchors nextId queue now acc hfind ih =>
    intro id2
    rw [propagateLoop]
    split
    · exact ih id2
    · rename_i anchor2 heq
      rw [hfind] at heq
      exact Option.noConfusion heq
  | case3 anchors nextId queue now acc anchor hfind hp ih =>
    intro id2
    rw [propagateLoop]
    split
    · rename_i heq
      rw [hfind] at heq
      exact Option.noConfusion heq
    · rename_i anchor2 heq
      rw [hfind] at heq
      injection heq with heq2
      subst heq2
      rw [dif_pos hp]
      rw [ih id2]
      exact coordOf_updateAnchor anchors nextId
        (fun a => { a with
          status := .BLOCKED, blockedBy := some failedId, finishedAt := some now })
        (fun x => rfl) (fun x => rfl) (fun x => rfl) id2
  | case4 anchors nextId queue now acc anchor hfind hp ih =>
    intro id2
    rw [propagateLoop]
    split
    · rename_i heq
      rw [hfind] at heq
      exact Option.noConfusion heq
    · rename_i anchor2 heq
      rw [hfind] at heq
      injection heq with heq2
      subst heq2
      rw [dif_neg hp]
      exact ih id2

theorem propagateLoop_now_le (failedId : String) :
    ∀ (anchors : List AnchorTask) (queue : List String) (now : Nat) (acc : List String),
      now ≤ (propagateLoop failedId anchors queue now acc).2.1 := by
  intro anchors queue now acc
  induction anchors, queue, now, acc using propagateLoop.induct failedId with
  | case1 anchors now acc =>
    rw [propagateLoop]
  | case2 anchors nextId queue now acc hfind ih =>
    rw [propagateLoop]
    split
    · exact ih
    · rename_i anchor2 heq
      rw [hfind] at heq
      exact Option.noConfusion heq
  | case3 anchors nextId queue now acc anchor hfind hp ih =>
    rw [propagateLoop]
    split
    · rename_i heq
      rw [hfind] at heq
      exact Option.noConfusion heq
    · rename_i anchor2 heq
      rw [hfind] at heq
      injection heq with heq2
      subst heq2
      rw [dif_pos hp]
      exact Nat.le_trans (Nat.le_succ now) ih
  | case4 anchors nextId queue now acc anchor hfind hp ih =>
    rw [propagateLoop]
    split
    · rename_i heq
      rw [hfind] at heq
      exact Option.noConfusion heq
    · rename_i anchor2 heq
      rw [hfind] at heq
      injection heq with heq2
      subst heq2
      rw [dif_neg hp]
      exact ih

theorem propagateBlockedFrom_coords (anchors : List AnchorTask) (failedId : String)
    (now : Nat) (id2 : String) :
    coordOf (propagateBlockedFrom anchors failedId now).1 id2 = coordOf anchors id2 := by
  unfold propagateBlockedFrom
  exact propagateLoop_coords failedId anchors _ now [] id2

theorem propagateBlockedFrom_now_le (anchors : List AnchorTask) (failedId : String)
    (now : Nat) :
    now ≤ (propagateBlockedFrom anchors failedId now).2.1 := by
  unfold propagateBlockedFrom
  exact propagateLoop_now_le failedId anchors _ now []

theorem processWaveOutcomes_coords (wfa : Nat) :
    ∀ (outs : List (String × Bool)) (anchors : List AnchorTask) (now : Nat)
      (si fi2 bi : List String) (id2 : String),
      coordOf (processWaveOutcomes wfa outs anchors now si fi2 bi).1 id2 =
        coordOf anchors id2 := by
  intro outs
  induction outs with
  | nil =>
    intro anchors now si fi2 bi id2
    rw [processWaveOutcomes]
  | cons o rest ih =>
    obtain ⟨oid, ok⟩ := o
    intro anchors now si fi2 bi id2
    rw [processWaveOutcomes]
    split
    · exact ih anchors now si fi2 bi id2
    · split
      · rw [ih]
        exact coordOf_updateAnchor anchors oid
          (fun a => { a with
            finishedAt := some wfa, status := .SUCCESS, error := none })
          (fun x => rfl) (fun x => rfl) (fun x => rfl) id2
      · dsimp only
        rw [ih, propagateBlockedFrom_coords]
        exact coordOf_updateAnchor anchors oid
          (fun a => { a with
            finishedAt := some wfa, status := .FAILED,
            error := some "Anchor execution failed" })
          (fun x => rfl) (fun x => rfl) (fun x => rfl) id2

theorem processWaveOutcomes_now_le (wfa : Nat) :
    ∀ (outs : List (String × Bool)) (anchors : List AnchorTask) (now : Nat)
      (si fi2 bi : List String),
      now ≤ (processWaveOutcomes wfa outs anchors now si fi2 bi).2.1 := by
  intro outs
  induction outs with
  | nil =>
    intro anchors now si fi2 bi
    rw [processWaveOutcomes]
  | cons o rest ih =>
    obtain ⟨oid, ok⟩ := o
    intro anchors now si fi2 bi
    rw [processWaveOutcomes]
    split
    · exact ih anchors now si fi2 bi
    · split
      · exact ih _ now _ _ _
      · dsimp only
        refine Nat.le_trans ?_ (ih _ _ _ _ _)
        exact propagateBlockedFrom_now_le _ _ _

theorem nonOverlapIn_of_sameCoords {anchors a0 : List AnchorTask}
    (hsc : sameCoords anchors a0) {id1 id2 : String}
    (h : nonOverlapIn anchors id1 id2) : nonOverlapIn a0 id1 id2 := by
  intro a1 a2 h1 h2
  have hc1 : coordOf anchors id1 = some (a1.x, a1.y) := by
    rw [hsc id1]
    unfold coordOf
    rw [h1]
    rfl
  have hc2 : coordOf anchors id2 = some (a2.x, a2.y) := by
    rw [hsc id2]
    unfold coordOf
    rw [h2]
    rfl
  unfold coordOf at hc1 hc2
  cases hb1 : lookupById anchors id1 with
  | none =>
    rw [hb1] at hc1
    exact Option.noConfusion hc1
  | some b1 =>
    cases hb2 : lookupById anchors id2 with
    | none =>
      rw [hb2] at hc2
      exact Option.noConfusion hc2
    | some b2 =>
      rw [hb1] at hc1
      rw [hb2] at hc2
      have hc1b : some (b1.x, b1.y) = some (a1.x, a1.y) := hc1
      have hc2b : some (b2.x, b2.y) = some (a2.x, a2.y) := hc2
      have e1 : b1.x = a1.x ∧ b1.y = a1.y := by
        injection hc1b with hp
        simp only [Prod.mk.injEq] at hp
        exact hp
      have e2 : b2.x = a2.x ∧ b2.y = a2.y := by
        injection hc2b with hp
        simp only [Prod.mk.injEq] at hp
        exact hp
      rw [anchorsOverlap3x3_coords e1.1.symm e1.2.symm e2.1.symm e2.2.symm]
      exact h b1 b2 hb1 hb2

theorem pickWaveLoop_pairwise (anchors : List AnchorTask) (mp : Nat) :
    ∀ (ids selected : List String),
      List.Pairwise (nonOverlapIn anchors) selected →
      List.Pairwise (nonOverlapIn anchors) (pickWaveLoop anchors mp ids selected) := by
  intro ids
  induction ids with
  | nil =>
    intro selected h
    rw [pickWaveLoop]
    exact h
  | cons id rest ih =>
    intro selected h
    rw [pickWaveLoop]
    split
    · exact h
    · split
      · exact ih selected h
      · rename_i candidate heq
        dsimp only
        split
        · exact ih selected h
        · rename_i hconf
          refine ih _ ?_
          refine List.pairwise_append.mpr ⟨h, List.pairwise_singleton _ _, ?_⟩
          intro sid hsid y hy
          rw [List.mem_singleton] at hy
          subst hy
          intro b1 b2 hb1 hb2
          have hconf2 : (selected.any fun selectedId =>
              match lookupById anchors selectedId with
              | none => false
              | some selectedAnchor => anchorsOverlap3x3 candidate selectedAnchor) =
                false := by
            cases hca : selected.any fun selectedId =>
                match lookupById anchors selectedId with
                | none => false
                | some selectedAnchor => anchorsOverlap3x3 candidate selectedAnchor with
            | false => rfl
            | true => exact absurd hca hconf
          have hb := (List.any_eq_false.mp hconf2) sid hsid
          rw [hb1] at hb
          have hb2b : ¬ anchorsOverlap3x3 candidate b1 = true := hb
          have hcand : b2 = candidate := by
            rw [heq] at hb2
            injection hb2 with hinj
            exact hinj.symm
          rw [hcand, anchorsOverlap3x3_comm]
          cases hoc : anchorsOverlap3x3 candidate b1 with
          | false => rfl
          | true => exact absurd hoc hb2b

theorem pickWaveAnchorIds_pairwise (anchors : List AnchorTask) (mp : Nat)
    (readyIds : List String) :
    List.Pairwise (nonOverlapIn anchors) (pickWaveAnchorIds anchors mp readyIds) := by
  have hloop := pickWaveLoop_pairwise anchors mp readyIds [] List.Pairwise.nil
  unfold pickWaveAnchorIds
  dsimp only
  cases hsel : pickWaveLoop anchors mp readyIds [] with
  | nil =>
    cases readyIds with
    | nil => exact List.Pairwise.nil
    | cons r rs => exact List.pairwise_singleton _ _
  | cons a l =>
    rw [hsel] at hloop
    exact hloop

theorem get_append_last {α : Type} (l : List α) (x : α) (i : Nat)
    (h : i < (l ++ [x]).length) (hge : l.length ≤ i) : (l ++ [x]).get ⟨i, h⟩ = x := by
  have hmem := append_get_right_mem l [x] i h hge
  rw [List.mem_singleton] at hmem
  exact hmem

theorem waveStart_coords (wIdx started : Nat) (waveIds : List String) :
    ∀ (acc : List AnchorTask) (idq : String),
      coordOf (waveIds.foldl (fun acc id => updateAnchor acc id fun a =>
        { a with
          status := .RUNNING, waveIndex := some wIdx, startedAt := some started })
        acc) idq = coordOf acc idq := by
  induction waveIds with
  | nil => intro acc idq; rfl
  | cons x xs ihl =>
    intro acc idq
    rw [List.foldl_cons, ihl]
    exact coordOf_updateAnchor acc x
      (fun a => { a with
        status := .RUNNING, waveIndex := some wIdx, startedAt := some started })
      (fun z => rfl) (fun z => rfl) (fun z => rfl) idq

theorem wbInv_append_wave {a0 : List AnchorTask} {s : ExecState}
    (h : WBInv a0 s) (anchors2 : List AnchorTask) (now2 : Nat) (W : WaveResult)
    (hcoords : sameCoords anchors2 a0)
    (hidx : W.waveIndex = s.currentWave + 1)
    (hstart : W.startedAt = s.now)
    (hnow : s.now ≤ now2)
    (hpw : List.Pairwise (nonOverlapIn a0) W.taskIds) :
    WBInv a0 { anchors := anchors2, currentWave := s.currentWave + 1,
               waves := s.waves ++ [W], now := now2 } := by
  obtain ⟨hsc, hcw, hwi, hmono, hbound, hpww⟩ := h
  refine ⟨hcoords, ?_, ?_, ?_, ?_, ?_⟩
  · show s.currentWave + 1 = (s.waves ++ [W]).length
    rw [List.length_append, List.length_singleton, hcw]
  · intro i hh
    have hh2 : i < s.waves.length + 1 := by
      have hh3 : i < (s.waves ++ [W]).length := hh
      rw [List.length_append, List.length_singleton] at hh3
      exact hh3
    by_cases hlt : i < s.waves.length
    · have hg : (s.waves ++ [W]).get ⟨i, hh⟩ = s.waves.get ⟨i, hlt⟩ :=
        List.get_append i hlt
      rw [hg]
      exact hwi i hlt
    · have hie : i = s.waves.length := by omega
      have hg : (s.waves ++ [W]).get ⟨i, hh⟩ = W :=
        get_append_last _ _ _ _ (by omega)

      rw [hg, hidx, hcw, hie]
  · intro i j hi hj hij
    have hj2 : j < s.waves.length + 1 := by
      have hj3 : j < (s.waves ++ [W]).length := hj
      rw [List.length_append, List.length_singleton] at hj3
      exact hj3
    by_cases hjl : j < s.waves.length
    · have hil : i < s.waves.length := by omega
      have hgi : (s.waves ++ [W]).get ⟨i, hi⟩ = s.waves.get ⟨i, hil⟩ :=
        List.get_append i hil
      have hgj : (s.waves ++ [W]).get ⟨j, hj⟩ = s.waves.get ⟨j, hjl⟩ :=
        List.get_append j hjl
      rw [hgi, hgj]
      exact hmono i j hil hjl hij
    · have hgj : (s.waves ++ [W]).get ⟨j, hj⟩ = W :=
        get_append_last _ _ _ _ (by omega)
      rw [hgj, hstart]
      by_cases hil : i < s.waves.length
      · have hgi : (s.waves ++ [W]).get ⟨i, hi⟩ = s.waves.get ⟨i, hil⟩ :=
          List.get_append i hil
        rw [hgi]
        exact hbound i hil
      · have hgi : (s.waves ++ [W]).get ⟨i, hi⟩ = W :=
          get_append_last _ _ _ _ (by omega)
        rw [hgi, hstart]
  · intro i hh
    have hh2 : i < s.waves.length + 1 := by
      have hh3 : i < (s.waves ++ [W]).length := hh
      rw [List.length_append, List.length_singleton] at hh3
      exact hh3
    by_cases hlt : i < s.waves.length
    · have hg : (s.waves ++ [W]).get ⟨i, hh⟩ = s.waves.get ⟨i, hlt⟩ :=
        List.get_append i hlt
      rw [hg]
      exact Nat.le_trans (hbound i hlt) hnow
    · have hg : (s.waves ++ [W]).get ⟨i, hh⟩ = W :=
        get_append_last _ _ _ _ (by omega)
      rw [hg, hstart]
      exact hnow
  · intro w hw
    rcases List.mem_append.mp hw with hold | hnew
    · exact hpww w hold
    · rw [List.mem_singleton] at hnew
      rw [hnew]
      exact hpw

theorem wbInv_run (outcome : String → Bool) (mp : Nat) (po : List String)
    (a0 : List AnchorTask) (fuel : Nat) :
    ∀ s : ExecState, WBInv a0 s →
      WBInv a0 (runGenerationWaveBarrier outcome mp po fuel s) := by
  induction fuel with
  | zero =>
    intro s h
    rw [runGenerationWaveBarrier]
    exact h
  | succ n ih =>
    intro s h
    obtain ⟨hsc, hcw, hwi, hmono, hbound, hpw⟩ := h
    rw [runGenerationWaveBarrier]
    split
    · exact ⟨hsc, hcw, hwi, hmono, hbound, hpw⟩
    · dsimp only
      split
      · refine ih _ ⟨?_, hcw, hwi, hmono, ?_, hpw⟩
        · intro idq
          exact Eq.trans (resolveBlockedAnchors_coords s.anchors s.now idq) (hsc idq)
        · intro i hh
          exact Nat.le_trans (hbound i hh) (resolveBlockedAnchors_now_le _ _)
      · split
        · refine ih _ ⟨?_, hcw, hwi, hmono, ?_, hpw⟩
          · intro idq
            exact Eq.trans (blockUnreachablePendingAnchors_coords s.anchors s.now idq)
              (hsc idq)
          · intro i hh
            exact Nat.le_trans (hbound i hh) (blockUnreachablePendingAnchors_now_le _ _)
        · split
          · exact ih s ⟨hsc, hcw, hwi, hmono, hbound, hpw⟩
          · refine ih _ (wbInv_append_wave ⟨hsc, hcw, hwi, hmono, hbound, hpw⟩ _ _ _
              ?_ rfl rfl ?_ ?_)
            · intro idq
              exact Eq.trans (processWaveOutcomes_coords _ _ _ _ _ _ _ idq)
                (Eq.trans (waveStart_coords _ _ _ _ idq) (hsc idq))
            · refine Nat.le_trans ?_ (Nat.le_succ _)
              refine Nat.le_trans ?_ (processWaveOutcomes_now_le _ _ _ _ _ _ _)
              omega
            · exact List.Pairwise.imp (fun hx => nonOverlapIn_of_sameCoords hsc hx)
                (pickWaveAnchorIds_pairwise s.anchors mp _)

theorem wbInv_init (plan : AnchorPlan) (now0 : Nat) :
    WBInv plan.anchors (initExecState plan now0) := by
  refine ⟨fun id => rfl, rfl, ?_, ?_, ?_, ?_⟩
  · intro i hh
    exact absurd hh (Nat.not_lt_zero i)
  · intro i j hi hj hij
    exact absurd hi (Nat.not_lt_zero i)
  · intro i hh
    exact absurd hh (Nat.not_lt_zero i)
  · intro w hw
    exact absurd hw (List.not_mem_nil w)

theorem rollingFillGo_inv (outcome : String → Bool) (mp : Nat) (po : List String)
    (a0 : List AnchorTask) :
    ∀ (fuel : Nat) (s : RollingState), RollInv a0 s →
      RollInv a0 (rollingFillGo outcome mp po fuel s) := by
  intro fuel
  induction fuel with
  | zero =>
    intro s h
    rw [rollingFillGo]
    exact h
  | succ n ih =>
    intro s h
    obtain ⟨hsc, hif, hwaves⟩ := h
    rw [rollingFillGo]
    split
    · dsimp only
      split
      · exact ⟨hsc, hif, hwaves⟩
      · rename_i nextId hfind
        refine ih _ ⟨?_, ?_, hwaves⟩
        · intro idq
          exact Eq.trans (coordOf_updateAnchor s.anchors nextId
            (fun a => { a with
              status := .RUNNING, waveIndex := some (s.currentWave + 1),
              startedAt := some s.now })
            (fun z => rfl) (fun z => rfl) (fun z => rfl) idq) (hsc idq)
        · have hp := List.find?_some hfind
          cases hcand : lookupById s.anchors nextId with
          | none =>
            rw [hcand] at hp
            exact Bool.noConfusion hp
          | some candidate =>
            rw [hcand] at hp
            have hp2 : (!(s.inFlight.any fun entry =>
                match lookupById s.anchors entry.1 with
                | none => false
                | some runningAnchor => anchorsOverlap3x3 candidate runningAnchor)) =
                  true := hp
            have hany : (s.inFlight.any fun entry =>
                match lookupById s.anchors entry.1 with
                | none => false
                | some runningAnchor => anchorsOverlap3x3 candidate runningAnchor) =
                  false := by
              cases hca : s.inFlight.any fun entry =>
                  match lookupById s.anchors entry.1 with
                  | none => false
                  | some runningAnchor => anchorsOverlap3x3 candidate runningAnchor with
              | false => rfl
              | true =>
                rw [hca] at hp2
                exact Bool.noConfusion hp2
            refine List.pairwise_append.mpr ⟨hif, List.pairwise_singleton _ _, ?_⟩
            intro e he y hy
            rw [List.mem_singleton] at hy
            subst hy
            refine nonOverlapIn_of_sameCoords hsc ?_
            intro c1 c2 hc1 hc2
            have hb := (List.any_eq_false.mp hany) e he
            rw [hc1] at hb
            have hb2 : ¬ anchorsOverlap3x3 candidate c1 = true := hb
            have hcc : c2 = candidate := by
              rw [hcand] at hc2
              injection hc2 with hinj
              exact hinj.symm
            rw [hcc, anchorsOverlap3x3_comm]
            cases hoc : anchorsOverlap3x3 candidate c1 with
            | false => rfl
            | true => exact absurd hoc hb2
    · exact ⟨hsc, hif, hwaves⟩

theorem rollingFillLoop_inv (outcome : String → Bool) (mp : Nat) (po : List String)
    (a0 : List AnchorTask) (s : RollingState) (h : RollInv a0 s) :
    RollInv a0 (rollingFillLoop outcome mp po s) :=
  rollingFillGo_inv outcome mp po a0 _ s h

theorem rollInv_run (outcome : String → Bool) (mp : Nat) (po : List String)
    (schedule : Nat → Nat) (a0 : List AnchorTask) (fuel : Nat) :
    ∀ s : RollingState, RollInv a0 s →
      RollInv a0 (runGenerationRollingFill outcome mp po schedule fuel s) := by
  induction fuel with
  | zero =>
    intro s h
    rw [runGenerationRollingFill]
    exact h
  | succ n ih =>
    intro s h
    rw [runGenerationRollingFill]
    dsimp only
    split
    · obtain ⟨hsc, hif, hwaves⟩ := h
      refine ih _ ⟨?_, hif, hwaves⟩
      intro idq
      exact Eq.trans (resolveBlockedAnchors_coords _ _ idq) (hsc idq)
    · obtain ⟨hsc2, hif2, hwaves2⟩ := rollingFillLoop_inv outcome mp po a0 s h
      split
      · exact ⟨hsc2, hif2, hwaves2⟩
      · split
        · split
          · refine ih _ ⟨?_, hif2, hwaves2⟩
            intro idq
            exact Eq.trans (blockUnreachablePendingAnchors_coords _ _ idq) (hsc2 idq)
          · exact ih _ ⟨hsc2, hif2, hwaves2⟩
        · split
          · exact ⟨hsc2, hif2, hwaves2⟩
          · rename_i completed hget
            cases hlkp : lookupById (rollingFillLoop outcome mp po s).anchors
                completed.1 with
            | none => exact ⟨hsc2, hif2, hwaves2⟩
            | some anchor =>
              refine ih _ ⟨?_, ?_, ?_⟩
              · intro idq
                refine Eq.trans ?_ (hsc2 idq)
                split
                · exact coordOf_updateAnchor _ completed.1
                    (fun a => { a with
                      finishedAt := some (rollingFillLoop outcome mp po s).now,
                      status := .SUCCESS, error := none })
                    (fun z => rfl) (fun z => rfl) (fun z => rfl) idq
                · exact Eq.trans (propagateBlockedFrom_coords _ _ _ idq)
                    (coordOf_updateAnchor _ completed.1
                      (fun a => { a with
                        finishedAt := some (rollingFillLoop outcome mp po s).now,
                        status := .FAILED, error := some "Anchor execution failed" })
                      (fun z => rfl) (fun z => rfl) (fun z => rfl) idq)
              · exact List.Pairwise.sublist (List.eraseIdx_sublist _ _) hif2
              · intro w hw
                rcases List.mem_append.mp hw with hold | hnew
                · exact hwaves2 w hold
                · rw [List.mem_singleton] at hnew
                  rw [hnew]
                  exact List.pairwise_singleton _ _

theorem rollInv_init (plan : AnchorPlan) (now0 : Nat) :
    RollInv plan.anchors (initRollingState plan now0) :=
  ⟨fun _ => rfl, List.Pairwise.nil, fun w hw => absurd hw (List.not_mem_nil w)⟩

/-- C1: in both scheduling modes, every recorded wave's `taskIds` are pairwise
non-overlapping — any two distinct anchors of a wave satisfy
`|a.x − b.x| > 2 ∨ |a.y − b.y| > 2` — and in rolling-fill mode the in-flight
(concurrently RUNNING) anchors are pairwise non-overlapping as well.  The
statement quantifies over every fuel value, and the state after `k` loop
iterations is the final state of the run with fuel `k`, so this covers every
instant of a run. -/
theorem c1_running_pairwise_nonoverlap (outcome : String → Bool) (maxParallel : Nat)
    (priorityOrder : List String) (schedule : Nat → Nat) (fuel : Nat)
    (plan : AnchorPlan) (now0 : Nat) :
    (∀ w ∈ (runGenerationWaveBarrier outcome maxParallel priorityOrder fuel
        (initExecState plan now0)).waves,
      List.Pairwise (fun id1 id2 => ∀ a1 a2,
        lookupById plan.anchors id1 = some a1 →
        lookupById plan.anchors id2 = some a2 →
        |a1.x - a2.x| > 2 ∨ |a1.y - a2.y| > 2) w.taskIds) ∧
    (∀ w ∈ (runGenerationRollingFill outcome maxParallel priorityOrder schedule fuel
        (initRollingState plan now0)).waves,
      List.Pairwise (fun id1 id2 => ∀ a1 a2,
        lookupById plan.anchors id1 = some a1 →
        lookupById plan.anchors id2 = some a2 →
        |a1.x - a2.x| > 2 ∨ |a1.y - a2.y| > 2) w.taskIds) ∧
    List.Pairwise (fun e1 e2 : String × Bool => ∀ a1 a2,
        lookupById plan.anchors e1.1 = some a1 →
        lookupById plan.anchors e2.1 = some a2 →
        |a1.x - a2.x| > 2 ∨ |a1.y - a2.y| > 2)
      (runGenerationRollingFill outcome maxParallel priorityOrder schedule fuel
        (initRollingState plan now0)).inFlight := by
  obtain ⟨_, _, _, _, _, hwb⟩ := wbInv_run outcome maxParallel priorityOrder
    plan.anchors fuel _ (wbInv_init plan now0)
  obtain ⟨_, hrif, hrw⟩ := rollInv_run outcome maxParallel priorityOrder schedule
    plan.anchors fuel _ (rollInv_init plan now0)
  refine ⟨?_, ?_, ?_⟩
  · intro w hw
    refine List.Pairwise.imp ?_ (hwb w hw)
    intro id1 id2 hno a1 a2 h1 h2
    exact (anchorsOverlap3x3_eq_false_iff a1 a2).mp (hno a1 a2 h1 h2)
  · intro w hw
    refine List.Pairwise.imp ?_ (hrw w hw)
    intro id1 id2 hno a1 a2 h1 h2
    exact (anchorsOverlap3x3_eq_false_iff a1 a2).mp (hno a1 a2 h1 h2)
  · refine List.Pairwise.imp ?_ hrif
    intro e1 e2 hno a1 a2 h1 h2
    exact (anchorsOverlap3x3_eq_false_iff a1 a2).mp (hno a1 a2 h1 h2)

/-- C5 counterexample (rolling-fill mode): with two far-apart anchors, two
slots, and a completion schedule in which the second-started anchor settles
first, the run records its per-anchor waves in completion order, so the first
recorded wave carries `waveIndex = 2`, not `1` (its `startedAt` values are
also decreasing: `[1, 0]`). -/
theorem c5_counterexample :
    ¬ (∀ (i : Nat) (h : i < (runGenerationRollingFill (fun _ => true) 2
          ["u:0,v:0", "u:1,v:0"] (fun _ => 1) 5
          (initRollingState
            { anchors := [{ id := "u:0,v:0", u := 0, v := 0, x := 0, y := 0,
                            deps := [], dependents := [],
                            priority := ⟨0, 0, 4⟩, status := .PENDING, attempts := 0 },
                          { id := "u:1,v:0", u := 1, v := 0, x := 10, y := 0,
                            deps := [], dependents := [],
                            priority := ⟨1, 1, 4⟩, status := .PENDING, attempts := 0 }],
              byId := fun _ => none,
              priorityOrder := ["u:0,v:0", "u:1,v:0"],
              coverageBounds := none } 0)).waves.length),
        ((runGenerationRollingFill (fun _ => true) 2
          ["u:0,v:0", "u:1,v:0"] (fun _ => 1) 5
          (initRollingState
            { anchors := [{ id := "u:0,v:0", u := 0, v := 0, x := 0, y := 0,
                            deps := [], dependents := [],
                            priority := ⟨0, 0, 4⟩, status := .PENDING, attempts := 0 },
                          { id := "u:1,v:0", u := 1, v := 0, x := 10, y := 0,
                            deps := [], dependents := [],
                            priority := ⟨1, 1, 4⟩, status := .PENDING, attempts := 0 }],
              byId := fun _ => none,
              priorityOrder := ["u:0,v:0", "u:1,v:0"],
              coverageBounds := none } 0)).waves.get ⟨i, h⟩).waveIndex = i + 1) := by
  intro hcl
  have h0 := hcl 0 (by decide)
  revert h0
  decide

/-- C5 (amended): in wave-barrier mode the claim holds — for every run the
final waves list satisfies `waves[i].waveIndex = i + 1` and the `startedAt`
values are monotone along the list.  In rolling-fill mode the claim is false:
wave records are appended at completion time, so their `waveIndex` values
follow completion order, not list order. -/
theorem c5_wave_barrier_amended (outcome : String → Bool) (maxParallel : Nat)
    (priorityOrder : List String) (fuel : Nat) (plan : AnchorPlan) (now0 : Nat) :
    (∀ (i : Nat) (h : i < (runGenerationWaveBarrier outcome maxParallel priorityOrder
        fuel (initExecState plan now0)).waves.length),
      ((runGenerationWaveBarrier outcome maxParallel priorityOrder fuel
        (initExecState plan now0)).waves.get ⟨i, h⟩).waveIndex = i + 1) ∧
    (∀ (i j : Nat)
        (hi : i < (runGenerationWaveBarrier outcome maxParallel priorityOrder fuel
          (initExecState plan now0)).waves.length)
        (hj : j < (runGenerationWaveBarrier outcome maxParallel priorityOrder fuel
          (initExecState plan now0)).waves.length), i ≤ j →
      ((runGenerationWaveBarrier outcome maxParallel priorityOrder fuel
        (initExecState plan now0)).waves.get ⟨i, hi⟩).startedAt ≤
      ((runGenerationWaveBarrier outcome maxParallel priorityOrder fuel
        (initExecState plan now0)).waves.get ⟨j, hj⟩).startedAt) := by
  obtain ⟨_, _, hwi, hmono, _, _⟩ := wbInv_run outcome maxParallel priorityOrder
    plan.anchors fuel _ (wbInv_init plan now0)
  exact ⟨hwi, hmono⟩

/-! ## Claim C3: failure propagation blocks transitive dependents -/

theorem lookup_updateAnchor (anchors : List AnchorTask) (nid : String)
    (f : AnchorTask → AnchorTask) (hid : ∀ a, (f a).id = a.id) (x : String) :
    lookupById (updateAnchor anchors nid f) x =
      (lookupById anchors x).map fun a => if a.id == nid then f a else a := by
  unfold lookupById updateAnchor
  rw [List.find?_map]
  have hpeq : ((fun a : AnchorTask => a.id == x) ∘ fun a =>
      if a.id == nid then f a else a) = fun a : AnchorTask => a.id == x := by
    funext a
    by_cases hc : (a.id == nid) = true
    · simp [Function.comp, hc, hid]
    · simp [Function.comp, hc]
  rw [hpeq]

theorem lookupById_some_id {anchors : List AnchorTask} {x : String} {ax : AnchorTask}
    (h : lookupById anchors x = some ax) : ax.id = x := by
  have h2 : anchors.find? (fun a => a.id == x) = some ax := h
  have h3 := List.find?_some h2
  simpa using h3

theorem lookup_updateAnchor_self {anchors : List AnchorTask} {nid : String}
    {an : AnchorTask} (hn : lookupById anchors nid = some an)
    (f : AnchorTask → AnchorTask) (hid : ∀ a, (f a).id = a.id) :
    lookupById (updateAnchor anchors nid f) nid = some (f an) := by
  rw [lookup_updateAnchor anchors nid f hid nid, hn]
  show some (if (an.id == nid) = true then f an else an) = some (f an)
  rw [lookupById_some_id hn]
  simp

theorem lookup_updateAnchor_other {anchors : List AnchorTask} {nid x : String}
    {ax : AnchorTask} (hx : lookupById anchors x = some ax)
    (f : AnchorTask → AnchorTask) (hid : ∀ a, (f a).id = a.id) (hne : x ≠ nid) :
    lookupById (updateAnchor anchors nid f) x = some ax := by
  rw [lookup_updateAnchor anchors nid f hid x, hx]
  show some (if (ax.id == nid) = true then f ax else ax) = some ax
  rw [lookupById_some_id hx]
  simp [hne]

theorem queueReach_nil (anchors : List AnchorTask) (x : String)
    (h : QueueReach anchors [] x) : False := by
  induction h with
  | base hx => exact absurd hx (List.not_mem_nil _)
  | step hy hay hpend hx ih => exact ih

theorem queueReach_cons_of_none {anchors : List AnchorTask} {n : String}
    {q : List String} {x : String} (hn : lookupById anchors n = none)
    (h : QueueReach anchors (n :: q) x) : x = n ∨ QueueReach anchors q x := by
  induction h with
  | base hx =>
    rcases List.mem_cons.mp hx with h1 | h2
    · exact Or.inl h1
    · exact Or.inr (QueueReach.base h2)
  | step hy hay hpend hx ih =>
    rcases ih with h1 | h2
    · rw [h1] at hay
      rw [hn] at hay
      exact Option.noConfusion hay
    · exact Or.inr (QueueReach.step h2 hay hpend hx)

theorem queueReach_cons_of_notPending {anchors : List AnchorTask} {n : String}
    {q : List String} {an : AnchorTask} {x : String}
    (hn : lookupById anchors n = some an) (hnp : ¬ an.status = .PENDING)
    (h : QueueReach anchors (n :: q) x) : x = n ∨ QueueReach anchors q x := by
  induction h with
  | base hx =>
    rcases List.mem_cons.mp hx with h1 | h2
    · exact Or.inl h1
    · exact Or.inr (QueueReach.base h2)
  | step hy hay hpend hx ih =>
    rcases ih with h1 | h2
    · rw [h1] at hay
      rw [hn] at hay
      injection hay with he
      rw [he] at hnp
      exact absurd hpend hnp
    · exact Or.inr (QueueReach.step h2 hay hpend hx)

theorem queueReach_cons_of_pending {anchors : List AnchorTask} {n : String}
    {q : List String} {an : AnchorTask} {x : String}
    (hn : lookupById anchors n = some an) (_hp : an.status = .PENDING)
    (h : QueueReach anchors (n :: q) x) :
    x = n ∨ QueueReach anchors (q ++ an.dependents) x := by
  induction h with
  | base hx =>
    rcases List.mem_cons.mp hx with h1 | h2
    · exact Or.inl h1
    · exact Or.inr (QueueReach.base (List.mem_append.mpr (Or.inl h2)))
  | step hy hay hpend hx ih =>
    rcases ih with h1 | h2
    · rw [h1] at hay
      rw [hn] at hay
      injection hay with he
      subst he
      exact Or.inr (QueueReach.base (List.mem_append.mpr (Or.inr hx)))
    · exact Or.inr (QueueReach.step h2 hay hpend hx)

theorem queueReach_update {anchors : List AnchorTask} {n : String}
    {an : AnchorTask} (hn : lookupById anchors n = some an)
    (f : AnchorTask → AnchorTask) (hid : ∀ a, (f a).id = a.id)
    {q2 : List String} (hdeps : ∀ z ∈ an.dependents, z ∈ q2) {x : String}
    (h : QueueReach anchors q2 x) :
    QueueReach (updateAnchor anchors n f) q2 x := by
  induction h with
  | base hx => exact QueueReach.base hx
  | step hy hay hpend hx ih =>
    rename_i y x2 ay
    by_cases hyn : y = n
    · rw [hyn] at hay
      rw [hn] at hay
      injection hay with he
      subst he
      exact QueueReach.base (hdeps x2 hx)
    · exact QueueReach.step ih (lookup_updateAnchor_other hay f hid hyn) hpend hx

theorem propagateLoop_keeps_nonpending (failedId : String) :
    ∀ (anchors : List AnchorTask) (queue : List String) (now : Nat) (acc : List String)
      (x : String) (ax : AnchorTask),
      lookupById anchors x = some ax → ¬ ax.status = .PENDING →
      lookupById (propagateLoop failedId anchors queue now acc).1 x = some ax := by
  intro anchors queue now acc
  induction anchors, queue, now, acc using propagateLoop.induct failedId with
  | case1 anchors now acc =>
    intro x ax hlx hnp
    rw [propagateLoop]
    exact hlx
  | case2 anchors nextId queue now acc hfind ih =>
    intro x ax hlx hnp
    rw [propagateLoop]
    split
    · exact ih x ax hlx hnp
    · rename_i anchor2 heq
      rw [hfind] at heq
      exact Option.noConfusion heq
  | case3 anchors nextId queue now acc anchor hfind hp ih =>
    intro x ax hlx hnp
    rw [propagateLoop]
    split
    · rename_i heq
      rw [hfind] at heq
      exact Option.noConfusion heq
    · rename_i anchor2 heq
      rw [hfind] at heq
      injection heq with he
      subst he
      rw [dif_pos hp]
      refine ih x ax ?_ hnp
      have hxn : x ≠ nextId := by
        intro hcontra
        rw [hcontra] at hlx
        rw [hfind] at hlx
        injection hlx with he2
        rw [he2] at hp
        exact absurd hp hnp
      exact lookup_updateAnchor_other hlx
        (fun a => { a with status := .BLOCKED, blockedBy := some failedId, finishedAt := some now })
        (fun a => rfl) hxn
  | case4 anchors nextId queue now acc anchor hfind hp ih =>
    intro x ax hlx hnp
    rw [propagateLoop]
    split
    · rename_i heq
      rw [hfind] at heq
      exact Option.noConfusion heq
    · rename_i anchor2 heq
      rw [hfind] at heq
      injection heq with he
      subst he
      rw [dif_neg hp]
      exact ih x ax hlx hnp

theorem propagateLoop_blocks (failedId : String) :
    ∀ (anchors : List AnchorTask) (queue : List String) (now : Nat) (acc : List String)
      (x : String), QueueReach anchors queue x →
      ∀ ax : AnchorTask, lookupById anchors x = some ax → ax.status = .PENDING →
      ∃ ax', lookupById (propagateLoop failedId anchors queue now acc).1 x = some ax' ∧
        ax'.status = .BLOCKED ∧ ax'.blockedBy = some failedId := by
  intro anchors queue now acc
  induction anchors, queue, now, acc using propagateLoop.induct failedId with
  | case1 anchors now acc =>
    intro x hreach ax hlx hpx
    exact (queueReach_nil anchors x hreach).elim
  | case2 anchors nextId queue now acc hfind ih =>
    intro x hreach ax hlx hpx
    rw [propagateLoop]
    split
    · rcases queueReach_cons_of_none hfind hreach with h1 | h2
      · rw [h1] at hlx
        rw [hfind] at hlx
        exact Option.noConfusion hlx
      · exact ih x h2 ax hlx hpx
    · rename_i anchor2 heq
      rw [hfind] at heq
      exact Option.noConfusion heq
  | case3 anchors nextId queue now acc anchor hfind hp ih =>
    intro x hreach ax hlx hpx
    rw [propagateLoop]
    split
    · rename_i heq
      rw [hfind] at heq
      exact Option.noConfusion heq
    · rename_i anchor2 heq
      rw [hfind] at heq
      injection heq with he
      subst he
      rw [dif_pos hp]
      by_cases hxn : x = nextId
      · subst hxn
        have hlu : lookupById (updateAnchor anchors x fun a =>
            { a with status := .BLOCKED, blockedBy := some failedId, finishedAt := some now }) x =
            some { anchor with status := .BLOCKED, blockedBy := some failedId, finishedAt := some now } :=
          lookup_updateAnchor_self hfind
            (fun a => { a with status := .BLOCKED, blockedBy := some failedId, finishedAt := some now })
            (fun a => rfl)
        refine ⟨_, propagateLoop_keeps_nonpending failedId _ _ _ _ x _ hlu ?_, rfl, rfl⟩
        intro hc
        exact AnchorTaskStatus.noConfusion hc
      · rcases queueReach_cons_of_pending hfind hp hreach with h1 | h2
        · exact absurd h1 hxn
        · have h3 := queueReach_update hfind
            (fun a => { a with status := .BLOCKED, blockedBy := some failedId, finishedAt := some now })
            (fun a => rfl) (fun z hz => List.mem_append.mpr (Or.inr hz)) h2
          have hlx2 : lookupById (updateAnchor anchors nextId fun a =>
              { a with status := .BLOCKED, blockedBy := some failedId, finishedAt := some now }) x = some ax :=
            lookup_updateAnchor_other hlx
              (fun a => { a with status := .BLOCKED, blockedBy := some failedId, finishedAt := some now })
              (fun a => rfl) hxn
          exact ih x h3 ax hlx2 hpx
  | case4 anchors nextId queue now acc anchor hfind hp ih =>
    intro x hreach ax hlx hpx
    rw [propagateLoop]
    split
    · rename_i heq
      rw [hfind] at heq
      exact Option.noConfusion heq
    · rename_i anchor2 heq
      rw [hfind] at heq
      injection heq with he
      subst he
      rw [dif_neg hp]
      rcases queueReach_cons_of_notPending hfind hp hreach with h1 | h2
      · rw [h1] at hlx
        rw [hfind] at hlx
        injection hlx with he2
        rw [he2] at hp
        exact absurd hpx hp
      · exact ih x h2 ax hlx hpx

theorem transDependent_root_exists {anchors : List AnchorTask} {root x : String}
    (h : TransDependent anchors root x) :
    ∃ ra, lookupById anchors root = some ra := by
  induction h with
  | direct ha hx => exact ⟨_, ha⟩
  | step hy hay hx ih => exact ih

theorem transDependent_queueReach {anchors : List AnchorTask} {root : String}
    (hall : ∀ y, TransDependent anchors root y →
      ∀ ay, lookupById anchors y = some ay → ay.status = .PENDING)
    {ra : AnchorTask} (hroot : lookupById anchors root = some ra) :
    ∀ x, TransDependent anchors root x → QueueReach anchors ra.dependents x := by
  intro x h
  induction h with
  | direct ha hx =>
    rw [hroot] at ha
    injection ha with he
    subst he
    exact QueueReach.base hx
  | step hy hay hx ih =>
    exact QueueReach.step ih hay (hall _ hy _ hay) hx

/-- C3: when an anchor transitions to FAILED, `propagateBlockedFrom` walks its
`dependents` breadth-first and turns every transitive dependent into BLOCKED
with `blockedBy` the failed anchor's id — in particular every transitive
dependent ends FAILED-or-BLOCKED.  The hypothesis that the transitive
dependents are still PENDING is exactly the "still-PENDING descendant"
condition of the claim; it holds whenever an anchor has just failed, since in
the planner's dependency tree an anchor can only leave PENDING after its sole
dependency chain has succeeded. -/
theorem c3_failed_blocks_transitive_dependents (anchors : List AnchorTask)
    (failedId : String) (now : Nat)
    (hall : ∀ y, TransDependent anchors failedId y →
      ∀ ay, lookupById anchors y = some ay → ay.status = .PENDING) :
    ∀ x, TransDependent anchors failedId x →
      ∀ ax, lookupById anchors x = some ax →
        ∃ ax', lookupById (propagateBlockedFrom anchors failedId now).1 x = some ax' ∧
          ax'.status = .BLOCKED ∧ ax'.blockedBy = some failedId ∧
          (ax'.status = .FAILED ∨ ax'.status = .BLOCKED) := by
  intro x hx ax hlx
  obtain ⟨ra, hra⟩ := transDependent_root_exists hx
  have hq := transDependent_queueReach hall hra x hx
  have hpx := hall x hx ax hlx
  obtain ⟨ax', h1, h2, h3⟩ :=
    propagateLoop_blocks failedId anchors ra.dependents now [] x hq ax hlx hpx
  refine ⟨ax', ?_, h2, h3, Or.inr h2⟩
  unfold propagateBlockedFrom
  rw [hra]
  exact h1

theorem c3_failed_blocks_transitive_dependents_witness :
    ∃ ax', lookupById (propagateBlockedFrom c3DemoStore "u:0,v:0" 0).1 "u:1,v:0" = some ax' ∧
      ax'.status = .BLOCKED ∧ ax'.blockedBy = some "u:0,v:0" ∧
      (ax'.status = .FAILED ∨ ax'.status = .BLOCKED) := by
  have honly : ∀ y, TransDependent c3DemoStore "u:0,v:0" y → y = "u:1,v:0" := by
    intro y hy
    induction hy with
    | direct ha hx =>
      rw [show lookupById c3DemoStore "u:0,v:0" = some c3DemoA from rfl] at ha
      injection ha with he
      rw [← he] at hx
      have hx2 : _ ∈ ["u:1,v:0"] := hx
      simpa using hx2
    | step hy hay hx ih =>
      rw [ih] at hay
      rw [show lookupById c3DemoStore "u:1,v:0" = some c3DemoB from rfl] at hay
      injection hay with he
      rw [← he] at hx
      have hx2 : _ ∈ ([] : List String) := hx
      simp at hx2
  have hall : ∀ y, TransDependent c3DemoStore "u:0,v:0" y →
      ∀ ay, lookupById c3DemoStore y = some ay → ay.status = .PENDING := by
    intro y hy ay hay
    rw [honly y hy] at hay
    rw [show lookupById c3DemoStore "u:1,v:0" = some c3DemoB from rfl] at hay
    injection hay with he
    rw [← he]
    rfl
  have htd : TransDependent c3DemoStore "u:0,v:0" "u:1,v:0" :=
    @TransDependent.direct c3DemoStore "u:0,v:0" c3DemoA "u:1,v:0" rfl
      (by show _ ∈ ["u:1,v:0"]; simp)
  exact c3_failed_blocks_transitive_dependents c3DemoStore "u:0,v:0" 0 hall
    "u:1,v:0" htd c3DemoB rfl

end Infinimap
